import Mathlib

/-!
# Pyramid stereo correlation: the adaptive region subdivider and the level loop

A shallow embedding of `src/vw/Stereo/rewrite/CorrelationView.h`
(`PyramidCorrelationView`): the recursive quad-tree subdivider
`subdivide_regions`, the pyramid-depth computation and the coarse-to-fine
zone bookkeeping of `prerasterize`.

Conventions of the embedding:

* `int32` values are integers (`Int`).  Coordinates, sizes and displacements
  are taken as they are.  The products and sums that leave the `int32` range on
  inputs the code receives, the area `prod(current_bbox.size())` of the terminal
  test and the two search costs `split_search` and `current_search`, are reduced
  modulo 2^32 into the `int32` range (`wrap_int32`), which is what the two's
  complement arithmetic of the compiled code leaves in the variable.  C++
  integer division, which truncates towards zero, is `Int.tdiv`.
* A `PixelMask<Vector2i>` is an `Option Vector2i`; `none` is an invalid pixel.
* `std::list<SearchParam>` is a `List SearchParam`; `push_back` appends at
  the end.  A function that mutates a list through a reference takes the list
  and returns the new one.
* The test `split_search > current_search*0.9` is done by the code in double
  precision on two `int32` values.  For such values it decides exactly
  `10 * split_search > 9 * current_search`, which is how it is written here.
* The two level counts are computed by the code as floors of floating-point
  logarithms.  They are embedded with exact logarithms, as integer functions
  (`floor_log2`, `floor_log2_ratio`) that are proved equal to the floors of
  `Real.logb 2`.  The floating-point evaluation is not modelled: where the
  exact difference `log2 t - log2 k` is an integer it can come out just below
  that integer, and the code then uses one level fewer than `floor_log2_ratio`
  (at `t = 112`, `k = 7` the code has 3 levels, the exact value is 4).  The
  theorems about the tile computation hold for the depth of the embedding; the
  bounds on the depth are proved for every smaller depth as well.
* The images, the block matcher `best_of_search_convolution`, the consistency
  checker and `BBox2i::expand` are not part of the sources at hand.  The tile
  computation takes them as a parameter (`Collaborators`), so that every theorem
  about it holds for any block matcher, checker and `expand`.
-/

namespace vw
namespace stereo
namespace rewrite

/-! ## Data model -/

/-- Integer vector of dimension two (`Vector2i`). -/
structure Vector2i where
  x : Int
  y : Int
deriving DecidableEq

/-- Modelled from the spec: the axis-aligned integer bounding box `BBox2i`
(`vw/Math/BBox.h` is not part of the sources at hand), defined by its min and
max corners; the max corner is exclusive. -/
structure BBox2i where
  min : Vector2i
  max : Vector2i
deriving DecidableEq

/-- A masked displacement pixel, `PixelMask<Vector2i>`. -/
abbrev PixelMask := Option Vector2i

/-- Zone: first is the region, second is the search location
(`typedef std::pair<BBox2i,BBox2i> SearchParam`). -/
abbrev SearchParam := BBox2i × BBox2i

/-- Dense disparity map `ImageView<PixelMask<Vector2i> >`: its size and its
pixel at column `i`, row `j`. -/
structure ImageView where
  cols : Int
  rows : Int
  pix : Int → Int → PixelMask

/-- Largest `int32`. -/
def INT32_MAX : Int := 2147483647

/-- Smallest `int32`. -/
def INT32_MIN : Int := -2147483648

/-- The value that an `int32` variable holds when the exact result of the `int32`
operations `+` and `*` that compute it is `n`: `n` reduced modulo 2^32 into
`INT32_MIN .. INT32_MAX` (two's complement wrap-around).  Reducing once at the
end gives the same value as reducing after every operation.  The formula is the
same for both signs of `n`. -/
def wrap_int32 : Int → Int
  | Int.ofNat m => (Int.ofNat m - INT32_MIN) % 4294967296 + INT32_MIN
  | Int.negSucc m => (Int.negSucc m - INT32_MIN) % 4294967296 + INT32_MIN

/-- Modelled from the spec: the default box `BBox2i()`, the canonical
empty/undefined sentinel.  Its corners sit at the opposite ends of the numeric
range, which makes it the identity of the min/max union `expand_bbox`. -/
def BBox2i.default : BBox2i :=
  ⟨⟨INT32_MAX, INT32_MAX⟩, ⟨INT32_MIN, INT32_MIN⟩⟩

/-- Modelled from the spec: `BBox2i::width()`, max x minus min x. -/
def BBox2i.width (b : BBox2i) : Int := b.max.x - b.min.x

/-- Modelled from the spec: `BBox2i::height()`, max y minus min y. -/
def BBox2i.height (b : BBox2i) : Int := b.max.y - b.min.y

/-- Modelled from the spec: `BBox2i::size()`, max corner minus min corner. -/
def BBox2i.size (b : BBox2i) : Vector2i := ⟨b.max.x - b.min.x, b.max.y - b.min.y⟩

/-- Product of the components of a vector (`prod`). -/
def prod (v : Vector2i) : Int := v.x * v.y

/-- Componentwise sum of two vectors. -/
def Vector2i.add (a b : Vector2i) : Vector2i := ⟨a.x + b.x, a.y + b.y⟩

/-- Componentwise truncating division of a vector by a scalar. -/
def Vector2i.div (a : Vector2i) (s : Int) : Vector2i := ⟨a.x.tdiv s, a.y.tdiv s⟩

/-- The pixel `(i, j)` lies in the box: min inclusive, max exclusive. -/
def BBox2i.contains (b : BBox2i) (i j : Int) : Prop :=
  b.min.x ≤ i ∧ i < b.max.x ∧ b.min.y ≤ j ∧ j < b.max.y

instance (b : BBox2i) (i j : Int) : Decidable (b.contains i j) := by
  unfold BBox2i.contains; exact inferInstance

/-- `bounding_box(image)`: the box `[0, cols) x [0, rows)`. -/
def bounding_box (image : ImageView) : BBox2i := ⟨⟨0, 0⟩, ⟨image.cols, image.rows⟩⟩

/-! ## Pixel accumulation over a cropped region -/

/-- Modelled from the spec: one step of `PixelAccumulator<EWMinMaxAccumulator<Vector2i> >`.
Invalid pixels are skipped; valid ones update the element-wise minimum and
maximum.  The state is `none` while no valid pixel has been seen
(`is_valid()` is false). -/
def accumulator_step (acc : Option (Vector2i × Vector2i)) (p : PixelMask) :
    Option (Vector2i × Vector2i) :=
  match p with
  | none => acc
  | some d =>
    match acc with
    | none => some (d, d)
    | some (mn, mx) =>
      some (⟨Min.min mn.x d.x, Min.min mn.y d.y⟩, ⟨Max.max mx.x d.x, Max.max mx.y d.y⟩)

/-- The pixel positions of `crop(image, b)` in raster order: rows outermost.
A box of negative width or height has no pixel. -/
def crop_positions (b : BBox2i) : List (Int × Int) :=
  (List.range b.height.toNat).flatMap fun (j : Nat) =>
    (List.range b.width.toNat).map fun (i : Nat) => (b.min.x + (i : Int), b.min.y + (j : Int))

/-- The accumulator after `for_each_pixel( crop(disparity, b), accumulator )`:
`none` if the region holds no valid pixel, otherwise the element-wise minimum and
maximum of the valid displacements. -/
def accumulate (disparity : ImageView) (b : BBox2i) : Option (Vector2i × Vector2i) :=
  (crop_positions b).foldl (fun acc p => accumulator_step acc (disparity.pix p.1 p.2)) none

/-- The search box built from an accumulator,
`BBox2i(accumulator.minimum(), accumulator.maximum() + Vector2i(1,1))`. -/
def search_box (mn mx : Vector2i) : BBox2i := ⟨mn, ⟨mx.x + 1, mx.y + 1⟩⟩

/-- The value a quadrant's search variable holds after its accumulation block:
the observed box when the accumulator is valid, the default box otherwise. -/
def quadrant_search (disparity : ImageView) (q : BBox2i) : BBox2i :=
  match accumulate disparity q with
  | some (mn, mx) => search_box mn mx
  | none => BBox2i.default

/-! ## The subdivider -/

/-- The private helper `area`: zero for a box of negative width or height.  On the
default box the width is `INT32_MIN - INT32_MAX`, negative here, so that its area
is 0 as the guard intends; a 32-bit subtraction would wrap it to 1.  For a
region without valid pixel either value keeps `split_search = 0` from exceeding
`0.9 * current_search` when the kernel size is not negative. -/
def area (a : BBox2i) : Int :=
  let width := a.width
  let heigh := a.height
  if width < 0 ∨ heigh < 0 then 0 else width * heigh

/-- The private helper `expand_bbox`: grows `a` to the min/max union with `b`. -/
def expand_bbox (a b : BBox2i) : BBox2i :=
  ⟨⟨Min.min a.min.x b.min.x, Min.min a.min.y b.min.y⟩,
   ⟨Max.max a.max.x b.max.x, Max.max a.max.y b.max.y⟩⟩

/-- Step 1 test of `subdivide_regions`: is the region too small to split?  The
product `prod(current_bbox.size())` is an `int32` product. -/
def is_terminal (current_bbox : BBox2i) : Bool :=
  decide (wrap_int32 (prod current_bbox.size) ≤ 200 ∨ current_bbox.width < 16 ∨
    current_bbox.height < 16)

/-- The split point `current_bbox.size()/2`. -/
def split_pt (current_bbox : BBox2i) : Vector2i := current_bbox.size.div 2

/-- Quadrant `q1`: from the min corner to the split point. -/
def q1 (b : BBox2i) : BBox2i := ⟨b.min, b.min.add (split_pt b)⟩

/-- Quadrant `q2`: right of `q1`. -/
def q2 (b : BBox2i) : BBox2i :=
  ⟨b.min.add ⟨(split_pt b).x, 0⟩, ⟨b.max.x, b.min.y + (split_pt b).y⟩⟩

/-- Quadrant `q3`: below `q1`. -/
def q3 (b : BBox2i) : BBox2i :=
  ⟨b.min.add ⟨0, (split_pt b).y⟩, ⟨b.min.x + (split_pt b).x, b.max.y⟩⟩

/-- Quadrant `q4`: from the split point to the max corner. -/
def q4 (b : BBox2i) : BBox2i := ⟨b.min.add (split_pt b), b.max⟩

/-- The contribution of one quadrant to `split_search`: nothing when the
quadrant has no valid pixel, else `area(q_search) * prod(q.size()+kernel_size)`. -/
def quadrant_cost (disparity : ImageView) (q : BBox2i) (kernel_size : Vector2i) : Int :=
  match accumulate disparity q with
  | some (mn, mx) => area (search_box mn mx) * prod (q.size.add kernel_size)
  | none => 0

/-- The sum that the four quadrant blocks accumulate in `split_search`, as an
exact integer. -/
def exact_split_search (disparity : ImageView) (b : BBox2i) (kernel_size : Vector2i) : Int :=
  0 + quadrant_cost disparity (q1 b) kernel_size + quadrant_cost disparity (q2 b) kernel_size
    + quadrant_cost disparity (q3 b) kernel_size + quadrant_cost disparity (q4 b) kernel_size

/-- The `int32` variable `split_search` after the four quadrant blocks: the
accumulated sum as `int32` arithmetic leaves it. -/
def split_search (disparity : ImageView) (b : BBox2i) (kernel_size : Vector2i) : Int :=
  wrap_int32 (exact_split_search disparity b kernel_size)

/-- One of the three identical statements of step 3: take `q_search` when it is
not the default box and the region still is, else `expand_bbox`. -/
def absorb_search (current_search_region q_search : BBox2i) : BBox2i :=
  if q_search ≠ BBox2i.default ∧ current_search_region = BBox2i.default then q_search
  else expand_bbox current_search_region q_search

/-- Step 3 of `subdivide_regions`: the region's own search box. -/
def current_search_region (disparity : ImageView) (b : BBox2i) : BBox2i :=
  let q1_search := quadrant_search disparity (q1 b)
  let q2_search := quadrant_search disparity (q2 b)
  let q3_search := quadrant_search disparity (q3 b)
  let q4_search := quadrant_search disparity (q4 b)
  let c0 := if q1_search ≠ BBox2i.default then q1_search else BBox2i.default
  let c1 := absorb_search c0 q2_search
  let c2 := absorb_search c1 q3_search
  absorb_search c2 q4_search

/-- The cost of matching the region as one zone,
`area(current_search_region) * prod(current_bbox.size()+kernel_size)`, as an exact
integer. -/
def exact_current_search (disparity : ImageView) (b : BBox2i) (kernel_size : Vector2i) : Int :=
  area (current_search_region disparity b) * prod (b.size.add kernel_size)

/-- The `int32` variable `current_search`: the cost of matching the region as one
zone as `int32` arithmetic leaves it. -/
def current_search (disparity : ImageView) (b : BBox2i) (kernel_size : Vector2i) : Int :=
  wrap_int32 (exact_current_search disparity b kernel_size)

/-- The test `split_search > current_search*0.9` on the two `int32` variables. -/
def bad_split (disparity : ImageView) (b : BBox2i) (kernel_size : Vector2i) : Bool :=
  decide (10 * split_search disparity b kernel_size > 9 * current_search disparity b kernel_size)

/-- Two failed quadrants can be merged: equal min x or equal min y, and the
same search box. -/
def can_merge (a b : SearchParam) : Bool :=
  decide ((a.1.min.x = b.1.min.x ∨ a.1.min.y = b.1.min.y) ∧ a.2 = b.2)

/-- The zone pushed for two merged quadrants. -/
def merged (a b : SearchParam) : SearchParam := (expand_bbox a.1 b.1, a.2)

/-- What the retry branch appends to the list once the failed quadrants are
collected, by the number of failures. -/
def fold_failed (current_bbox current_search_region : BBox2i) (failed : List SearchParam) :
    List SearchParam :=
  match failed with
  | [_, _, _, _] => [(current_bbox, current_search_region)]
  | [f1, f2, f3] =>
    if can_merge f1 f2 then [merged f1 f2, f3]
    else if can_merge f2 f3 then [merged f2 f3, f1]
    else if can_merge f1 f3 then [merged f1 f3, f2]
    else [f1, f2, f3]
  | [f1, f2] =>
    if can_merge f1 f2 then [merged f1 f2] else [f1, f2]
  | [f1] => [f1]
  | _ => []

/-- The recursive subdivider `subdivide_regions(disparity, current_bbox, list,
kernel_size, fail_count)`.  Returns the `bool` result together with the list
after the call. -/
def subdivide_regions (disparity : ImageView) (current_bbox : BBox2i)
    (list : List SearchParam) (kernel_size : Vector2i) (fail_count : Int) :
    Bool × List SearchParam :=
  -- 1.) Is this region too small? Must we stop?
  if _hterm : is_terminal current_bbox = true then
    match accumulate disparity current_bbox with
    | none => (true, list)
    | some (mn, mx) => (true, list ++ [(current_bbox, search_box mn mx)])
  else
    -- 2) and 3): quadrants, their searches and the two costs
    if bad_split disparity current_bbox kernel_size = true ∧ fail_count = 0 then
      -- Did bad .. maybe next level will have better luck?
      let r1 := subdivide_regions disparity (q1 current_bbox) list kernel_size (fail_count + 1)
      let failed1 : List SearchParam :=
        if r1.1 = false then [(q1 current_bbox, quadrant_search disparity (q1 current_bbox))]
        else []
      let r2 := subdivide_regions disparity (q2 current_bbox) r1.2 kernel_size (fail_count + 1)
      let failed2 : List SearchParam :=
        if r2.1 = false then
          failed1 ++ [(q2 current_bbox, quadrant_search disparity (q2 current_bbox))]
        else failed1
      let r3 := subdivide_regions disparity (q3 current_bbox) r2.2 kernel_size (fail_count + 1)
      let failed3 : List SearchParam :=
        if r3.1 = false then
          failed2 ++ [(q3 current_bbox, quadrant_search disparity (q3 current_bbox))]
        else failed2
      let r4 := subdivide_regions disparity (q4 current_bbox) r3.2 kernel_size (fail_count + 1)
      let failed : List SearchParam :=
        if r4.1 = false then
          failed3 ++ [(q4 current_bbox, quadrant_search disparity (q4 current_bbox))]
        else failed3
      (true,
        r4.2 ++ fold_failed current_bbox (current_search_region disparity current_bbox) failed)
    else if bad_split disparity current_bbox kernel_size = true ∧ fail_count > 0 then
      -- Bad again .. back up
      (false, list)
    else
      -- Good split
      let r1 := subdivide_regions disparity (q1 current_bbox) list kernel_size 0
      let r2 := subdivide_regions disparity (q2 current_bbox) r1.2 kernel_size 0
      let r3 := subdivide_regions disparity (q3 current_bbox) r2.2 kernel_size 0
      let r4 := subdivide_regions disparity (q4 current_bbox) r3.2 kernel_size 0
      (true, r4.2)
termination_by current_bbox.width.toNat
decreasing_by
  all_goals
    simp only [is_terminal, decide_eq_true_eq, not_or, not_lt, not_le] at _hterm
    obtain ⟨-, hw, -⟩ := _hterm
    simp only [BBox2i.width] at hw
    simp only [q1, q2, q3, q4, split_pt, BBox2i.width, BBox2i.size, Vector2i.add, Vector2i.div]
    have h2 := Int.tdiv_add_tmod (current_bbox.max.x - current_bbox.min.x) 2
    have h3 := Int.tmod_nonneg 2 (by omega : 0 ≤ current_bbox.max.x - current_bbox.min.x)
    have h4 := Int.tmod_lt_of_pos (current_bbox.max.x - current_bbox.min.x)
      (by omega : (0 : Int) < 2)
    omega

/-- The recursive calls in the body of `subdivide_regions` for the arguments
`current_bbox` and `fail_count`, in the order they are made: the region and the
`fail_count` argument of each.  The retry branch passes `fail_count + 1`, the
good-split branch leaves the argument to its default 0. -/
def recursive_calls (disparity : ImageView) (current_bbox : BBox2i) (kernel_size : Vector2i)
    (fail_count : Int) : List (BBox2i × Int) :=
  if is_terminal current_bbox = true then []
  else if bad_split disparity current_bbox kernel_size = true ∧ fail_count = 0 then
    [(q1 current_bbox, fail_count + 1), (q2 current_bbox, fail_count + 1),
     (q3 current_bbox, fail_count + 1), (q4 current_bbox, fail_count + 1)]
  else if bad_split disparity current_bbox kernel_size = true ∧ fail_count > 0 then []
  else [(q1 current_bbox, 0), (q2 current_bbox, 0), (q3 current_bbox, 0), (q4 current_bbox, 0)]

/-- The body of `subdivide_regions` run with a bound on the depth of the
recursion: `none` when the bound is used up before the call returns. -/
def subdivide_regions_fuel (fuel : Nat) (disparity : ImageView) (current_bbox : BBox2i)
    (list : List SearchParam) (kernel_size : Vector2i) (fail_count : Int) :
    Option (Bool × List SearchParam) :=
  match fuel with
  | 0 => none
  | fuel + 1 =>
    if is_terminal current_bbox = true then
      match accumulate disparity current_bbox with
      | none => some (true, list)
      | some (mn, mx) => some (true, list ++ [(current_bbox, search_box mn mx)])
    else if bad_split disparity current_bbox kernel_size = true ∧ fail_count = 0 then
      (subdivide_regions_fuel fuel disparity (q1 current_bbox) list kernel_size
        (fail_count + 1)).bind fun r1 =>
      (subdivide_regions_fuel fuel disparity (q2 current_bbox) r1.2 kernel_size
        (fail_count + 1)).bind fun r2 =>
      (subdivide_regions_fuel fuel disparity (q3 current_bbox) r2.2 kernel_size
        (fail_count + 1)).bind fun r3 =>
      (subdivide_regions_fuel fuel disparity (q4 current_bbox) r3.2 kernel_size
        (fail_count + 1)).bind fun r4 =>
      some (true,
        r4.2 ++ fold_failed current_bbox (current_search_region disparity current_bbox)
          ((if r1.1 = false
              then [(q1 current_bbox, quadrant_search disparity (q1 current_bbox))] else []) ++
           (if r2.1 = false
              then [(q2 current_bbox, quadrant_search disparity (q2 current_bbox))] else []) ++
           (if r3.1 = false
              then [(q3 current_bbox, quadrant_search disparity (q3 current_bbox))] else []) ++
           (if r4.1 = false
              then [(q4 current_bbox, quadrant_search disparity (q4 current_bbox))] else [])))
    else if bad_split disparity current_bbox kernel_size = true ∧ fail_count > 0 then
      some (false, list)
    else
      (subdivide_regions_fuel fuel disparity (q1 current_bbox) list kernel_size 0).bind fun r1 =>
      (subdivide_regions_fuel fuel disparity (q2 current_bbox) r1.2 kernel_size 0).bind fun r2 =>
      (subdivide_regions_fuel fuel disparity (q3 current_bbox) r2.2 kernel_size 0).bind fun r3 =>
      (subdivide_regions_fuel fuel disparity (q4 current_bbox) r3.2 kernel_size 0).bind fun r4 =>
      some (true, r4.2)

/-! ## The pyramid correlator -/

/-- The cost metrics (`CostFunctionType`). -/
inductive CostFunctionType where
  | ABSOLUTE_DIFFERENCE
  | SQUARED_DIFFERENCE
  | CROSS_CORRELATION
deriving DecidableEq

/-- Componentwise difference of two vectors. -/
def Vector2i.sub (a b : Vector2i) : Vector2i := ⟨a.x - b.x, a.y - b.y⟩

/-- Scalar times vector. -/
def Vector2i.smul (s : Int) (a : Vector2i) : Vector2i := ⟨s * a.x, s * a.y⟩

/-- Modelled from the spec: a box shifted by a vector (`bbox + v`). -/
def BBox2i.shift (b : BBox2i) (v : Vector2i) : BBox2i := ⟨b.min.add v, b.max.add v⟩

/-- Modelled from the spec: a box scaled by an integer (`bbox *= s`), "double
both region and window coordinates". -/
def BBox2i.scale (b : BBox2i) (s : Int) : BBox2i := ⟨Vector2i.smul s b.min, Vector2i.smul s b.max⟩

/-- Modelled from the spec: a box divided by an integer (`bbox / s`), both
corners divided with truncation. -/
def BBox2i.div (b : BBox2i) (s : Int) : BBox2i := ⟨b.min.div s, b.max.div s⟩

/-- Modelled from the spec: `BBox2i::crop`, the intersection of two boxes
("clip the window to the level-scaled global search region"). -/
def BBox2i.crop (a b : BBox2i) : BBox2i :=
  ⟨⟨Max.max a.min.x b.min.x, Max.max a.min.y b.min.y⟩,
   ⟨Min.min a.max.x b.max.x, Min.min a.max.y b.max.y⟩⟩

/-- The box `BBox2i(minx, miny, width, height)`. -/
def BBox2i.ofSize (minx miny width height : Int) : BBox2i :=
  ⟨⟨minx, miny⟩, ⟨minx + width, miny + height⟩⟩

/-- The collaborators of the pyramid correlator that live outside the sources at
hand: the block matcher, the consistency checker and `BBox2i::expand`.  The
images and the kernel size are fixed inside the matcher functions. -/
structure Collaborators where
  /-- Modelled from the spec: the forward match of one zone,
  `best_of_search_convolution<Cost>(crop(left_pyramid[level], left_region),
  crop(righ_pyramid[level], righ_region), left_region - left_region.min(),
  search_volume, kernel_size)`, one masked displacement per pixel of the zone,
  in zone-local coordinates. -/
  best_of_search_convolution :
    CostFunctionType → Nat → BBox2i → BBox2i → Vector2i → Int → Int → PixelMask
  /-- Modelled from the spec: the reverse match at level 0,
  `best_of_search_convolution<Cost>(crop(righ_pyramid[0], righ_region),
  crop(left_pyramid[0], left_region - search_volume), righ_region - righ_region.min(),
  search_volume, kernel_size)`. -/
  best_of_search_convolution_rl :
    CostFunctionType → BBox2i → BBox2i → Vector2i → Int → Int → PixelMask
  /-- Modelled from the spec: `cross_corr_consistency_check(forward, reverse,
  threshold, false)`, the forward map after the check. -/
  cross_corr_consistency_check :
    (Int → Int → PixelMask) → (Int → Int → PixelMask) → Rat → Int → Int → PixelMask
  /-- Modelled from the spec: `BBox2i::expand(offset)`, the box grown by the
  offset. -/
  expand : BBox2i → Int → BBox2i

/-- The block matcher contract used by the claims: for a search volume `s` a
returned pixel is invalid or a displacement `d` with `0 <= d < s` componentwise. -/
def Collaborators.matcher_in_range (ext : Collaborators) : Prop :=
  ∀ cost level l r (s : Vector2i) i j (d : Vector2i),
    ext.best_of_search_convolution cost level l r s i j = some d →
      0 ≤ d.x ∧ d.x < s.x ∧ 0 ≤ d.y ∧ d.y < s.y

/-- The consistency checker contract used by the claims: it only clears
validity, a pixel valid after the check held the same displacement before. -/
def Collaborators.checker_only_clears (ext : Collaborators) : Prop :=
  ∀ fwd rl t i j (d : Vector2i),
    ext.cross_corr_consistency_check fwd rl t i j = some d → fwd i j = some d

/-- The configuration of a `PyramidCorrelationView` that the tile computation
reads (the images live inside the collaborators). -/
structure PyramidCorrelationView where
  m_search_region : BBox2i
  m_kernel_size : Vector2i
  m_cost_type : CostFunctionType
  m_consistency_threshold : Rat
  m_max_level_by_search : Int

/-- The floor of the base-2 logarithm of an integer `n >= 1`, the value of
`std::floor(std::log(float(n))/std::log(2.0f))` with exact real logarithms. -/
def floor_log2 (n : Int) : Int := (Nat.log 2 n.toNat : Int)

/-- The floor of `log2 t - log2 k` for integers `t, k >= 1`, the value of
`std::floor(log(t)/log(2.0f) - log(k)/log(2.0f))` with exact real logarithms:
the largest integer `e` with `2^e * k <= t`.  The code evaluates the expression
in floating point; when `t / k` is a power of two the computed difference can
fall just below the integer, and the code's value is then one less than this
one (3 against 4 at `t = 112`, `k = 7`). -/
def floor_log2_ratio (t k : Int) : Int :=
  if k ≤ t then (Nat.log 2 (t.toNat / k.toNat) : Int)
  else -(Nat.clog 2 ((k.toNat + t.toNat - 1) / t.toNat) : Int)

/-- The constructor's computation of `m_max_level_by_search` from the search
region: `floor(log2(largest_search)) - 1`, clamped to be non-negative. -/
def max_level_by_search (search_region : BBox2i) : Int :=
  let largest_search := Max.max search_region.size.x search_region.size.y
  let m := floor_log2 largest_search - 1
  if m < 0 then 0 else m

/-- The constructor `PyramidCorrelationView(left, right, prefilter, search_region,
kernel_size, cost_type, consistency_threshold)`. -/
def PyramidCorrelationView.create (search_region : BBox2i) (kernel_size : Vector2i)
    (cost_type : CostFunctionType) (consistency_threshold : Rat) : PyramidCorrelationView :=
  ⟨search_region, kernel_size, cost_type, consistency_threshold, max_level_by_search search_region⟩

/-- Step 1.0 of `prerasterize`: the number of pyramid levels to process. -/
def max_pyramid_levels (view : PyramidCorrelationView) (bbox : BBox2i) : Int :=
  let smallest_bbox := Min.min bbox.size.x bbox.size.y
  let largest_kernel := Max.max view.m_kernel_size.x view.m_kernel_size.y
  let max_pyramid_levels := floor_log2_ratio smallest_bbox largest_kernel
  if view.m_max_level_by_search < max_pyramid_levels then view.m_max_level_by_search
  else max_pyramid_levels

/-- The image `disparity.set_size(cols, rows)` leaves: freshly allocated pixels
are default-constructed, hence invalid. -/
def ImageView.fresh (cols rows : Int) : ImageView := ⟨cols, rows, fun _ _ => none⟩

/-- The zone the level loop starts from: the whole scaled tile with the whole
scaled search range. -/
def initial_zone (view : PyramidCorrelationView) (bbox : BBox2i) (max_upscaling : Int) :
    SearchParam :=
  (BBox2i.ofSize 0 0 (bbox.width.tdiv max_upscaling) (bbox.height.tdiv max_upscaling),
   BBox2i.ofSize 0 0 (view.m_search_region.width.tdiv max_upscaling + 1)
     (view.m_search_region.height.tdiv max_upscaling + 1))

/-- The left and right crop regions of a zone (start of step 3.1). -/
def zone_regions (view : PyramidCorrelationView) (max_upscaling scaling : Int)
    (zone : SearchParam) : BBox2i × BBox2i :=
  let half_kernel := view.m_kernel_size.div 2
  let shifted := zone.1.shift (Vector2i.smul (max_upscaling.tdiv scaling) half_kernel)
  let left_region : BBox2i := ⟨shifted.min.sub half_kernel, shifted.max.add half_kernel⟩
  let moved := left_region.shift zone.2.min
  let righ_region : BBox2i := ⟨moved.min, moved.max.add zone.2.size⟩
  (left_region, righ_region)

/-- The region `left_region` of step 2.0 that `left_pyramid[0]` is cropped to:
the tile grown by `half_kernel * max_upscaling` on every side. -/
def left_pyramid_region (view : PyramidCorrelationView) (bbox : BBox2i) (max_upscaling : Int) :
    BBox2i :=
  let half_kernel := view.m_kernel_size.div 2
  ⟨bbox.min.sub (Vector2i.smul max_upscaling half_kernel),
   bbox.max.add (Vector2i.smul max_upscaling half_kernel)⟩

/-- The size of `left_pyramid[level]`: the crop of step 2.0 at level 0, and
`subsample(..., 2)` of the level below at every further level (smoothing and
pre-filter keep the size).  The side length that `subsample(image, 2)` gives for
a side length of the image is the parameter `subsample`. -/
def left_pyramid_size (view : PyramidCorrelationView) (bbox : BBox2i) (max_upscaling : Int)
    (subsample : Int → Int) : Nat → Vector2i
  | 0 => (left_pyramid_region view bbox max_upscaling).size
  | level + 1 =>
    ⟨subsample (left_pyramid_size view bbox max_upscaling subsample level).x,
     subsample (left_pyramid_size view bbox max_upscaling subsample level).y⟩

/-- Modelled from the spec: "subsample by 2" with the side length rounded up,
`1 + (n - 1) / 2`, as the library's `subsample` view sizes itself. -/
def subsample_size (n : Int) : Int := 1 + (n - 1).tdiv 2

/-- The pixels a zone ends up with in the level's buffer, in zone-local
coordinates: the forward match, checked against the reverse match at level 0
when the threshold is non-negative, and then offset by the min corner of the
zone's search window ("Fix the offset"). -/
def zone_result (view : PyramidCorrelationView) (ext : Collaborators) (max_upscaling : Int)
    (level : Nat) (zone : SearchParam) : Int → Int → PixelMask :=
  let scaling : Int := 2 ^ level
  let left_region := (zone_regions view max_upscaling scaling zone).1
  let righ_region := (zone_regions view max_upscaling scaling zone).2
  let forward :=
    ext.best_of_search_convolution view.m_cost_type level left_region righ_region zone.2.size
  let checked :=
    if view.m_consistency_threshold ≥ 0 ∧ level = 0 then
      let rl_result : Int → Int → PixelMask := fun i j =>
        (ext.best_of_search_convolution_rl view.m_cost_type righ_region
          (left_region.shift (Vector2i.smul (-1) zone.2.size)) zone.2.size i j).map
          fun d => d.sub zone.2.size
      ext.cross_corr_consistency_check forward rl_result view.m_consistency_threshold
    else forward
  fun i j => (checked i j).map fun d => d.add zone.2.min

/-- The forward match of a zone: the call of `best_of_search_convolution` at the
start of step 3.1, on the zone's crop regions and the size of its window. -/
def zone_forward (view : PyramidCorrelationView) (ext : Collaborators) (max_upscaling : Int)
    (level : Nat) (zone : SearchParam) : Int → Int → PixelMask :=
  ext.best_of_search_convolution view.m_cost_type level
    (zone_regions view max_upscaling (2 ^ level) zone).1
    (zone_regions view max_upscaling (2 ^ level) zone).2 zone.2.size

/-- The reverse match `rl_result` of a zone, with the size of the zone's window
subtracted from every valid pixel. -/
def zone_reverse (view : PyramidCorrelationView) (ext : Collaborators) (max_upscaling : Int)
    (level : Nat) (zone : SearchParam) : Int → Int → PixelMask :=
  fun i j =>
    (ext.best_of_search_convolution_rl view.m_cost_type
      (zone_regions view max_upscaling (2 ^ level) zone).2
      ((zone_regions view max_upscaling (2 ^ level) zone).1.shift
        (Vector2i.smul (-1) zone.2.size)) zone.2.size i j).map
      fun d => d.sub zone.2.size

/-- The assignment `crop(disparity, region) = pixels`: inside the region the
pixels are replaced, `pixels` being read in region-local coordinates. -/
def write_crop (disparity : ImageView) (region : BBox2i) (pixels : Int → Int → PixelMask) :
    ImageView :=
  ⟨disparity.cols, disparity.rows, fun i j =>
    if region.contains i j then pixels (i - region.min.x) (j - region.min.y)
    else disparity.pix i j⟩

/-- Step 3.1: the level's disparity buffer after `set_size` and the loop over the
zones. -/
def process_level (view : PyramidCorrelationView) (ext : Collaborators) (bbox : BBox2i)
    (max_upscaling : Int) (level : Nat) (zones : List SearchParam) : ImageView :=
  let scaling : Int := 2 ^ level
  zones.foldl
    (fun disparity zone =>
      write_crop disparity zone.1 (zone_result view ext max_upscaling level zone))
    (ImageView.fresh (bbox.width.tdiv scaling) (bbox.height.tdiv scaling))

/-- The scaled search region of step 3.2 for the next level, whose scaling is
`scaling`: `(m_search_region - m_search_region.min())/scaling` with the max
corner moved by `(1,1)`. -/
def scale_search_region (view : PyramidCorrelationView) (scaling : Int) : BBox2i :=
  let scaled := (view.m_search_region.shift
    (Vector2i.smul (-1) view.m_search_region.min)).div scaling
  ⟨scaled.min, scaled.max.add ⟨1, 1⟩⟩

/-- Step 3.2 after the subdivision: every zone is doubled, its search window is
expanded by one and cropped to the scaled search region. -/
def refine_zones (view : PyramidCorrelationView) (ext : Collaborators) (scaling : Int)
    (zones : List SearchParam) : List SearchParam :=
  zones.map fun zone =>
    (zone.1.scale 2, (ext.expand (zone.2.scale 2) 1).crop (scale_search_region view scaling))

/-- The level loop `for (level = max_pyramid_levels; level >= 0; level--)`, run
from `level` down to 0 on the zone list at hand.  It returns, for every level
processed, the level, the zone list used and the disparity buffer computed. -/
def level_loop (view : PyramidCorrelationView) (ext : Collaborators) (bbox : BBox2i)
    (max_upscaling : Int) : Nat → List SearchParam → List (Nat × List SearchParam × ImageView)
  | 0, zones => [(0, zones, process_level view ext bbox max_upscaling 0 zones)]
  | level + 1, zones =>
    let disparity := process_level view ext bbox max_upscaling (level + 1) zones
    let subdivided :=
      (subdivide_regions disparity (bounding_box disparity) [] view.m_kernel_size 0).2
    (level + 1, zones, disparity) ::
      level_loop view ext bbox max_upscaling level
        (refine_zones view ext (2 ^ level) subdivided)

/-- The levels that `prerasterize` processes for a tile, coarsest first: none
when the level count is negative, since the loop condition `level >= 0` fails at
once. -/
def processed_levels (view : PyramidCorrelationView) (ext : Collaborators) (bbox : BBox2i) :
    List (Nat × List SearchParam × ImageView) :=
  let levels := max_pyramid_levels view bbox
  if levels < 0 then []
  else
    let max_upscaling : Int := 2 ^ levels.toNat
    level_loop view ext bbox max_upscaling levels.toNat [initial_zone view bbox max_upscaling]

/-- The disparity buffer at the end of the level loop: the buffer of the last
level processed, or the default-constructed empty image when no level ran. -/
def final_disparity (view : PyramidCorrelationView) (ext : Collaborators) (bbox : BBox2i) :
    ImageView :=
  match (processed_levels view ext bbox).getLast? with
  | some entry => entry.2.2
  | none => ImageView.fresh 0 0

/-- The tile computation `prerasterize(bbox)`: the final disparity buffer offset
by the min corner of the search region.  With a negative level count the
pyramid vectors of `max_pyramid_levels + 1` images cannot hold level 0, and no
tile is produced. -/
def prerasterize (view : PyramidCorrelationView) (ext : Collaborators) (bbox : BBox2i) :
    Option ImageView :=
  if max_pyramid_levels view bbox < 0 then none
  else
    let disparity := final_disparity view ext bbox
    some ⟨disparity.cols, disparity.rows, fun i j =>
      (disparity.pix i j).map fun d => d.add view.m_search_region.min⟩

/-! ## The flat correlator and point-wise evaluation -/

/-- The configuration of a `CorrelationView` that the tile computation reads. -/
structure CorrelationView where
  m_search_region : BBox2i
  m_kernel_size : Vector2i
  m_cost_type : CostFunctionType
  m_consistency_threshold : Rat

/-- The collaborators of the flat correlator that live outside the sources at
hand: the block matcher and the consistency checker.  The pre-filtered images
are fixed inside the matcher functions. -/
structure FlatCollaborators where
  /-- Modelled from the spec: the forward match
  `best_of_search_convolution<Cost>(crop(left, left_region), crop(right, right_region),
  left_region - left_region.min(), search_volume, kernel_size)`; the arguments are
  the two crop regions, the region inside the left crop, the search volume and the
  kernel size. -/
  best_of_search_convolution :
    CostFunctionType → BBox2i → BBox2i → BBox2i → Vector2i → Vector2i → ImageView
  /-- Modelled from the spec: the reverse match
  `best_of_search_convolution<Cost>(crop(right, right_region), crop(left, shifted_left),
  right_region - right_region.min(), search_volume, kernel_size)`, with the same order
  of arguments. -/
  best_of_search_convolution_rl :
    CostFunctionType → BBox2i → BBox2i → BBox2i → Vector2i → Vector2i → ImageView
  /-- Modelled from the spec: `cross_corr_consistency_check(forward, reverse,
  threshold, false)`, the forward map after the check. -/
  cross_corr_consistency_check : ImageView → ImageView → Rat → ImageView

/-- An image with a displacement added to every valid pixel
(`image += pixel_type(v)`); invalid pixels stay invalid. -/
def ImageView.translate (image : ImageView) (v : Vector2i) : ImageView :=
  ⟨image.cols, image.rows, fun i j => (image.pix i j).map fun d => d.add v⟩

/-- Step 1 of `CorrelationView::prerasterize`: the left raster region, the
requested region expanded by half the kernel. -/
def CorrelationView.left_region (view : CorrelationView) (bbox : BBox2i) : BBox2i :=
  let half_kernel := view.m_kernel_size.div 2
  ⟨bbox.min.sub half_kernel, bbox.max.add half_kernel⟩

/-- Step 2 of `CorrelationView::prerasterize`: the region of the right image. -/
def CorrelationView.right_region (view : CorrelationView) (bbox : BBox2i) : BBox2i :=
  let moved := (view.left_region bbox).shift view.m_search_region.min
  ⟨moved.min, moved.max.add view.m_search_region.size⟩

/-- Step 3 of `CorrelationView::prerasterize`: the forward match; the three cases
of the switch over the cost type make the same call. -/
def CorrelationView.forward_match (view : CorrelationView) (ext : FlatCollaborators)
    (bbox : BBox2i) : ImageView :=
  let left_region := view.left_region bbox
  let right_region := view.right_region bbox
  ext.best_of_search_convolution view.m_cost_type left_region right_region
    (left_region.shift (Vector2i.smul (-1) left_region.min))
    (view.m_search_region.size.add ⟨1, 1⟩) view.m_kernel_size

/-- The reverse match `rl_result` of step 4.0, with the search volume subtracted
from every valid pixel. -/
def CorrelationView.reverse_match (view : CorrelationView) (ext : FlatCollaborators)
    (bbox : BBox2i) : ImageView :=
  let left_region := view.left_region bbox
  let right_region := view.right_region bbox
  let search_volume := view.m_search_region.size.add ⟨1, 1⟩
  (ext.best_of_search_convolution_rl view.m_cost_type right_region
    (left_region.shift (Vector2i.smul (-1) search_volume))
    (right_region.shift (Vector2i.smul (-1) right_region.min))
    search_volume view.m_kernel_size).translate (Vector2i.smul (-1) search_volume)

/-- Steps 3 and 4.0 of `CorrelationView::prerasterize`: `result` before step 5,
the forward match, put through the consistency check when the threshold is not
negative. -/
def CorrelationView.checked_match (view : CorrelationView) (ext : FlatCollaborators)
    (bbox : BBox2i) : ImageView :=
  let result := view.forward_match ext bbox
  if view.m_consistency_threshold ≥ 0 then
    ext.cross_corr_consistency_check result (view.reverse_match ext bbox)
      view.m_consistency_threshold
  else result

/-- The tile computation `CorrelationView::prerasterize(bbox)`: forward match,
consistency check when the threshold is not negative, and step 5, the move back
to the original coordinates (`result += pixel_type(m_search_region.min())`). -/
def CorrelationView.prerasterize (view : CorrelationView) (ext : FlatCollaborators)
    (bbox : BBox2i) : ImageView :=
  (view.checked_match ext bbox).translate view.m_search_region.min

/-- The exceptions that the views raise (`vw/Core/Exception.h`). -/
inductive VWError where
  | NoImplErr
  | MathErr
deriving DecidableEq

/-- Modelled from the spec: `vw_throw`, which raises the exception and does not
return ("must fail loudly if invoked"). -/
def vw_throw (e : VWError) : Except VWError Unit := Except.error e

/-- The point-wise evaluation `CorrelationView::operator()(i, j, p)`: the throw,
followed by `return pixel_type()`. -/
def CorrelationView.operator_call (_view : CorrelationView) (_i _j _p : Int) :
    Except VWError PixelMask :=
  vw_throw VWError.NoImplErr >>= fun _ => pure none

/-- The point-wise evaluation `PyramidCorrelationView::operator()(i, j, p)`: the
throw, followed by `return pixel_type()`. -/
def PyramidCorrelationView.operator_call (_view : PyramidCorrelationView) (_i _j _p : Int) :
    Except VWError PixelMask :=
  vw_throw VWError.NoImplErr >>= fun _ => pure none

/-! ## Specification-level predicates -/

/-- Invariant of the accumulator over the pixels seen so far: it is `none` when
all of them are invalid, and otherwise holds element-wise bounds of the valid
ones, each bound being attained. -/
def acc_inv (seen : List PixelMask) (acc : Option (Vector2i × Vector2i)) : Prop :=
  match acc with
  | none => ∀ p ∈ seen, p = none
  | some (mn, mx) =>
    (∀ v, some v ∈ seen → mn.x ≤ v.x ∧ mn.y ≤ v.y ∧ v.x ≤ mx.x ∧ v.y ≤ mx.y) ∧
    (∃ v, some v ∈ seen ∧ v.x = mn.x) ∧ (∃ v, some v ∈ seen ∧ v.y = mn.y) ∧
    (∃ v, some v ∈ seen ∧ v.x = mx.x) ∧ (∃ v, some v ∈ seen ∧ v.y = mx.y)

/-- The region `b` holds a valid displacement. -/
def has_valid (disparity : ImageView) (b : BBox2i) : Prop :=
  ∃ i j, b.contains i j ∧ disparity.pix i j ≠ none

/-- The vectors `mn` and `mx` are the componentwise minimum and maximum of the
valid displacements inside `b`: they bound every valid displacement of `b` and
each of their four coordinates is attained by one. -/
def is_observed (disparity : ImageView) (b : BBox2i) (mn mx : Vector2i) : Prop :=
  (∀ i j v, b.contains i j → disparity.pix i j = some v →
    mn.x ≤ v.x ∧ mn.y ≤ v.y ∧ v.x ≤ mx.x ∧ v.y ≤ mx.y) ∧
  (∃ i j v, b.contains i j ∧ disparity.pix i j = some v ∧ v.x = mn.x) ∧
  (∃ i j v, b.contains i j ∧ disparity.pix i j = some v ∧ v.y = mn.y) ∧
  (∃ i j v, b.contains i j ∧ disparity.pix i j = some v ∧ v.x = mx.x) ∧
  (∃ i j v, b.contains i j ∧ disparity.pix i j = some v ∧ v.y = mx.y)

/-- The pixel `(i, j)` lies in the region of some zone of the list. -/
def covered (zones : List SearchParam) (i j : Int) : Prop :=
  ∃ z ∈ zones, z.1.contains i j

/-- Two boxes share no pixel. -/
def boxes_disjoint (a b : BBox2i) : Prop :=
  ∀ i j, ¬ (a.contains i j ∧ b.contains i j)

/-- The regions of the zones of the list are pairwise disjoint. -/
def zones_disjoint (zones : List SearchParam) : Prop :=
  zones.Pairwise fun a b => boxes_disjoint a.1 b.1

/-- The zones a call emits: what `subdivide_regions` leaves in an empty list. -/
def emitted (disparity : ImageView) (b : BBox2i) (kernel_size : Vector2i) (fail_count : Int) :
    List SearchParam :=
  (subdivide_regions disparity b [] kernel_size fail_count).2

/-- The failed list that the retry branch collects, from the results of the four
retried quadrants. -/
def failed_quadrants (disparity : ImageView) (b : BBox2i) (kernel_size : Vector2i) :
    List SearchParam :=
  (if (subdivide_regions disparity (q1 b) [] kernel_size 1).1 = false
    then [(q1 b, quadrant_search disparity (q1 b))] else []) ++
  (if (subdivide_regions disparity (q2 b) [] kernel_size 1).1 = false
    then [(q2 b, quadrant_search disparity (q2 b))] else []) ++
  (if (subdivide_regions disparity (q3 b) [] kernel_size 1).1 = false
    then [(q3 b, quadrant_search disparity (q3 b))] else []) ++
  (if (subdivide_regions disparity (q4 b) [] kernel_size 1).1 = false
    then [(q4 b, quadrant_search disparity (q4 b))] else [])

/-- The zone list is a partition of the data of `b`: every zone region lies inside
`b`, the zone regions are pairwise disjoint, and every pixel of `b` that holds a
valid displacement lies in a zone region. -/
def partitions_valid (disparity : ImageView) (b : BBox2i) (zones : List SearchParam) : Prop :=
  (∀ i j, covered zones i j → b.contains i j) ∧ zones_disjoint zones ∧
  (∀ i j, b.contains i j → disparity.pix i j ≠ none → covered zones i j)

/-- The zone list is an exact partition of `b`: the zone regions are pairwise
disjoint and their union is `b`. -/
def partitions (b : BBox2i) (zones : List SearchParam) : Prop :=
  zones_disjoint zones ∧ ∀ i j, covered zones i j ↔ b.contains i j

/-- Corner-wise containment of boxes: `a` lies inside `b`. -/
def BBox2i.subset (a b : BBox2i) : Prop :=
  b.min.x ≤ a.min.x ∧ b.min.y ≤ a.min.y ∧ a.max.x ≤ b.max.x ∧ a.max.y ≤ b.max.y

/-- The level-scaled output tile `[0, floor(width / 2^L)) x [0, floor(height / 2^L))`. -/
def level_tile (bbox : BBox2i) (level : Nat) : BBox2i :=
  BBox2i.ofSize 0 0 (bbox.width / 2 ^ level) (bbox.height / 2 ^ level)

/-- The level-scaled global search region
`[0, floor(search_width / 2^L) + 1) x [0, floor(search_height / 2^L) + 1)`. -/
def level_search_box (view : PyramidCorrelationView) (level : Nat) : BBox2i :=
  BBox2i.ofSize 0 0 (view.m_search_region.width / 2 ^ level + 1)
    (view.m_search_region.height / 2 ^ level + 1)

/-- Between two consecutive processed levels: the level goes down by one and the
zones of the finer level contain every pixel whose parent pixel holds a valid
displacement in the buffer of the coarser level. -/
def refines_valid (coarse fine : Nat × List SearchParam × ImageView) : Prop :=
  coarse.1 = fine.1 + 1 ∧
  ∀ i j, (bounding_box coarse.2.2).contains (i / 2) (j / 2) →
    coarse.2.2.pix (i / 2) (j / 2) ≠ none → covered fine.2.1 i j

/-- Two boxes share a full edge: they span the same columns and one ends in the
row where the other starts, or they span the same rows and one ends in the
column where the other starts. -/
def share_edge (a b : BBox2i) : Prop :=
  (a.min.x = b.min.x ∧ a.max.x = b.max.x ∧ (a.max.y = b.min.y ∨ b.max.y = a.min.y)) ∨
  (a.min.y = b.min.y ∧ a.max.y = b.max.y ∧ (a.max.x = b.min.x ∨ b.max.x = a.min.x))

/-- The valid displacements of `b` are `int32` values, as the pixel type
`PixelMask<Vector2i>` of the disparity map has them. -/
def int32_displacements (disparity : ImageView) (b : BBox2i) : Prop :=
  ∀ i j v, b.contains i j → disparity.pix i j = some v →
    INT32_MIN ≤ v.x ∧ v.x ≤ INT32_MAX ∧ INT32_MIN ≤ v.y ∧ v.y ≤ INT32_MAX

/-- The bounding union of a list of boxes: the min/max union of all of them, the
default box for the empty list. -/
def bounding_union : List BBox2i → BBox2i
  | [] => BBox2i.default
  | b :: rest => rest.foldl expand_bbox b

/-- The observed windows of those quadrants of `b` that hold a valid
displacement, in the order `q1`, `q2`, `q3`, `q4`. -/
def quadrant_windows (disparity : ImageView) (b : BBox2i) : List BBox2i :=
  [q1 b, q2 b, q3 b, q4 b].filterMap fun q =>
    (accumulate disparity q).map fun a => search_box a.1 a.2

/-- Two accumulators put together: the element-wise minimum and maximum of
both, an accumulator without valid pixel being neutral. -/
def accumulator_join (a b : Option (Vector2i × Vector2i)) : Option (Vector2i × Vector2i) :=
  match a, b with
  | none, b => b
  | some a, none => some a
  | some (m1, M1), some (m2, M2) =>
    some (⟨Min.min m1.x m2.x, Min.min m1.y m2.y⟩, ⟨Max.max M1.x M2.x, Max.max M1.y M2.y⟩)

/-- The search box that an accumulator stands for: the observed box, or the
default box when no valid pixel was seen. -/
def accumulator_box (acc : Option (Vector2i × Vector2i)) : BBox2i :=
  match acc with
  | some (mn, mx) => search_box mn mx
  | none => BBox2i.default

/-- The accumulator describes the valid displacements on the pixel set `S`: it is
`none` when `S` holds no valid pixel, and otherwise holds their element-wise
minimum and maximum. -/
def observed_on (S : Int → Int → Prop) (disparity : ImageView)
    (acc : Option (Vector2i × Vector2i)) : Prop :=
  match acc with
  | none => ∀ i j, S i j → disparity.pix i j = none
  | some (mn, mx) =>
    (∀ i j v, S i j → disparity.pix i j = some v →
      mn.x ≤ v.x ∧ mn.y ≤ v.y ∧ v.x ≤ mx.x ∧ v.y ≤ mx.y) ∧
    (∃ i j v, S i j ∧ disparity.pix i j = some v ∧ v.x = mn.x) ∧
    (∃ i j v, S i j ∧ disparity.pix i j = some v ∧ v.y = mn.y) ∧
    (∃ i j v, S i j ∧ disparity.pix i j = some v ∧ v.x = mx.x) ∧
    (∃ i j v, S i j ∧ disparity.pix i j = some v ∧ v.y = mx.y)

/-- The minimum held by the accumulator is at most its maximum, the minimum is
not above the largest `int32` and the maximum not below the smallest. -/
def accumulator_in_range (acc : Option (Vector2i × Vector2i)) : Prop :=
  match acc with
  | none => True
  | some (mn, mx) =>
    mn.x ≤ mx.x ∧ mn.y ≤ mx.y ∧ mn.x ≤ INT32_MAX ∧ mn.y ≤ INT32_MAX ∧
    INT32_MIN ≤ mx.x ∧ INT32_MIN ≤ mx.y

/-- The window of the zone holds the displacement of every valid pixel of the
zone's region: `window.min <= d < window.max` on both axes. -/
def window_holds (disparity : ImageView) (z : SearchParam) : Prop :=
  ∀ i j v, z.1.contains i j → disparity.pix i j = some v →
    z.2.min.x ≤ v.x ∧ v.x < z.2.max.x ∧ z.2.min.y ≤ v.y ∧ v.y < z.2.max.y

/-- Where a zone of the list comes from: the terminal case on a region that holds
a valid displacement, or the fold of the failed quadrants of a region in the
retry branch. -/
def zone_origin (disparity : ImageView) (kernel_size : Vector2i) (z : SearchParam) : Prop :=
  (∃ mn mx, is_terminal z.1 = true ∧ accumulate disparity z.1 = some (mn, mx) ∧
    z.2 = search_box mn mx) ∨
  (∃ p, is_terminal p = false ∧ bad_split disparity p kernel_size = true ∧
    z ∈ fold_failed p (current_search_region disparity p) (failed_quadrants disparity p kernel_size))

/-- The displacements of the image lie in the search volume `s`, `0 <= d < s` on
both axes: the contract of the block matcher. -/
def in_search_volume (image : ImageView) (s : Vector2i) : Prop :=
  ∀ i j d, image.pix i j = some d → 0 ≤ d.x ∧ d.x < s.x ∧ 0 ≤ d.y ∧ d.y < s.y

/-- The terminal test as the sides alone decide it: width or height below 16. -/
def terminal_by_sides (current_bbox : BBox2i) : Bool :=
  decide (current_bbox.width < 16 ∨ current_bbox.height < 16)

/-- The call relation of `subdivide_regions` on a disparity map: `child` is one
of the recursive calls made by the body on the arguments `parent`. -/
def calls (disparity : ImageView) (kernel_size : Vector2i) (child parent : BBox2i × Int) : Prop :=
  child ∈ recursive_calls disparity parent.1 kernel_size parent.2

/-! ## Concrete inputs used by the examples -/

/-- A one-pixel disparity map whose pixel is invalid. -/
def invalid_pixel_map : ImageView := ⟨1, 1, fun _ _ => none⟩

/-- A 2 x 1 disparity map: a valid displacement `(3, -2)` next to an invalid pixel. -/
def two_pixel_map : ImageView :=
  ⟨2, 1, fun i _ => if i = 0 then some ⟨3, -2⟩ else none⟩

/-- A 16 x 16 disparity map with a step: displacement `(0, 0)` in the left half
and `(10, 0)` in the right half. -/
def step_disparity : ImageView :=
  ⟨16, 16, fun i _ => if i < 8 then some ⟨0, 0⟩ else some ⟨10, 0⟩⟩

/-- A 16 x 16 disparity map whose left half is invalid and whose right half holds
the displacements `(3, -2)` (upper part) and `(5, 1)` (lower part). -/
def half_valid_map : ImageView :=
  ⟨16, 16, fun i j => if i < 8 then none else if j < 8 then some ⟨3, -2⟩ else some ⟨5, 1⟩⟩

/-- A 32 x 32 disparity map holding the displacement `(0, 0)` everywhere. -/
def flat_disparity : ImageView := ⟨32, 32, fun _ _ => some ⟨0, 0⟩⟩

/-- A 32 x 32 disparity map: the upper right quarter holds a step from `(0, 0)` to
`(10, 0)`, the other three quarters a checkerboard of `(0, 0)` and `(10, 0)`. -/
def mixed_disparity : ImageView :=
  ⟨32, 32, fun i j =>
    if 16 ≤ i ∧ j < 16 then (if i < 24 then some ⟨0, 0⟩ else some ⟨10, 0⟩)
    else (if (i + j) % 2 = 0 then some ⟨0, 0⟩ else some ⟨10, 0⟩)⟩

/-- A 32 x 32 disparity map with one constant displacement per quarter: `(0, 0)`,
`(1999, 0)`, `(0, 999)` and `(1999, 999)`. -/
def spread_disparity : ImageView :=
  ⟨32, 32, fun i j =>
    if j < 16 then (if i < 16 then some ⟨0, 0⟩ else some ⟨1999, 0⟩)
    else (if i < 16 then some ⟨0, 999⟩ else some ⟨1999, 999⟩)⟩

/-- A block matcher that finds the displacement `(0, 0)` everywhere as long as
the search volume is not empty, a checker that keeps the forward map, and an
`expand` growing the max corner. -/
def constant_collaborators : Collaborators where
  best_of_search_convolution := fun _ _ _ _ s _ _ =>
    if 0 < s.x ∧ 0 < s.y then some ⟨0, 0⟩ else none
  best_of_search_convolution_rl := fun _ _ _ s _ _ =>
    if 0 < s.x ∧ 0 < s.y then some ⟨0, 0⟩ else none
  cross_corr_consistency_check := fun fwd _ _ => fwd
  expand := fun b offset => ⟨b.min, ⟨b.max.x + offset, b.max.y + offset⟩⟩

/-- A block matcher that finds no match anywhere. -/
def blind_collaborators : Collaborators where
  best_of_search_convolution := fun _ _ _ _ _ _ _ => none
  best_of_search_convolution_rl := fun _ _ _ _ _ _ => none
  cross_corr_consistency_check := fun fwd _ _ => fwd
  expand := fun b offset => ⟨b.min, ⟨b.max.x + offset, b.max.y + offset⟩⟩

/-- A correlator with search region `[-10, 10) x [-10, 10)`, a 7 x 7 kernel and
no consistency check. -/
def sample_view : PyramidCorrelationView :=
  PyramidCorrelationView.create ⟨⟨-10, -10⟩, ⟨10, 10⟩⟩ ⟨7, 7⟩
    CostFunctionType.ABSOLUTE_DIFFERENCE (-1)

/-- A correlator with search region `[-2, 2) x [-2, 2)`, a 1 x 1 kernel and no
consistency check. -/
def small_view : PyramidCorrelationView :=
  PyramidCorrelationView.create ⟨⟨-2, -2⟩, ⟨2, 2⟩⟩ ⟨1, 1⟩
    CostFunctionType.ABSOLUTE_DIFFERENCE (-1)

/-- Modelled from the spec: a consistency checker as section 4.3 describes it, with
the per-axis distance.  A valid forward pixel at `p` with displacement `d` stays
valid when the reverse map is valid at `p + d` and its displacement `r` undoes
`d` within the threshold on each axis. -/
def spec_consistency_check (forward reverse : ImageView) (threshold : Rat) : ImageView :=
  ⟨forward.cols, forward.rows, fun i j =>
    match forward.pix i j with
    | none => none
    | some d =>
      match reverse.pix (i + d.x) (j + d.y) with
      | none => none
      | some r =>
        if |((d.x + r.x : Int) : Rat)| ≤ threshold ∧ |((d.y + r.y : Int) : Rat)| ≤ threshold then
          some d
        else none⟩

/-- A flat matcher whose two directions agree: forward displacement `(1, 1)`
everywhere, reverse displacement `search_volume - (1, 1)`, which is `(-1, -1)`
once the search volume is subtracted. -/
def agreeing_collaborators : FlatCollaborators where
  best_of_search_convolution := fun _ _ _ roi _ kernel_size =>
    ⟨roi.width - kernel_size.x + 1, roi.height - kernel_size.y + 1, fun _ _ => some ⟨1, 1⟩⟩
  best_of_search_convolution_rl := fun _ _ _ roi search_volume kernel_size =>
    ⟨roi.width - kernel_size.x + 1, roi.height - kernel_size.y + 1,
      fun _ _ => some ⟨search_volume.x - 1, search_volume.y - 1⟩⟩
  cross_corr_consistency_check := spec_consistency_check

/-- A flat matcher whose two directions disagree: forward displacement `(1, 1)`
everywhere, reverse displacement `search_volume - (4, 4)`, which is `(-4, -4)`
once the search volume is subtracted, so that the round trip is off by
`(-3, -3)`.  Both displacements lie inside the search volume whenever that is
at least 5 wide and high. -/
def disagreeing_collaborators : FlatCollaborators where
  best_of_search_convolution := fun _ _ _ roi _ kernel_size =>
    ⟨roi.width - kernel_size.x + 1, roi.height - kernel_size.y + 1, fun _ _ => some ⟨1, 1⟩⟩
  best_of_search_convolution_rl := fun _ _ _ roi search_volume kernel_size =>
    ⟨roi.width - kernel_size.x + 1, roi.height - kernel_size.y + 1,
      fun _ _ => some ⟨search_volume.x - 4, search_volume.y - 4⟩⟩
  cross_corr_consistency_check := spec_consistency_check

/-- A flat correlator with search region `[-10, 10) x [-10, 10)`, a 7 x 7 kernel
and the consistency threshold 0. -/
def zero_threshold_view : CorrelationView :=
  ⟨⟨⟨-10, -10⟩, ⟨10, 10⟩⟩, ⟨7, 7⟩, CostFunctionType.ABSOLUTE_DIFFERENCE, 0⟩

/-- A flat correlator with search region `[-10, 10) x [-10, 10)`, a 7 x 7 kernel
and the consistency threshold 2. -/
def checking_view : CorrelationView :=
  ⟨⟨⟨-10, -10⟩, ⟨10, 10⟩⟩, ⟨7, 7⟩, CostFunctionType.ABSOLUTE_DIFFERENCE, 2⟩

/-- A flat correlator with search region `[-10, 10) x [-10, 10)`, a 7 x 7 kernel
and the default threshold -1. -/
def unchecked_view : CorrelationView :=
  ⟨⟨⟨-10, -10⟩, ⟨10, 10⟩⟩, ⟨7, 7⟩, CostFunctionType.ABSOLUTE_DIFFERENCE, -1⟩

/-! ## Theorems: pixel accumulation -/

theorem mem_crop_positions (b : BBox2i) (i j : Int) :
    (i, j) ∈ crop_positions b ↔ b.contains i j := by
  unfold crop_positions BBox2i.contains BBox2i.width BBox2i.height
  rw [List.mem_flatMap]
  constructor
  · rintro ⟨n, hn, h⟩
    rw [List.mem_map] at h
    obtain ⟨m, hm, h⟩ := h
    rw [List.mem_range] at hn hm
    rw [Prod.mk.injEq] at h
    omega
  · intro h
    refine ⟨(j - b.min.y).toNat, ?_, ?_⟩
    · rw [List.mem_range]; omega
    · rw [List.mem_map]
      refine ⟨(i - b.min.x).toNat, ?_, ?_⟩
      · rw [List.mem_range]; omega
      · rw [Prod.mk.injEq]; omega

theorem acc_inv_step (seen : List PixelMask) (acc : Option (Vector2i × Vector2i)) (p : PixelMask)
    (h : acc_inv seen acc) : acc_inv (seen ++ [p]) (accumulator_step acc p) := by
  cases p with
  | none =>
    cases acc with
    | none =>
      simp only [acc_inv, accumulator_step, List.mem_append, List.mem_singleton] at h ⊢
      rintro q (hq | hq)
      · exact h q hq
      · exact hq
    | some a =>
      obtain ⟨mn, mx⟩ := a
      simp only [acc_inv, accumulator_step, List.mem_append, List.mem_singleton] at h ⊢
      obtain ⟨hb, ⟨v1, h1, e1⟩, ⟨v2, h2, e2⟩, ⟨v3, h3, e3⟩, ⟨v4, h4, e4⟩⟩ := h
      refine ⟨?_, ⟨v1, Or.inl h1, e1⟩, ⟨v2, Or.inl h2, e2⟩, ⟨v3, Or.inl h3, e3⟩, ⟨v4, Or.inl h4, e4⟩⟩
      rintro v (hv | hv)
      · exact hb v hv
      · exact absurd hv (by simp)
  | some d =>
    cases acc with
    | none =>
      simp only [acc_inv, accumulator_step, List.mem_append, List.mem_singleton] at h ⊢
      refine ⟨?_, ⟨d, Or.inr rfl, rfl⟩, ⟨d, Or.inr rfl, rfl⟩, ⟨d, Or.inr rfl, rfl⟩, ⟨d, Or.inr rfl, rfl⟩⟩
      rintro v (hv | hv)
      · exact absurd (h _ hv) (by simp)
      · cases hv
        omega
    | some a =>
      obtain ⟨mn, mx⟩ := a
      simp only [acc_inv, accumulator_step, List.mem_append, List.mem_singleton] at h ⊢
      obtain ⟨hb, ⟨v1, h1, e1⟩, ⟨v2, h2, e2⟩, ⟨v3, h3, e3⟩, ⟨v4, h4, e4⟩⟩ := h
      refine ⟨?_, ?_, ?_, ?_, ?_⟩
      · rintro v (hv | hv)
        · have := hb v hv
          omega
        · cases hv
          omega
      · rcases le_total mn.x d.x with hle | hle
        · exact ⟨v1, Or.inl h1, by rw [e1, min_eq_left hle]⟩
        · exact ⟨d, Or.inr rfl, by rw [min_eq_right hle]⟩
      · rcases le_total mn.y d.y with hle | hle
        · exact ⟨v2, Or.inl h2, by rw [e2, min_eq_left hle]⟩
        · exact ⟨d, Or.inr rfl, by rw [min_eq_right hle]⟩
      · rcases le_total mx.x d.x with hle | hle
        · exact ⟨d, Or.inr rfl, by rw [max_eq_right hle]⟩
        · exact ⟨v3, Or.inl h3, by rw [e3, max_eq_left hle]⟩
      · rcases le_total mx.y d.y with hle | hle
        · exact ⟨d, Or.inr rfl, by rw [max_eq_right hle]⟩
        · exact ⟨v4, Or.inl h4, by rw [e4, max_eq_left hle]⟩

theorem acc_inv_foldl (rest seen : List PixelMask) (acc : Option (Vector2i × Vector2i))
    (h : acc_inv seen acc) : acc_inv (seen ++ rest) (rest.foldl accumulator_step acc) := by
  induction rest generalizing seen acc with
  | nil => simpa using h
  | cons p rest ih =>
    have := ih (seen ++ [p]) (accumulator_step acc p) (acc_inv_step seen acc p h)
    simpa using this

theorem accumulate_inv (disparity : ImageView) (b : BBox2i) :
    acc_inv ((crop_positions b).map fun p => disparity.pix p.1 p.2) (accumulate disparity b) := by
  have h := acc_inv_foldl ((crop_positions b).map fun p => disparity.pix p.1 p.2) [] none
    (by simp [acc_inv])
  simpa [accumulate, List.foldl_map] using h

theorem accumulate_none_iff (disparity : ImageView) (b : BBox2i) :
    accumulate disparity b = none ↔ ∀ i j, b.contains i j → disparity.pix i j = none := by
  have h := accumulate_inv disparity b
  constructor
  · intro hn i j hc
    rw [hn] at h
    simp only [acc_inv, List.mem_map] at h
    exact h _ ⟨(i, j), (mem_crop_positions b i j).2 hc, rfl⟩
  · intro hall
    cases hacc : accumulate disparity b with
    | none => rfl
    | some a =>
      obtain ⟨mn, mx⟩ := a
      rw [hacc] at h
      simp only [acc_inv, List.mem_map] at h
      obtain ⟨-, ⟨v, ⟨p, hp, hv⟩, -⟩, -⟩ := h
      have := hall p.1 p.2 ((mem_crop_positions b p.1 p.2).1 hp)
      rw [this] at hv
      exact absurd hv (by simp)

theorem accumulate_some_observed (disparity : ImageView) (b : BBox2i) (mn mx : Vector2i)
    (hacc : accumulate disparity b = some (mn, mx)) : is_observed disparity b mn mx := by
  have h := accumulate_inv disparity b
  rw [hacc] at h
  simp only [acc_inv, List.mem_map] at h
  obtain ⟨hb, ⟨v1, ⟨p1, hp1, hv1⟩, e1⟩, ⟨v2, ⟨p2, hp2, hv2⟩, e2⟩, ⟨v3, ⟨p3, hp3, hv3⟩, e3⟩,
    ⟨v4, ⟨p4, hp4, hv4⟩, e4⟩⟩ := h
  refine ⟨?_, ⟨p1.1, p1.2, v1, (mem_crop_positions b _ _).1 hp1, hv1, e1⟩,
    ⟨p2.1, p2.2, v2, (mem_crop_positions b _ _).1 hp2, hv2, e2⟩,
    ⟨p3.1, p3.2, v3, (mem_crop_positions b _ _).1 hp3, hv3, e3⟩,
    ⟨p4.1, p4.2, v4, (mem_crop_positions b _ _).1 hp4, hv4, e4⟩⟩
  intro i j v hc hv
  exact hb v ⟨(i, j), (mem_crop_positions b i j).2 hc, hv⟩

theorem accumulate_isSome_iff (disparity : ImageView) (b : BBox2i) :
    (∃ mn mx, accumulate disparity b = some (mn, mx)) ↔ has_valid disparity b := by
  unfold has_valid
  constructor
  · rintro ⟨mn, mx, h⟩
    by_contra hne
    have : accumulate disparity b = none := by
      rw [accumulate_none_iff]
      intro i j hc
      by_contra hp
      exact hne ⟨i, j, hc, hp⟩
    rw [this] at h
    exact absurd h (by simp)
  · rintro ⟨i, j, hc, hp⟩
    cases hacc : accumulate disparity b with
    | none => exact absurd ((accumulate_none_iff disparity b).1 hacc i j hc) hp
    | some a => exact ⟨a.1, a.2, rfl⟩

/-! ## Theorems: int32 arithmetic -/

theorem wrap_int32_eq (n : Int) :
    wrap_int32 n = (n - INT32_MIN) % 4294967296 + INT32_MIN := by
  cases n <;> rfl

/-- A value inside the `int32` range is kept. -/
theorem wrap_int32_of_fits (n : Int) (h1 : INT32_MIN ≤ n) (h2 : n ≤ INT32_MAX) :
    wrap_int32 n = n := by
  rw [wrap_int32_eq]
  simp only [INT32_MIN, INT32_MAX] at *
  omega

/-- The wrapped value is an `int32` value and differs from the exact one by a
multiple of 2^32. -/
theorem wrap_int32_spec (n : Int) :
    INT32_MIN ≤ wrap_int32 n ∧ wrap_int32 n ≤ INT32_MAX ∧
    ∃ k : Int, wrap_int32 n = n + 4294967296 * k := by
  rw [wrap_int32_eq]
  simp only [INT32_MIN, INT32_MAX]
  refine ⟨by omega, by omega, -((n - -2147483648) / 4294967296), ?_⟩
  omega

/-- A region with exact area at most 200 or a side below 16 passes the terminal
test: an area of at most 200 with both sides at least 16 does not exist. -/
theorem is_terminal_of_small (b : BBox2i)
    (h : prod b.size ≤ 200 ∨ b.width < 16 ∨ b.height < 16) : is_terminal b = true := by
  simp only [is_terminal, decide_eq_true_eq]
  rcases h with h | h | h
  · by_cases hs : b.width < 16 ∨ b.height < 16
    · exact Or.inr hs
    · exfalso
      simp only [prod, BBox2i.size, BBox2i.width, BBox2i.height, not_or, not_lt] at *
      nlinarith
  · exact Or.inr (Or.inl h)
  · exact Or.inr (Or.inr h)

/-- When the area fits in an `int32` the terminal test is the test of the sides. -/
theorem is_terminal_eq_sides (b : BBox2i) (hfit : b.width * b.height ≤ INT32_MAX) :
    is_terminal b = terminal_by_sides b := by
  simp only [is_terminal, terminal_by_sides]
  refine decide_eq_decide.2 ⟨?_, fun h => Or.inr h⟩
  rintro (h | h)
  · by_contra hs
    have hp : prod b.size = b.width * b.height := by
      simp only [prod, BBox2i.size, BBox2i.width, BBox2i.height]
    have hbig : 256 ≤ b.width * b.height := by
      simp only [BBox2i.width, BBox2i.height, not_or, not_lt] at *
      nlinarith
    rw [hp, wrap_int32_of_fits _ (by simp only [INT32_MIN]; omega) hfit] at h
    omega
  · exact h

/-- The sides that keep the area inside `int32`: width and height from 0 to 46340. -/
theorem area_fits_of_sides (b : BBox2i) (hw0 : 0 ≤ b.width)
    (hw : b.width ≤ 46340) (hh : b.height ≤ 46340) : b.width * b.height ≤ INT32_MAX := by
  simp only [INT32_MAX]
  nlinarith

/-! ## Theorems: unfolding the subdivider -/

theorem subdivide_regions_terminal (disparity : ImageView) (b : BBox2i) (list : List SearchParam)
    (kernel_size : Vector2i) (fail_count : Int) (hterm : is_terminal b = true) :
    subdivide_regions disparity b list kernel_size fail_count =
      match accumulate disparity b with
      | none => (true, list)
      | some (mn, mx) => (true, list ++ [(b, search_box mn mx)]) := by
  rw [subdivide_regions, dif_pos hterm]

theorem subdivide_regions_backup (disparity : ImageView) (b : BBox2i) (list : List SearchParam)
    (kernel_size : Vector2i) (fail_count : Int) (hterm : ¬ is_terminal b = true)
    (hbad : bad_split disparity b kernel_size = true) (hfc : fail_count > 0) :
    subdivide_regions disparity b list kernel_size fail_count = (false, list) := by
  rw [subdivide_regions, dif_neg hterm, if_neg (by omega), if_pos ⟨hbad, hfc⟩]

theorem subdivide_regions_good (disparity : ImageView) (b : BBox2i) (list : List SearchParam)
    (kernel_size : Vector2i) (fail_count : Int) (hterm : ¬ is_terminal b = true)
    (hgood : ¬ (bad_split disparity b kernel_size = true ∧ 0 ≤ fail_count)) :
    subdivide_regions disparity b list kernel_size fail_count =
      (true, (subdivide_regions disparity (q4 b)
        (subdivide_regions disparity (q3 b)
          (subdivide_regions disparity (q2 b)
            (subdivide_regions disparity (q1 b) list kernel_size 0).2 kernel_size 0).2
              kernel_size 0).2 kernel_size 0).2) := by
  rw [subdivide_regions, dif_neg hterm, if_neg (fun h => hgood ⟨h.1, by omega⟩),
    if_neg (fun h => hgood ⟨h.1, by omega⟩)]

theorem subdivide_regions_retry (disparity : ImageView) (b : BBox2i) (list : List SearchParam)
    (kernel_size : Vector2i) (hterm : ¬ is_terminal b = true)
    (hbad : bad_split disparity b kernel_size = true) :
    subdivide_regions disparity b list kernel_size 0 =
      let r1 := subdivide_regions disparity (q1 b) list kernel_size 1
      let r2 := subdivide_regions disparity (q2 b) r1.2 kernel_size 1
      let r3 := subdivide_regions disparity (q3 b) r2.2 kernel_size 1
      let r4 := subdivide_regions disparity (q4 b) r3.2 kernel_size 1
      (true, r4.2 ++ fold_failed b (current_search_region disparity b)
        ((if r1.1 = false then [(q1 b, quadrant_search disparity (q1 b))] else []) ++
         (if r2.1 = false then [(q2 b, quadrant_search disparity (q2 b))] else []) ++
         (if r3.1 = false then [(q3 b, quadrant_search disparity (q3 b))] else []) ++
         (if r4.1 = false then [(q4 b, quadrant_search disparity (q4 b))] else []))) := by
  rw [subdivide_regions, dif_neg hterm, if_pos ⟨hbad, rfl⟩]
  simp only [zero_add]
  congr 2
  split_ifs <;> simp

theorem quadrant_width_le (b : BBox2i) (n : Nat) (hterm : ¬ is_terminal b = true)
    (hn : b.width.toNat ≤ n + 1) :
    (q1 b).width.toNat ≤ n ∧ (q2 b).width.toNat ≤ n ∧
      (q3 b).width.toNat ≤ n ∧ (q4 b).width.toNat ≤ n := by
  simp only [is_terminal, decide_eq_true_eq, not_or, not_lt, not_le] at hterm
  obtain ⟨-, hw, -⟩ := hterm
  simp only [BBox2i.width] at hw hn
  simp only [q1, q2, q3, q4, split_pt, BBox2i.width, BBox2i.size, Vector2i.add, Vector2i.div]
  have h2 := Int.tdiv_add_tmod (b.max.x - b.min.x) 2
  have h3 := Int.tmod_nonneg 2 (by omega : 0 ≤ b.max.x - b.min.x)
  have h4 := Int.tmod_lt_of_pos (b.max.x - b.min.x) (by omega : (0 : Int) < 2)
  omega

theorem subdivide_regions_append_aux (disparity : ImageView) (kernel_size : Vector2i) :
    ∀ (n : Nat) (b : BBox2i) (list : List SearchParam) (fail_count : Int),
      b.width.toNat ≤ n →
      subdivide_regions disparity b list kernel_size fail_count =
        ((subdivide_regions disparity b [] kernel_size fail_count).1,
          list ++ (subdivide_regions disparity b [] kernel_size fail_count).2) := by
  intro n
  induction n with
  | zero =>
    intro b list fc hn
    have hterm : is_terminal b = true := by
      simp only [is_terminal, decide_eq_true_eq]
      right; left; omega
    rw [subdivide_regions_terminal _ _ list _ _ hterm, subdivide_regions_terminal _ _ [] _ _ hterm]
    cases accumulate disparity b with
    | none => simp
    | some a => simp
  | succ n ih =>
    intro b list fc hn
    by_cases hterm : is_terminal b = true
    · rw [subdivide_regions_terminal _ _ list _ _ hterm, subdivide_regions_terminal _ _ [] _ _ hterm]
      cases accumulate disparity b with
      | none => simp
      | some a => simp
    · obtain ⟨hw1, hw2, hw3, hw4⟩ := quadrant_width_le b n hterm hn
      by_cases hbad : bad_split disparity b kernel_size = true
      · rcases lt_trichotomy fc 0 with hfc | rfl | hfc
        · have hg : ¬ (bad_split disparity b kernel_size = true ∧ 0 ≤ fc) := fun h => by omega
          rw [subdivide_regions_good _ _ list _ _ hterm hg, subdivide_regions_good _ _ [] _ _ hterm hg]
          rw [ih (q1 b) list 0 hw1]
          rw [ih (q2 b) (list ++ _) 0 hw2, ih (q2 b) (subdivide_regions disparity (q1 b) [] kernel_size 0).2 0 hw2]
          rw [ih (q3 b) (list ++ _ ++ _) 0 hw3, ih (q3 b) (_ ++ _) 0 hw3]
          rw [ih (q4 b) (list ++ _ ++ _ ++ _) 0 hw4, ih (q4 b) (_ ++ _ ++ _) 0 hw4]
          simp only [List.append_assoc]
        · rw [subdivide_regions_retry _ _ list _ hterm hbad, subdivide_regions_retry _ _ [] _ hterm hbad]
          simp only []
          rw [ih (q1 b) list 1 hw1]
          rw [ih (q2 b) (list ++ _) 1 hw2, ih (q2 b) (subdivide_regions disparity (q1 b) [] kernel_size 1).2 1 hw2]
          rw [ih (q3 b) (list ++ _ ++ _) 1 hw3, ih (q3 b) (_ ++ _) 1 hw3]
          rw [ih (q4 b) (list ++ _ ++ _ ++ _) 1 hw4, ih (q4 b) (_ ++ _ ++ _) 1 hw4]
          simp only [List.append_assoc]
        · rw [subdivide_regions_backup _ _ list _ _ hterm hbad hfc,
            subdivide_regions_backup _ _ [] _ _ hterm hbad hfc]
          simp
      · have hg : ¬ (bad_split disparity b kernel_size = true ∧ 0 ≤ fc) := fun h => hbad h.1
        rw [subdivide_regions_good _ _ list _ _ hterm hg, subdivide_regions_good _ _ [] _ _ hterm hg]
        rw [ih (q1 b) list 0 hw1]
        rw [ih (q2 b) (list ++ _) 0 hw2, ih (q2 b) (subdivide_regions disparity (q1 b) [] kernel_size 0).2 0 hw2]
        rw [ih (q3 b) (list ++ _ ++ _) 0 hw3, ih (q3 b) (_ ++ _) 0 hw3]
        rw [ih (q4 b) (list ++ _ ++ _ ++ _) 0 hw4, ih (q4 b) (_ ++ _ ++ _) 0 hw4]
        simp only [List.append_assoc]

theorem subdivide_regions_append (disparity : ImageView) (b : BBox2i) (list : List SearchParam)
    (kernel_size : Vector2i) (fail_count : Int) :
    subdivide_regions disparity b list kernel_size fail_count =
      ((subdivide_regions disparity b [] kernel_size fail_count).1,
        list ++ emitted disparity b kernel_size fail_count) :=
  subdivide_regions_append_aux disparity kernel_size _ b list fail_count le_rfl

theorem emitted_terminal (disparity : ImageView) (b : BBox2i) (kernel_size : Vector2i)
    (fail_count : Int) (hterm : is_terminal b = true) :
    emitted disparity b kernel_size fail_count =
      match accumulate disparity b with
      | none => []
      | some (mn, mx) => [(b, search_box mn mx)] := by
  rw [emitted, subdivide_regions_terminal _ _ _ _ _ hterm]
  cases accumulate disparity b with
  | none => rfl
  | some a => rfl

theorem emitted_backup (disparity : ImageView) (b : BBox2i) (kernel_size : Vector2i)
    (fail_count : Int) (hterm : ¬ is_terminal b = true)
    (hbad : bad_split disparity b kernel_size = true) (hfc : fail_count > 0) :
    emitted disparity b kernel_size fail_count = [] := by
  rw [emitted, subdivide_regions_backup _ _ _ _ _ hterm hbad hfc]

theorem emitted_good (disparity : ImageView) (b : BBox2i) (kernel_size : Vector2i)
    (fail_count : Int) (hterm : ¬ is_terminal b = true)
    (hgood : ¬ (bad_split disparity b kernel_size = true ∧ 0 ≤ fail_count)) :
    emitted disparity b kernel_size fail_count =
      emitted disparity (q1 b) kernel_size 0 ++ emitted disparity (q2 b) kernel_size 0 ++
        emitted disparity (q3 b) kernel_size 0 ++ emitted disparity (q4 b) kernel_size 0 := by
  rw [emitted, subdivide_regions_good _ _ _ _ _ hterm hgood]
  simp only []
  rw [subdivide_regions_append _ (q4 b), subdivide_regions_append _ (q3 b),
    subdivide_regions_append _ (q2 b)]
  rfl

theorem emitted_retry (disparity : ImageView) (b : BBox2i) (kernel_size : Vector2i)
    (hterm : ¬ is_terminal b = true) (hbad : bad_split disparity b kernel_size = true) :
    emitted disparity b kernel_size 0 =
      emitted disparity (q1 b) kernel_size 1 ++ emitted disparity (q2 b) kernel_size 1 ++
        emitted disparity (q3 b) kernel_size 1 ++ emitted disparity (q4 b) kernel_size 1 ++
        fold_failed b (current_search_region disparity b) (failed_quadrants disparity b kernel_size) := by
  rw [emitted, subdivide_regions_retry _ _ _ _ hterm hbad]
  simp only []
  rw [subdivide_regions_append _ (q4 b), subdivide_regions_append _ (q3 b),
    subdivide_regions_append _ (q2 b)]
  rfl

/-- The boolean result of a call does not depend on the list passed in. -/
theorem subdivide_regions_fst (disparity : ImageView) (b : BBox2i) (list : List SearchParam)
    (kernel_size : Vector2i) (fail_count : Int) :
    (subdivide_regions disparity b list kernel_size fail_count).1 =
      (subdivide_regions disparity b [] kernel_size fail_count).1 := by
  rw [subdivide_regions_append]

/-- The boolean result: false exactly in the back-up branch. -/
theorem subdivide_regions_fst_eq (disparity : ImageView) (b : BBox2i) (list : List SearchParam)
    (kernel_size : Vector2i) (fail_count : Int) :
    (subdivide_regions disparity b list kernel_size fail_count).1 =
      !(!is_terminal b && bad_split disparity b kernel_size && decide (fail_count > 0)) := by
  by_cases hterm : is_terminal b = true
  · rw [subdivide_regions_terminal _ _ _ _ _ hterm, hterm]
    cases accumulate disparity b with
    | none => rfl
    | some a => rfl
  · by_cases hbad : bad_split disparity b kernel_size = true
    · rcases lt_trichotomy fail_count 0 with hfc | rfl | hfc
      · rw [subdivide_regions_good _ _ _ _ _ hterm (fun h => by omega)]
        simp [hterm, hbad]; omega
      · rw [subdivide_regions_retry _ _ _ _ hterm hbad]
        simp [hterm, hbad]
      · rw [subdivide_regions_backup _ _ _ _ _ hterm hbad hfc]
        simp [hterm, hbad, hfc]
    · rw [subdivide_regions_good _ _ _ _ _ hterm (fun h => hbad h.1)]
      simp [hterm, hbad]

/-! ## Theorems: geometry of the quadrants -/

theorem nonterminal_dims (b : BBox2i) (hterm : ¬ is_terminal b = true) :
    16 ≤ b.max.x - b.min.x ∧ 16 ≤ b.max.y - b.min.y := by
  simp only [is_terminal, decide_eq_true_eq, not_or, not_lt, not_le, BBox2i.width,
    BBox2i.height] at hterm
  exact ⟨hterm.2.1, hterm.2.2⟩

theorem split_pt_eq (b : BBox2i) (hw : 0 ≤ b.max.x - b.min.x) (hh : 0 ≤ b.max.y - b.min.y) :
    (split_pt b).x = (b.max.x - b.min.x) / 2 ∧ (split_pt b).y = (b.max.y - b.min.y) / 2 := by
  simp only [split_pt, BBox2i.size, Vector2i.div]
  exact ⟨Int.tdiv_eq_ediv hw (by omega), Int.tdiv_eq_ediv hh (by omega)⟩

theorem split_pt_bounds (b : BBox2i) (hterm : ¬ is_terminal b = true) :
    8 ≤ (split_pt b).x ∧ (split_pt b).x + 8 ≤ b.max.x - b.min.x ∧
    8 ≤ (split_pt b).y ∧ (split_pt b).y + 8 ≤ b.max.y - b.min.y := by
  obtain ⟨hw, hh⟩ := nonterminal_dims b hterm
  obtain ⟨hx, hy⟩ := split_pt_eq b (by omega) (by omega)
  omega

theorem quadrants_cover (b : BBox2i) (hw : 0 ≤ b.max.x - b.min.x) (hh : 0 ≤ b.max.y - b.min.y)
    (i j : Int) :
    b.contains i j ↔
      ((q1 b).contains i j ∨ (q2 b).contains i j ∨ (q3 b).contains i j ∨ (q4 b).contains i j) := by
  obtain ⟨hx, hy⟩ := split_pt_eq b hw hh
  simp only [BBox2i.contains, q1, q2, q3, q4, Vector2i.add]
  generalize (split_pt b).x = sx at *
  generalize (split_pt b).y = sy at *
  omega

theorem quadrants_disjoint (b : BBox2i) (hw : 0 ≤ b.max.x - b.min.x) (hh : 0 ≤ b.max.y - b.min.y) :
    boxes_disjoint (q1 b) (q2 b) ∧ boxes_disjoint (q1 b) (q3 b) ∧ boxes_disjoint (q1 b) (q4 b) ∧
    boxes_disjoint (q2 b) (q3 b) ∧ boxes_disjoint (q2 b) (q4 b) ∧ boxes_disjoint (q3 b) (q4 b) := by
  obtain ⟨hx, hy⟩ := split_pt_eq b hw hh
  simp only [boxes_disjoint, BBox2i.contains, q1, q2, q3, q4, Vector2i.add]
  generalize (split_pt b).x = sx at *
  generalize (split_pt b).y = sy at *
  refine ⟨?_, ?_, ?_, ?_, ?_, ?_⟩ <;> intro i j <;> omega

/-- The list of failed quadrants selected by four flags. -/
theorem fold_failed_spec (b csr s1 s2 s3 s4 : BBox2i) (a1 a2 a3 a4 : Bool)
    (hterm : ¬ is_terminal b = true) :
    let failed := (if a1 = false then [(q1 b, s1)] else []) ++ (if a2 = false then [(q2 b, s2)] else []) ++
      (if a3 = false then [(q3 b, s3)] else []) ++ (if a4 = false then [(q4 b, s4)] else [])
    zones_disjoint (fold_failed b csr failed) ∧
    ∀ i j, covered (fold_failed b csr failed) i j ↔
      ((a1 = false ∧ (q1 b).contains i j) ∨ (a2 = false ∧ (q2 b).contains i j) ∨
       (a3 = false ∧ (q3 b).contains i j) ∨ (a4 = false ∧ (q4 b).contains i j)) := by
  obtain ⟨h1, h2, h3, h4⟩ := split_pt_bounds b hterm
  intro failed
  cases a1 <;> cases a2 <;> cases a3 <;> cases a4 <;>
    simp only [failed, fold_failed, can_merge, merged, if_true, if_false, Bool.false_eq_true, Bool.true_eq_false,
      List.nil_append, List.append_nil, List.cons_append, List.singleton_append]
  all_goals try split_ifs
  all_goals
    simp only [zones_disjoint, covered, boxes_disjoint, List.pairwise_cons, List.Pairwise.nil,
      List.mem_cons, List.mem_singleton, List.not_mem_nil, exists_eq_or_imp, exists_eq_left,
      BBox2i.contains, expand_bbox, q1, q2, q3, q4, Vector2i.add, forall_eq_or_imp, forall_eq,
      false_and, true_and, or_false, false_or, and_true, exists_false, IsEmpty.forall_iff,
      implies_true, decide_eq_true_eq] at *
  all_goals generalize (split_pt b).x = sx at *
  all_goals generalize (split_pt b).y = sy at *
  all_goals repeat' apply And.intro
  all_goals intros
  all_goals omega

/-! ## Theorems: the emitted zones partition the data of the region -/

theorem covered_append (l1 l2 : List SearchParam) (i j : Int) :
    covered (l1 ++ l2) i j ↔ covered l1 i j ∨ covered l2 i j := by
  simp only [covered, List.mem_append]
  constructor
  · rintro ⟨z, hz | hz, hc⟩
    · exact Or.inl ⟨z, hz, hc⟩
    · exact Or.inr ⟨z, hz, hc⟩
  · rintro (⟨z, hz, hc⟩ | ⟨z, hz, hc⟩)
    · exact ⟨z, Or.inl hz, hc⟩
    · exact ⟨z, Or.inr hz, hc⟩

theorem covered_nil (i j : Int) : ¬ covered [] i j := by
  simp [covered]

theorem zones_disjoint_append (l1 l2 : List SearchParam) (h1 : zones_disjoint l1)
    (h2 : zones_disjoint l2) (h : ∀ i j, ¬ (covered l1 i j ∧ covered l2 i j)) :
    zones_disjoint (l1 ++ l2) := by
  unfold zones_disjoint at *
  rw [List.pairwise_append]
  refine ⟨h1, h2, ?_⟩
  intro a ha b hb i j hc
  exact h i j ⟨⟨a, ha, hc.1⟩, ⟨b, hb, hc.2⟩⟩

/-- Assembling the zones of four quadrants and of the folded failures. -/
theorem partitions_valid_assemble (disparity : ImageView) (b : BBox2i)
    (e1 e2 e3 e4 z : List SearchParam) (a1 a2 a3 a4 : Bool)
    (hw : 0 ≤ b.max.x - b.min.x) (hh : 0 ≤ b.max.y - b.min.y)
    (h1 : if a1 = false then e1 = [] else partitions_valid disparity (q1 b) e1)
    (h2 : if a2 = false then e2 = [] else partitions_valid disparity (q2 b) e2)
    (h3 : if a3 = false then e3 = [] else partitions_valid disparity (q3 b) e3)
    (h4 : if a4 = false then e4 = [] else partitions_valid disparity (q4 b) e4)
    (hz : zones_disjoint z)
    (hzc : ∀ i j, covered z i j ↔
      ((a1 = false ∧ (q1 b).contains i j) ∨ (a2 = false ∧ (q2 b).contains i j) ∨
       (a3 = false ∧ (q3 b).contains i j) ∨ (a4 = false ∧ (q4 b).contains i j))) :
    partitions_valid disparity b (e1 ++ e2 ++ e3 ++ e4 ++ z) := by
  have hcov := quadrants_cover b hw hh
  obtain ⟨d12, d13, d14, d23, d24, d34⟩ := quadrants_disjoint b hw hh
  have c1 : ∀ i j, covered e1 i j → a1 = true ∧ (q1 b).contains i j := by
    intro i j hc
    cases a1 with
    | false => simp only [if_true] at h1; rw [h1] at hc; exact absurd hc (covered_nil i j)
    | true => simp only [Bool.true_eq_false, if_false] at h1; exact ⟨rfl, h1.1 i j hc⟩
  have c2 : ∀ i j, covered e2 i j → a2 = true ∧ (q2 b).contains i j := by
    intro i j hc
    cases a2 with
    | false => simp only [if_true] at h2; rw [h2] at hc; exact absurd hc (covered_nil i j)
    | true => simp only [Bool.true_eq_false, if_false] at h2; exact ⟨rfl, h2.1 i j hc⟩
  have c3 : ∀ i j, covered e3 i j → a3 = true ∧ (q3 b).contains i j := by
    intro i j hc
    cases a3 with
    | false => simp only [if_true] at h3; rw [h3] at hc; exact absurd hc (covered_nil i j)
    | true => simp only [Bool.true_eq_false, if_false] at h3; exact ⟨rfl, h3.1 i j hc⟩
  have c4 : ∀ i j, covered e4 i j → a4 = true ∧ (q4 b).contains i j := by
    intro i j hc
    cases a4 with
    | false => simp only [if_true] at h4; rw [h4] at hc; exact absurd hc (covered_nil i j)
    | true => simp only [Bool.true_eq_false, if_false] at h4; exact ⟨rfl, h4.1 i j hc⟩
  have p1 : zones_disjoint e1 := by
    cases a1 with
    | false => simp only [if_true] at h1; rw [h1]; exact List.Pairwise.nil
    | true => simp only [Bool.true_eq_false, if_false] at h1; exact h1.2.1
  have p2 : zones_disjoint e2 := by
    cases a2 with
    | false => simp only [if_true] at h2; rw [h2]; exact List.Pairwise.nil
    | true => simp only [Bool.true_eq_false, if_false] at h2; exact h2.2.1
  have p3 : zones_disjoint e3 := by
    cases a3 with
    | false => simp only [if_true] at h3; rw [h3]; exact List.Pairwise.nil
    | true => simp only [Bool.true_eq_false, if_false] at h3; exact h3.2.1
  have p4 : zones_disjoint e4 := by
    cases a4 with
    | false => simp only [if_true] at h4; rw [h4]; exact List.Pairwise.nil
    | true => simp only [Bool.true_eq_false, if_false] at h4; exact h4.2.1
  refine ⟨?_, ?_, ?_⟩
  · intro i j hc
    rw [hcov]
    simp only [covered_append] at hc
    rcases hc with (((hc | hc) | hc) | hc) | hc
    · exact Or.inl (c1 i j hc).2
    · exact Or.inr (Or.inl (c2 i j hc).2)
    · exact Or.inr (Or.inr (Or.inl (c3 i j hc).2))
    · exact Or.inr (Or.inr (Or.inr (c4 i j hc).2))
    · rcases (hzc i j).1 hc with h | h | h | h
      · exact Or.inl h.2
      · exact Or.inr (Or.inl h.2)
      · exact Or.inr (Or.inr (Or.inl h.2))
      · exact Or.inr (Or.inr (Or.inr h.2))
  · refine zones_disjoint_append _ _ (zones_disjoint_append _ _ (zones_disjoint_append _ _
      (zones_disjoint_append _ _ p1 p2 ?_) p3 ?_) p4 ?_) hz ?_
    · rintro i j ⟨ha, hb⟩
      exact d12 i j ⟨(c1 i j ha).2, (c2 i j hb).2⟩
    · rintro i j ⟨ha, hb⟩
      simp only [covered_append] at ha
      rcases ha with ha | ha
      · exact d13 i j ⟨(c1 i j ha).2, (c3 i j hb).2⟩
      · exact d23 i j ⟨(c2 i j ha).2, (c3 i j hb).2⟩
    · rintro i j ⟨ha, hb⟩
      simp only [covered_append] at ha
      rcases ha with (ha | ha) | ha
      · exact d14 i j ⟨(c1 i j ha).2, (c4 i j hb).2⟩
      · exact d24 i j ⟨(c2 i j ha).2, (c4 i j hb).2⟩
      · exact d34 i j ⟨(c3 i j ha).2, (c4 i j hb).2⟩
    · rintro i j ⟨ha, hb⟩
      simp only [covered_append] at ha
      have hb := (hzc i j).1 hb
      rcases ha with ((ha | ha) | ha) | ha
      · obtain ⟨f, hq⟩ := c1 i j ha
        rcases hb with h | h | h | h
        · rw [f] at h; exact absurd h.1 (by simp)
        · exact d12 i j ⟨hq, h.2⟩
        · exact d13 i j ⟨hq, h.2⟩
        · exact d14 i j ⟨hq, h.2⟩
      · obtain ⟨f, hq⟩ := c2 i j ha
        rcases hb with h | h | h | h
        · exact d12 i j ⟨h.2, hq⟩
        · rw [f] at h; exact absurd h.1 (by simp)
        · exact d23 i j ⟨hq, h.2⟩
        · exact d24 i j ⟨hq, h.2⟩
      · obtain ⟨f, hq⟩ := c3 i j ha
        rcases hb with h | h | h | h
        · exact d13 i j ⟨h.2, hq⟩
        · exact d23 i j ⟨h.2, hq⟩
        · rw [f] at h; exact absurd h.1 (by simp)
        · exact d34 i j ⟨hq, h.2⟩
      · obtain ⟨f, hq⟩ := c4 i j ha
        rcases hb with h | h | h | h
        · exact d14 i j ⟨h.2, hq⟩
        · exact d24 i j ⟨h.2, hq⟩
        · exact d34 i j ⟨h.2, hq⟩
        · rw [f] at h; exact absurd h.1 (by simp)
  · intro i j hc hv
    simp only [covered_append]
    rcases (hcov i j).1 hc with hq | hq | hq | hq
    · cases a1 with
      | false => exact Or.inr ((hzc i j).2 (Or.inl ⟨rfl, hq⟩))
      | true =>
        simp only [Bool.true_eq_false, if_false] at h1
        exact Or.inl (Or.inl (Or.inl (Or.inl (h1.2.2 i j hq hv))))
    · cases a2 with
      | false => exact Or.inr ((hzc i j).2 (Or.inr (Or.inl ⟨rfl, hq⟩)))
      | true =>
        simp only [Bool.true_eq_false, if_false] at h2
        exact Or.inl (Or.inl (Or.inl (Or.inr (h2.2.2 i j hq hv))))
    · cases a3 with
      | false => exact Or.inr ((hzc i j).2 (Or.inr (Or.inr (Or.inl ⟨rfl, hq⟩))))
      | true =>
        simp only [Bool.true_eq_false, if_false] at h3
        exact Or.inl (Or.inl (Or.inr (h3.2.2 i j hq hv)))
    · cases a4 with
      | false => exact Or.inr ((hzc i j).2 (Or.inr (Or.inr (Or.inr ⟨rfl, hq⟩))))
      | true =>
        simp only [Bool.true_eq_false, if_false] at h4
        exact Or.inl (Or.inr (h4.2.2 i j hq hv))

theorem partitions_valid_terminal (disparity : ImageView) (b : BBox2i) (kernel_size : Vector2i)
    (fail_count : Int) (hterm : is_terminal b = true) :
    partitions_valid disparity b (emitted disparity b kernel_size fail_count) := by
  rw [emitted_terminal _ _ _ _ hterm]
  cases hacc : accumulate disparity b with
  | none =>
    refine ⟨fun i j hc => absurd hc (covered_nil i j), List.Pairwise.nil, ?_⟩
    intro i j hc hv
    exact absurd ((accumulate_none_iff disparity b).1 hacc i j hc) hv
  | some a =>
    obtain ⟨mn, mx⟩ := a
    refine ⟨?_, List.pairwise_singleton _ _, ?_⟩
    · rintro i j ⟨z, hz, hc⟩
      rw [List.mem_singleton] at hz
      rw [hz] at hc
      exact hc
    · intro i j hc _
      exact ⟨_, List.mem_singleton.2 rfl, hc⟩

theorem partitions_valid_emitted_aux (disparity : ImageView) (kernel_size : Vector2i) :
    ∀ (n : Nat) (b : BBox2i) (fail_count : Int), b.width.toNat ≤ n →
      (subdivide_regions disparity b [] kernel_size fail_count).1 = true →
      partitions_valid disparity b (emitted disparity b kernel_size fail_count) := by
  intro n
  induction n with
  | zero =>
    intro b fc hn _
    have hterm : is_terminal b = true := by
      simp only [is_terminal, decide_eq_true_eq]
      right; left; omega
    exact partitions_valid_terminal disparity b kernel_size fc hterm
  | succ n ih =>
    intro b fc hn hok
    by_cases hterm : is_terminal b = true
    · exact partitions_valid_terminal disparity b kernel_size fc hterm
    · obtain ⟨hw1, hw2, hw3, hw4⟩ := quadrant_width_le b n hterm hn
      obtain ⟨hw, hh⟩ := nonterminal_dims b hterm
      have good : ∀ fc', ¬ (bad_split disparity b kernel_size = true ∧ 0 ≤ fc') →
          partitions_valid disparity b (emitted disparity b kernel_size fc') := by
        intro fc' hg
        rw [emitted_good _ _ _ _ hterm hg]
        have := partitions_valid_assemble disparity b (emitted disparity (q1 b) kernel_size 0)
          (emitted disparity (q2 b) kernel_size 0) (emitted disparity (q3 b) kernel_size 0)
          (emitted disparity (q4 b) kernel_size 0) [] true true true true
          (by omega) (by omega)
          (by simpa using ih (q1 b) 0 hw1 (by rw [subdivide_regions_fst_eq]; simp))
          (by simpa using ih (q2 b) 0 hw2 (by rw [subdivide_regions_fst_eq]; simp))
          (by simpa using ih (q3 b) 0 hw3 (by rw [subdivide_regions_fst_eq]; simp))
          (by simpa using ih (q4 b) 0 hw4 (by rw [subdivide_regions_fst_eq]; simp))
          List.Pairwise.nil (by intro i j; simp [covered])
        simpa using this
      by_cases hbad : bad_split disparity b kernel_size = true
      · rcases lt_trichotomy fc 0 with hfc | rfl | hfc
        · exact good fc (fun h => by omega)
        · rw [emitted_retry _ _ _ hterm hbad]
          have quad : ∀ q : BBox2i, q.width.toNat ≤ n →
              if (subdivide_regions disparity q [] kernel_size 1).1 = false
              then emitted disparity q kernel_size 1 = []
              else partitions_valid disparity q (emitted disparity q kernel_size 1) := by
            intro q hq
            cases hr : (subdivide_regions disparity q [] kernel_size 1).1 with
            | true => simpa using ih q 1 hq hr
            | false =>
              simp only [if_true]
              rw [subdivide_regions_fst_eq] at hr
              by_cases ht : is_terminal q = true
              · simp [ht] at hr
              · by_cases hb : bad_split disparity q kernel_size = true
                · exact emitted_backup _ _ _ _ ht hb (by omega)
                · simp [hb] at hr
          have hff := fold_failed_spec b (current_search_region disparity b)
            (quadrant_search disparity (q1 b)) (quadrant_search disparity (q2 b))
            (quadrant_search disparity (q3 b)) (quadrant_search disparity (q4 b))
            (subdivide_regions disparity (q1 b) [] kernel_size 1).1
            (subdivide_regions disparity (q2 b) [] kernel_size 1).1
            (subdivide_regions disparity (q3 b) [] kernel_size 1).1
            (subdivide_regions disparity (q4 b) [] kernel_size 1).1 hterm
          exact partitions_valid_assemble disparity b _ _ _ _ _ _ _ _ _ (by omega) (by omega)
            (quad (q1 b) hw1) (quad (q2 b) hw2) (quad (q3 b) hw3) (quad (q4 b) hw4)
            hff.1 hff.2
        · rw [subdivide_regions_backup _ _ _ _ _ hterm hbad hfc] at hok
          exact absurd hok (by simp)
      · exact good fc (fun h => hbad h.1)

/-- Whenever a call succeeds, its zones are pairwise disjoint, lie inside the
region and cover every valid pixel of the region. -/
theorem partitions_valid_emitted (disparity : ImageView) (b : BBox2i) (kernel_size : Vector2i)
    (fail_count : Int) (hok : (subdivide_regions disparity b [] kernel_size fail_count).1 = true) :
    partitions_valid disparity b (emitted disparity b kernel_size fail_count) :=
  partitions_valid_emitted_aux disparity kernel_size _ b fail_count le_rfl hok

/-- A zone emitted from inside a quadrant of a non-terminal region is not the
region itself. -/
theorem zone_in_quadrant_ne (disparity : ImageView) (R : BBox2i) (zones : List SearchParam)
    (hterm : ¬ is_terminal R = true)
    (h : (partitions_valid disparity (q1 R) zones ∨ partitions_valid disparity (q2 R) zones) ∨
      partitions_valid disparity (q3 R) zones ∨ partitions_valid disparity (q4 R) zones) :
    ∀ z ∈ zones, z.1 ≠ R := by
  obtain ⟨h1, h2, h3, h4⟩ := split_pt_bounds R hterm
  intro z hz hzR
  have hin : ∀ i j, R.contains i j → covered zones i j := fun i j hc => ⟨z, hz, hzR ▸ hc⟩
  have hlast : R.contains (R.max.x - 1) (R.max.y - 1) := by
    simp only [BBox2i.contains]; omega
  have hfirst : R.contains R.min.x R.min.y := by
    simp only [BBox2i.contains]; omega
  rcases h with (h | h) | h | h
  · have := h.1 _ _ (hin _ _ hlast)
    simp only [BBox2i.contains, q1, Vector2i.add] at this
    omega
  · have := h.1 _ _ (hin _ _ hlast)
    simp only [BBox2i.contains, q2, Vector2i.add] at this
    omega
  · have := h.1 _ _ (hin _ _ hlast)
    simp only [BBox2i.contains, q3, Vector2i.add] at this
    omega
  · have := h.1 _ _ (hin _ _ hfirst)
    simp only [BBox2i.contains, q4, Vector2i.add] at this
    omega

/-! ## Theorems: the pyramid depth -/

theorem floor_log2_eq_floor_logb (n : Int) (hn : 1 ≤ n) :
    floor_log2 n = ⌊Real.logb 2 (n : ℝ)⌋ := by
  obtain ⟨m, rfl⟩ := Int.eq_ofNat_of_zero_le (by omega : 0 ≤ n)
  have h := Real.floor_logb_natCast (b := 2) (r := (m : ℝ)) (Nat.cast_nonneg m)
  simp only [Nat.cast_ofNat] at h
  simp only [floor_log2, Int.toNat_ofNat, Int.cast_natCast]
  rw [h, Int.log_natCast]

theorem nat_ceil_div (k t : Nat) (ht : 0 < t) (hk : 0 < k) :
    ⌈(k : ℝ) / (t : ℝ)⌉₊ = (k + t - 1) / t := by
  have htr : (0 : ℝ) < t := Nat.cast_pos.2 ht
  have hn : (k + t - 1) / t ≠ 0 := by
    have : 1 ≤ (k + t - 1) / t := (Nat.le_div_iff_mul_le ht).2 (by omega)
    omega
  rw [Nat.ceil_eq_iff hn]
  have h1 : (k + t - 1) / t * t ≤ k + t - 1 := Nat.div_mul_le_self _ _
  have h2 : k + t - 1 < ((k + t - 1) / t + 1) * t := by
    have := Nat.lt_div_mul_add (a := k + t - 1) ht
    rw [Nat.add_mul, Nat.one_mul]
    exact this
  constructor
  · rw [lt_div_iff₀ htr]
    have h3 : ((k + t - 1) / t - 1) * t < k := by
      have : ((k + t - 1) / t - 1) * t + t = (k + t - 1) / t * t := by
        have h4 : 1 ≤ (k + t - 1) / t := Nat.one_le_iff_ne_zero.2 hn
        nth_rewrite 2 [← Nat.sub_add_cancel h4]
        rw [Nat.add_mul, Nat.one_mul]
      omega
    exact_mod_cast h3
  · rw [div_le_iff₀ htr]
    have h3 : k ≤ (k + t - 1) / t * t := by
      rw [Nat.add_mul, Nat.one_mul] at h2
      omega
    exact_mod_cast h3

theorem floor_log2_ratio_eq_floor_logb (t k : Int) (ht : 1 ≤ t) (hk : 1 ≤ k) :
    floor_log2_ratio t k = ⌊Real.logb 2 (t : ℝ) - Real.logb 2 (k : ℝ)⌋ := by
  obtain ⟨a, rfl⟩ := Int.eq_ofNat_of_zero_le (by omega : 0 ≤ t)
  obtain ⟨c, rfl⟩ := Int.eq_ofNat_of_zero_le (by omega : 0 ≤ k)
  have ha : 0 < a := by omega
  have hc : 0 < c := by omega
  have har : (0 : ℝ) < a := Nat.cast_pos.2 ha
  have hcr : (0 : ℝ) < c := Nat.cast_pos.2 hc
  simp only [Int.cast_natCast]
  rw [← Real.logb_div har.ne' hcr.ne']
  have h := Real.floor_logb_natCast (b := 2) (r := (a : ℝ) / c) (by positivity)
  simp only [Nat.cast_ofNat] at h
  rw [h]
  simp only [floor_log2_ratio, Int.toNat_ofNat, Nat.cast_le]
  split_ifs with hle
  · rw [Int.log_of_one_le_right, Nat.floor_div_eq_div]
    rw [one_le_div hcr]
    exact_mod_cast hle
  · rw [Int.log_of_right_le_one, inv_div, nat_ceil_div c a ha hc]
    rw [div_le_one hcr]
    have : a ≤ c := by omega
    exact_mod_cast this

theorem max_level_by_search_nonneg (search_region : BBox2i) :
    0 ≤ max_level_by_search search_region := by
  simp only [max_level_by_search]
  split_ifs <;> omega

theorem floor_log2_ratio_nonneg (t k : Int) (hk : 1 ≤ k) (hkt : k ≤ t) :
    0 ≤ floor_log2_ratio t k ∧ k * 2 ^ (floor_log2_ratio t k).toNat ≤ t := by
  obtain ⟨a, rfl⟩ := Int.eq_ofNat_of_zero_le (by omega : 0 ≤ t)
  obtain ⟨c, rfl⟩ := Int.eq_ofNat_of_zero_le (by omega : 0 ≤ k)
  have hc : 0 < c := by omega
  have hca : c ≤ a := by omega
  simp only [floor_log2_ratio, if_pos hkt, Int.toNat_ofNat]
  refine ⟨Int.natCast_nonneg _, ?_⟩
  have hq : a / c ≠ 0 := by
    have : 1 ≤ a / c := (Nat.le_div_iff_mul_le hc).2 (by omega)
    omega
  have h1 : 2 ^ Nat.log 2 (a / c) ≤ a / c := Nat.pow_log_le_self 2 hq
  have h2 : c * 2 ^ Nat.log 2 (a / c) ≤ a :=
    le_trans (Nat.mul_le_mul_left c h1) (Nat.mul_div_le a c)
  exact_mod_cast h2

/-- The depth is the smaller of the search bound and the tile bound. -/
theorem max_pyramid_levels_eq_min (view : PyramidCorrelationView) (bbox : BBox2i) :
    max_pyramid_levels view bbox =
      Min.min view.m_max_level_by_search
        (floor_log2_ratio (Min.min bbox.size.x bbox.size.y)
          (Max.max view.m_kernel_size.x view.m_kernel_size.y)) := by
  simp only [max_pyramid_levels]
  split_ifs with h
  · exact (min_eq_left (le_of_lt h)).symm
  · exact (min_eq_right (not_lt.1 h)).symm

/-- The tile holds the kernel at every depth up to the tile bound, hence also at
a depth that a rounded logarithm makes one smaller. -/
theorem kernel_fits_at_depth (t k : Int) (hk : 1 ≤ k) (hkt : k ≤ t) (d : Nat)
    (hd : (d : Int) ≤ floor_log2_ratio t k) : k ≤ t / 2 ^ d := by
  obtain ⟨hr0, hr1⟩ := floor_log2_ratio_nonneg t k hk hkt
  have hle : d ≤ (floor_log2_ratio t k).toNat := by omega
  have hpow : (2 : Int) ^ d ≤ 2 ^ (floor_log2_ratio t k).toNat :=
    pow_le_pow_right₀ (by norm_num) hle
  rw [Int.le_ediv_iff_mul_le (by positivity)]
  calc k * 2 ^ d ≤ k * 2 ^ (floor_log2_ratio t k).toNat :=
        Int.mul_le_mul_of_nonneg_left hpow (by omega)
    _ ≤ t := hr1

/-- The depth of the model in terms of exact real logarithms: for a search region
of largest dimension `S >= 1`, a tile of smallest side `T >= 1` and a kernel of
largest side `K >= 1`, `m_max_level_by_search` is `max(floor(log2 S) - 1, 0)` and
`max_pyramid_levels` is `min(max(floor(log2 S) - 1, 0), floor(log2 T - log2 K))`.
This describes the idealised integer functions `floor_log2` and
`floor_log2_ratio`, not the floating-point evaluation of the source. -/
theorem max_pyramid_levels_exact_logs (search_region : BBox2i) (kernel_size : Vector2i)
    (cost_type : CostFunctionType) (consistency_threshold : Rat) (bbox : BBox2i)
    (hS : 1 ≤ Max.max search_region.size.x search_region.size.y)
    (hT : 1 ≤ Min.min bbox.size.x bbox.size.y)
    (hK : 1 ≤ Max.max kernel_size.x kernel_size.y) :
    (PyramidCorrelationView.create search_region kernel_size cost_type
        consistency_threshold).m_max_level_by_search =
      Max.max (⌊Real.logb 2 ((Max.max search_region.size.x search_region.size.y : Int) : ℝ)⌋ - 1) 0 ∧
    max_pyramid_levels
        (PyramidCorrelationView.create search_region kernel_size cost_type consistency_threshold)
        bbox =
      Min.min
        (Max.max (⌊Real.logb 2 ((Max.max search_region.size.x search_region.size.y : Int) : ℝ)⌋ - 1) 0)
        ⌊Real.logb 2 ((Min.min bbox.size.x bbox.size.y : Int) : ℝ) -
          Real.logb 2 ((Max.max kernel_size.x kernel_size.y : Int) : ℝ)⌋ := by
  have h1 : max_level_by_search search_region =
      Max.max (⌊Real.logb 2 ((Max.max search_region.size.x search_region.size.y : Int) : ℝ)⌋ - 1) 0 := by
    rw [← floor_log2_eq_floor_logb _ hS]
    simp only [max_level_by_search]
    split_ifs with h
    · exact (max_eq_right (le_of_lt h)).symm
    · exact (max_eq_left (not_lt.1 h)).symm
  refine ⟨h1, ?_⟩
  rw [max_pyramid_levels_eq_min, ← floor_log2_ratio_eq_floor_logb _ _ hT hK, ← h1]
  rfl

/-- The depth term of the model at the boundary input `T = 112`, `K = 7`: it is 4,
as `112 = 7 * 2^4` and the exact difference of the logarithms is the integer 4. -/
theorem depth_boundary_example :
    floor_log2_ratio 112 7 = 4 ∧ (7 : Int) * 2 ^ 4 = 112 ∧
    ⌊Real.logb 2 ((112 : Int) : ℝ) - Real.logb 2 ((7 : Int) : ℝ)⌋ = 4 := by
  refine ⟨by decide!, by decide, ?_⟩
  have h := floor_log2_ratio_eq_floor_logb 112 7 (by decide) (by decide)
  rw [← h]
  decide!

/-! ## Theorems: the level loop -/

theorem crop_subset (a b : BBox2i) : (a.crop b).subset b := by
  simp only [BBox2i.crop, BBox2i.subset]
  omega

theorem scale_search_region_eq (view : PyramidCorrelationView) (scaling : Int) :
    scale_search_region view scaling =
      BBox2i.ofSize 0 0 (view.m_search_region.width.tdiv scaling + 1)
        (view.m_search_region.height.tdiv scaling + 1) := by
  simp only [scale_search_region, BBox2i.shift, BBox2i.div, Vector2i.add, Vector2i.smul,
    Vector2i.div, BBox2i.ofSize, BBox2i.width, BBox2i.height, zero_add]
  have h1 : view.m_search_region.min.x + -1 * view.m_search_region.min.x = 0 := by omega
  have h2 : view.m_search_region.min.y + -1 * view.m_search_region.min.y = 0 := by omega
  have h3 : view.m_search_region.max.x + -1 * view.m_search_region.min.x =
      view.m_search_region.max.x - view.m_search_region.min.x := by omega
  have h4 : view.m_search_region.max.y + -1 * view.m_search_region.min.y =
      view.m_search_region.max.y - view.m_search_region.min.y := by omega
  rw [h1, h2, h3, h4, Int.zero_tdiv]

/-- The initial zone searches the whole scaled search region. -/
theorem initial_zone_window (view : PyramidCorrelationView) (bbox : BBox2i) (max_upscaling : Int) :
    (initial_zone view bbox max_upscaling).2 = scale_search_region view max_upscaling := by
  rw [scale_search_region_eq]
  rfl

theorem refine_zones_window (view : PyramidCorrelationView) (ext : Collaborators) (scaling : Int)
    (zones : List SearchParam) :
    ∀ zone ∈ refine_zones view ext scaling zones,
      zone.2.subset (scale_search_region view scaling) := by
  intro zone hz
  simp only [refine_zones, List.mem_map] at hz
  obtain ⟨z, -, rfl⟩ := hz
  exact crop_subset _ _

/-- Invariant of the level loop: at each level processed, every zone's search
window lies inside the scaled search region of that level. -/
theorem level_loop_windows (view : PyramidCorrelationView) (ext : Collaborators) (bbox : BBox2i)
    (max_upscaling : Int) :
    ∀ (level : Nat) (zones : List SearchParam),
      (∀ zone ∈ zones, zone.2.subset (scale_search_region view (2 ^ level))) →
      ∀ entry ∈ level_loop view ext bbox max_upscaling level zones,
        ∀ zone ∈ entry.2.1, zone.2.subset (scale_search_region view (2 ^ entry.1)) := by
  intro level
  induction level with
  | zero =>
    intro zones hz entry he
    simp only [level_loop, List.mem_singleton] at he
    subst he
    exact hz
  | succ level ih =>
    intro zones hz entry he
    simp only [level_loop, List.mem_cons] at he
    rcases he with rfl | he
    · exact hz
    · exact ih _ (refine_zones_window view ext _ _) entry he

theorem processed_levels_windows (view : PyramidCorrelationView) (ext : Collaborators)
    (bbox : BBox2i) :
    ∀ entry ∈ processed_levels view ext bbox,
      ∀ zone ∈ entry.2.1, zone.2.subset (scale_search_region view (2 ^ entry.1)) := by
  intro entry he
  simp only [processed_levels] at he
  split_ifs at he with hneg
  · exact absurd he (List.not_mem_nil _)
  · refine level_loop_windows view ext bbox _ _ _ ?_ entry he
    intro zone hz
    rw [List.mem_singleton] at hz
    rw [hz, initial_zone_window]
    simp only [BBox2i.subset]
    omega

theorem scale_search_region_eq_level_box (view : PyramidCorrelationView) (level : Nat)
    (hw : 0 ≤ view.m_search_region.width) (hh : 0 ≤ view.m_search_region.height) :
    scale_search_region view (2 ^ level) = level_search_box view level := by
  rw [scale_search_region_eq, level_search_box,
    Int.tdiv_eq_ediv hw (by positivity), Int.tdiv_eq_ediv hh (by positivity)]

theorem foldl_write_crop_size (f : SearchParam → Int → Int → PixelMask) (zones : List SearchParam)
    (init : ImageView) :
    (zones.foldl (fun disparity zone => write_crop disparity zone.1 (f zone)) init).cols = init.cols ∧
    (zones.foldl (fun disparity zone => write_crop disparity zone.1 (f zone)) init).rows = init.rows := by
  induction zones generalizing init with
  | nil => exact ⟨rfl, rfl⟩
  | cons z zs ih =>
    simp only [List.foldl_cons]
    have := ih (write_crop init z.1 (f z))
    simpa [write_crop] using this

theorem foldl_write_crop_pix (f : SearchParam → Int → Int → PixelMask) (zones : List SearchParam)
    (init : ImageView) (i j : Int) (d : Vector2i)
    (h : (zones.foldl (fun disparity zone => write_crop disparity zone.1 (f zone)) init).pix i j =
      some d) :
    init.pix i j = some d ∨
      ∃ zone ∈ zones, zone.1.contains i j ∧
        f zone (i - zone.1.min.x) (j - zone.1.min.y) = some d := by
  induction zones generalizing init with
  | nil => exact Or.inl h
  | cons z zs ih =>
    simp only [List.foldl_cons] at h
    rcases ih _ h with h1 | ⟨zone, hz, hc, hv⟩
    · simp only [write_crop] at h1
      split_ifs at h1 with hcz
      · exact Or.inr ⟨z, List.mem_cons_self _ _, hcz, h1⟩
      · exact Or.inl h1
    · exact Or.inr ⟨zone, List.mem_cons_of_mem _ hz, hc, hv⟩

theorem process_level_size (view : PyramidCorrelationView) (ext : Collaborators) (bbox : BBox2i)
    (max_upscaling : Int) (level : Nat) (zones : List SearchParam) :
    (process_level view ext bbox max_upscaling level zones).cols = bbox.width.tdiv (2 ^ level) ∧
    (process_level view ext bbox max_upscaling level zones).rows = bbox.height.tdiv (2 ^ level) :=
  foldl_write_crop_size _ zones _

/-- A valid pixel of a level's buffer was written by a zone of that level. -/
theorem process_level_pix (view : PyramidCorrelationView) (ext : Collaborators) (bbox : BBox2i)
    (max_upscaling : Int) (level : Nat) (zones : List SearchParam) (i j : Int) (d : Vector2i)
    (h : (process_level view ext bbox max_upscaling level zones).pix i j = some d) :
    ∃ zone ∈ zones, zone.1.contains i j ∧
      zone_result view ext max_upscaling level zone (i - zone.1.min.x) (j - zone.1.min.y) =
        some d := by
  rcases foldl_write_crop_pix _ zones _ i j d h with h1 | h1
  · exact absurd h1 (by simp [ImageView.fresh])
  · exact h1

/-- The last entry of the level loop is level 0. -/
theorem level_loop_getLast (view : PyramidCorrelationView) (ext : Collaborators) (bbox : BBox2i)
    (max_upscaling : Int) :
    ∀ (level : Nat) (zones : List SearchParam),
      ∃ zones0, (level_loop view ext bbox max_upscaling level zones).getLast? =
        some (0, zones0, process_level view ext bbox max_upscaling 0 zones0) := by
  intro level
  induction level with
  | zero => intro zones; exact ⟨zones, rfl⟩
  | succ level ih =>
    intro zones
    obtain ⟨zones0, h0⟩ := ih (refine_zones view ext (2 ^ level)
      (subdivide_regions (process_level view ext bbox max_upscaling (level + 1) zones)
        (bounding_box (process_level view ext bbox max_upscaling (level + 1) zones)) []
        view.m_kernel_size 0).2)
    refine ⟨zones0, ?_⟩
    simp only [level_loop]
    rw [List.getLast?_cons, h0]
    rfl

/-- When the level count is not negative, the final buffer is the buffer of level
0 of the processed levels. -/
theorem final_disparity_eq (view : PyramidCorrelationView) (ext : Collaborators) (bbox : BBox2i)
    (hlev : 0 ≤ max_pyramid_levels view bbox) :
    ∃ zones0, (0, zones0, final_disparity view ext bbox) ∈ processed_levels view ext bbox ∧
      final_disparity view ext bbox =
        process_level view ext bbox (2 ^ (max_pyramid_levels view bbox).toNat) 0 zones0 := by
  have hp : processed_levels view ext bbox =
      level_loop view ext bbox (2 ^ (max_pyramid_levels view bbox).toNat)
        (max_pyramid_levels view bbox).toNat
        [initial_zone view bbox (2 ^ (max_pyramid_levels view bbox).toNat)] := by
    simp only [processed_levels]
    rw [if_neg (by omega)]
  obtain ⟨zones0, h0⟩ := level_loop_getLast view ext bbox
    (2 ^ (max_pyramid_levels view bbox).toNat) (max_pyramid_levels view bbox).toNat
    [initial_zone view bbox (2 ^ (max_pyramid_levels view bbox).toNat)]
  have hf : final_disparity view ext bbox =
      process_level view ext bbox (2 ^ (max_pyramid_levels view bbox).toNat) 0 zones0 := by
    simp only [final_disparity, hp, h0]
  refine ⟨zones0, ?_, hf⟩
  rw [hf, hp]
  exact List.mem_of_getLast?_eq_some h0

/-- When the level count is not negative, the final buffer has the size of the
requested tile. -/
theorem final_disparity_size (view : PyramidCorrelationView) (ext : Collaborators) (bbox : BBox2i)
    (hlev : 0 ≤ max_pyramid_levels view bbox) :
    (final_disparity view ext bbox).cols = bbox.width ∧
    (final_disparity view ext bbox).rows = bbox.height := by
  obtain ⟨zones0, -, hf⟩ := final_disparity_eq view ext bbox hlev
  rw [hf]
  have := process_level_size view ext bbox (2 ^ (max_pyramid_levels view bbox).toNat) 0 zones0
  simpa using this

/-- A valid displacement written by a zone lies inside the zone's search window,
shifted back to the origin of the search region. -/
theorem zone_result_in_window (view : PyramidCorrelationView) (ext : Collaborators)
    (hm : ext.matcher_in_range) (hc : ext.checker_only_clears) (max_upscaling : Int) (level : Nat)
    (zone : SearchParam) (i j : Int) (d : Vector2i)
    (h : zone_result view ext max_upscaling level zone i j = some d) :
    zone.2.contains d.x d.y := by
  simp only [zone_result] at h
  split_ifs at h with hcons
  · simp only [Option.map_eq_some'] at h
    obtain ⟨d0, hd0, rfl⟩ := h
    have := hm _ _ _ _ _ _ _ _ (hc _ _ _ _ _ _ hd0)
    simp only [BBox2i.contains, Vector2i.add, BBox2i.size] at *
    omega
  · simp only [Option.map_eq_some'] at h
    obtain ⟨d0, hd0, rfl⟩ := h
    have := hm _ _ _ _ _ _ _ _ hd0
    simp only [BBox2i.contains, Vector2i.add, BBox2i.size] at *
    omega

/-! ## Theorems: the zone lists of the levels -/

theorem scale_two_contains (b : BBox2i) (i j : Int) :
    (b.scale 2).contains i j ↔ b.contains (i / 2) (j / 2) := by
  simp only [BBox2i.scale, BBox2i.contains, Vector2i.smul]
  omega

theorem covered_refine_zones (view : PyramidCorrelationView) (ext : Collaborators) (scaling : Int)
    (zones : List SearchParam) (i j : Int) :
    covered (refine_zones view ext scaling zones) i j ↔ covered zones (i / 2) (j / 2) := by
  simp only [covered, refine_zones, List.mem_map]
  constructor
  · rintro ⟨z, ⟨z0, hz0, rfl⟩, hc⟩
    exact ⟨z0, hz0, (scale_two_contains z0.1 i j).1 hc⟩
  · rintro ⟨z0, hz0, hc⟩
    exact ⟨_, ⟨z0, hz0, rfl⟩, (scale_two_contains z0.1 i j).2 hc⟩

theorem zones_disjoint_refine_zones (view : PyramidCorrelationView) (ext : Collaborators)
    (scaling : Int) (zones : List SearchParam) (h : zones_disjoint zones) :
    zones_disjoint (refine_zones view ext scaling zones) := by
  simp only [zones_disjoint, refine_zones, List.pairwise_map] at *
  refine h.imp ?_
  intro a b hab i j hc
  exact hab (i / 2) (j / 2) ⟨(scale_two_contains a.1 i j).1 hc.1, (scale_two_contains b.1 i j).1 hc.2⟩

theorem level_tile_half (bbox : BBox2i) (level : Nat) (i j : Int) (h : (level_tile bbox (level + 1)).contains (i / 2) (j / 2)) :
    (level_tile bbox level).contains i j := by
  simp only [level_tile, BBox2i.ofSize, BBox2i.contains, zero_add] at *
  have key : ∀ w : Int, 2 * (w / 2 ^ (level + 1)) ≤ w / 2 ^ level := by
    intro w
    rw [Int.le_ediv_iff_mul_le (by positivity)]
    have := Int.ediv_mul_le w (show (2 : Int) ^ (level + 1) ≠ 0 by positivity)
    have e : (2 : Int) ^ (level + 1) = 2 ^ level * 2 := pow_succ 2 level
    rw [e] at this ⊢
    linarith
  have k1 := key bbox.width
  have k2 := key bbox.height
  omega

theorem bounding_box_process_level (view : PyramidCorrelationView) (ext : Collaborators)
    (bbox : BBox2i) (max_upscaling : Int) (level : Nat) (zones : List SearchParam)
    (hw : 0 ≤ bbox.width) (hh : 0 ≤ bbox.height) :
    bounding_box (process_level view ext bbox max_upscaling level zones) = level_tile bbox level := by
  obtain ⟨h1, h2⟩ := process_level_size view ext bbox max_upscaling level zones
  simp only [bounding_box, level_tile, BBox2i.ofSize, h1, h2, zero_add]
  rw [Int.tdiv_eq_ediv hw (by positivity), Int.tdiv_eq_ediv hh (by positivity)]

/-- The zones handed to the next level by step 3.2: disjoint, inside the next
tile, and covering every pixel whose parent pixel is valid. -/
theorem next_zones_spec (view : PyramidCorrelationView) (ext : Collaborators) (bbox : BBox2i)
    (level : Nat) (disparity : ImageView)
    (hbox : bounding_box disparity = level_tile bbox (level + 1)) :
    zones_disjoint (refine_zones view ext (2 ^ level)
      (subdivide_regions disparity (bounding_box disparity) [] view.m_kernel_size 0).2) ∧
    (∀ i j, covered (refine_zones view ext (2 ^ level)
      (subdivide_regions disparity (bounding_box disparity) [] view.m_kernel_size 0).2) i j →
        (level_tile bbox level).contains i j) ∧
    (∀ i j, (bounding_box disparity).contains (i / 2) (j / 2) →
      disparity.pix (i / 2) (j / 2) ≠ none →
      covered (refine_zones view ext (2 ^ level)
        (subdivide_regions disparity (bounding_box disparity) [] view.m_kernel_size 0).2) i j) := by
  have hok : (subdivide_regions disparity (bounding_box disparity) [] view.m_kernel_size 0).1 =
      true := by
    rw [subdivide_regions_fst_eq]; simp
  obtain ⟨hin, hdis, hcov⟩ :=
    partitions_valid_emitted disparity (bounding_box disparity) view.m_kernel_size 0 hok
  simp only [emitted] at hin hdis hcov
  refine ⟨zones_disjoint_refine_zones view ext _ _ hdis, ?_, ?_⟩
  · intro i j hc
    rw [covered_refine_zones] at hc
    have := hin _ _ hc
    rw [hbox] at this
    exact level_tile_half bbox level i j this
  · intro i j hc hv
    rw [covered_refine_zones]
    exact hcov _ _ hc hv

theorem level_loop_head (view : PyramidCorrelationView) (ext : Collaborators) (bbox : BBox2i)
    (max_upscaling : Int) (level : Nat) (zones : List SearchParam) :
    (level_loop view ext bbox max_upscaling level zones).head? =
      some (level, zones, process_level view ext bbox max_upscaling level zones) := by
  cases level with
  | zero => rfl
  | succ level => rfl

/-- Invariant of the level loop on the zone regions. -/
theorem level_loop_zones (view : PyramidCorrelationView) (ext : Collaborators) (bbox : BBox2i)
    (max_upscaling : Int) (hw : 0 ≤ bbox.width) (hh : 0 ≤ bbox.height) :
    ∀ (level : Nat) (zones : List SearchParam),
      zones_disjoint zones →
      (∀ i j, covered zones i j → (level_tile bbox level).contains i j) →
      (∀ entry ∈ level_loop view ext bbox max_upscaling level zones,
        zones_disjoint entry.2.1 ∧
        (∀ i j, covered entry.2.1 i j → (level_tile bbox entry.1).contains i j) ∧
        bounding_box entry.2.2 = level_tile bbox entry.1) ∧
      List.Chain' refines_valid (level_loop view ext bbox max_upscaling level zones) := by
  intro level
  induction level with
  | zero =>
    intro zones hd hin
    refine ⟨?_, ?_⟩
    · intro entry he
      simp only [level_loop, List.mem_singleton] at he
      subst he
      exact ⟨hd, hin, bounding_box_process_level view ext bbox max_upscaling 0 zones hw hh⟩
    · simp only [level_loop]
      exact List.chain'_singleton _
  | succ level ih =>
    intro zones hd hin
    have hbox := bounding_box_process_level view ext bbox max_upscaling (level + 1) zones hw hh
    obtain ⟨n1, n2, n3⟩ := next_zones_spec view ext bbox level
      (process_level view ext bbox max_upscaling (level + 1) zones) hbox
    obtain ⟨i1, i2⟩ := ih _ n1 n2
    refine ⟨?_, ?_⟩
    · intro entry he
      simp only [level_loop, List.mem_cons] at he
      rcases he with rfl | he
      · exact ⟨hd, hin, hbox⟩
      · exact i1 entry he
    · simp only [level_loop]
      rw [List.chain'_cons']
      refine ⟨?_, i2⟩
      intro y hy
      rw [level_loop_head] at hy
      simp only [Option.mem_def, Option.some.injEq] at hy
      subst hy
      exact ⟨rfl, n3⟩

/-! ## Theorems: writes of disjoint zones -/

theorem boxes_disjoint_symm (a b : BBox2i) (h : boxes_disjoint a b) : boxes_disjoint b a :=
  fun i j hc => h i j ⟨hc.2, hc.1⟩

theorem foldl_write_crop_untouched (f : SearchParam → Int → Int → PixelMask)
    (zones : List SearchParam) (init : ImageView) (i j : Int)
    (h : ∀ zone ∈ zones, ¬ zone.1.contains i j) :
    (zones.foldl (fun disparity zone => write_crop disparity zone.1 (f zone)) init).pix i j =
      init.pix i j := by
  induction zones generalizing init with
  | nil => rfl
  | cons z zs ih =>
    simp only [List.foldl_cons]
    rw [ih _ (fun zone hz => h zone (List.mem_cons_of_mem _ hz))]
    simp only [write_crop]
    rw [if_neg (h z (List.mem_cons_self _ _))]

/-- With pairwise disjoint zone regions every zone's write survives the loop over
the zones: no later zone touches its pixels. -/
theorem foldl_write_crop_disjoint (f : SearchParam → Int → Int → PixelMask)
    (zones : List SearchParam) (init : ImageView) (hd : zones_disjoint zones)
    (zone : SearchParam) (hz : zone ∈ zones) (i j : Int) (hc : zone.1.contains i j) :
    (zones.foldl (fun disparity zone => write_crop disparity zone.1 (f zone)) init).pix i j =
      f zone (i - zone.1.min.x) (j - zone.1.min.y) := by
  induction zones generalizing init with
  | nil => exact absurd hz (List.not_mem_nil _)
  | cons z zs ih =>
    simp only [zones_disjoint, List.pairwise_cons] at hd
    simp only [List.foldl_cons]
    rcases List.mem_cons.1 hz with rfl | hz'
    · rw [foldl_write_crop_untouched f zs _ i j (fun z' hz' hc' => hd.1 z' hz' i j ⟨hc, hc'⟩)]
      simp only [write_crop]
      rw [if_pos hc]
    · exact ih _ hd.2 hz'

theorem process_level_zone_pix (view : PyramidCorrelationView) (ext : Collaborators)
    (bbox : BBox2i) (max_upscaling : Int) (level : Nat) (zones : List SearchParam)
    (hd : zones_disjoint zones) (zone : SearchParam) (hz : zone ∈ zones) (i j : Int)
    (hc : zone.1.contains i j) :
    (process_level view ext bbox max_upscaling level zones).pix i j =
      zone_result view ext max_upscaling level zone (i - zone.1.min.x) (j - zone.1.min.y) :=
  foldl_write_crop_disjoint _ zones _ hd zone hz i j hc

/-! ## Theorems: the consistency gate -/

theorem zone_result_unchecked (view : PyramidCorrelationView) (ext : Collaborators)
    (max_upscaling : Int) (level : Nat) (zone : SearchParam) (i j : Int)
    (h : ¬ (view.m_consistency_threshold ≥ 0 ∧ level = 0)) :
    zone_result view ext max_upscaling level zone i j =
      (zone_forward view ext max_upscaling level zone i j).map fun d => d.add zone.2.min := by
  simp only [zone_result, if_neg h, zone_forward]

theorem zone_result_checked (view : PyramidCorrelationView) (ext : Collaborators)
    (max_upscaling : Int) (level : Nat) (zone : SearchParam) (i j : Int)
    (h : view.m_consistency_threshold ≥ 0 ∧ level = 0) :
    zone_result view ext max_upscaling level zone i j =
      (ext.cross_corr_consistency_check (zone_forward view ext max_upscaling level zone)
        (zone_reverse view ext max_upscaling level zone) view.m_consistency_threshold i j).map
        fun d => d.add zone.2.min := by
  simp only [zone_result, if_pos h]
  rfl

theorem checked_match_of_neg (view : CorrelationView) (ext : FlatCollaborators) (bbox : BBox2i)
    (h : view.m_consistency_threshold < 0) :
    view.checked_match ext bbox = view.forward_match ext bbox := by
  simp only [CorrelationView.checked_match]
  rw [if_neg (not_le.2 h)]

theorem checked_match_of_nonneg (view : CorrelationView) (ext : FlatCollaborators) (bbox : BBox2i)
    (h : 0 ≤ view.m_consistency_threshold) :
    view.checked_match ext bbox =
      ext.cross_corr_consistency_check (view.forward_match ext bbox)
        (view.reverse_match ext bbox) view.m_consistency_threshold := by
  simp only [CorrelationView.checked_match]
  rw [if_pos h]

/-- With the disagreeing matcher and the threshold 0 the forward match is valid
at pixel `(0, 0)` of a 4 x 4 tile, the checker clears it and the tile holds an
invalid pixel there. -/
theorem zero_threshold_run :
    (zero_threshold_view.forward_match disagreeing_collaborators ⟨⟨0, 0⟩, ⟨4, 4⟩⟩).pix 0 0 =
      some ⟨1, 1⟩ ∧
    (zero_threshold_view.prerasterize disagreeing_collaborators ⟨⟨0, 0⟩, ⟨4, 4⟩⟩).pix 0 0 = none ∧
    (zero_threshold_view.prerasterize agreeing_collaborators ⟨⟨0, 0⟩, ⟨4, 4⟩⟩).pix 0 0 =
      some ⟨-9, -9⟩ := by
  refine ⟨?_, ?_, ?_⟩ <;> decide!

/-! ## Theorems: the search box of a region -/

theorem accumulate_observed_on (disparity : ImageView) (b : BBox2i) :
    observed_on b.contains disparity (accumulate disparity b) := by
  cases hacc : accumulate disparity b with
  | none => exact (accumulate_none_iff disparity b).1 hacc
  | some a =>
    obtain ⟨mn, mx⟩ := a
    exact accumulate_some_observed disparity b mn mx hacc

theorem observed_on_congr (S S' : Int → Int → Prop) (disparity : ImageView)
    (acc : Option (Vector2i × Vector2i)) (h : ∀ i j, S i j ↔ S' i j)
    (ho : observed_on S disparity acc) : observed_on S' disparity acc := by
  have e : S = S' := funext fun i => funext fun j => propext (h i j)
  rw [← e]
  exact ho

theorem observed_on_unique (S : Int → Int → Prop) (disparity : ImageView)
    (a a' : Option (Vector2i × Vector2i)) (h : observed_on S disparity a)
    (h' : observed_on S disparity a') : a = a' := by
  cases a with
  | none =>
    cases a' with
    | none => rfl
    | some b =>
      obtain ⟨mn, mx⟩ := b
      obtain ⟨-, ⟨i, j, v, hs, hv, -⟩, -⟩ := h'
      have := h i j hs
      rw [this] at hv
      exact absurd hv (by simp)
  | some b =>
    obtain ⟨mn, mx⟩ := b
    cases a' with
    | none =>
      obtain ⟨-, ⟨i, j, v, hs, hv, -⟩, -⟩ := h
      have := h' i j hs
      rw [this] at hv
      exact absurd hv (by simp)
    | some b' =>
      obtain ⟨mn', mx'⟩ := b'
      obtain ⟨hb, ⟨i1, j1, v1, s1, p1, e1⟩, ⟨i2, j2, v2, s2, p2, e2⟩, ⟨i3, j3, v3, s3, p3, e3⟩,
        ⟨i4, j4, v4, s4, p4, e4⟩⟩ := h
      obtain ⟨hb', ⟨i1', j1', v1', s1', p1', e1'⟩, ⟨i2', j2', v2', s2', p2', e2'⟩,
        ⟨i3', j3', v3', s3', p3', e3'⟩, ⟨i4', j4', v4', s4', p4', e4'⟩⟩ := h'
      have a1 := hb' _ _ _ s1 p1
      have a2 := hb' _ _ _ s2 p2
      have a3 := hb' _ _ _ s3 p3
      have a4 := hb' _ _ _ s4 p4
      have b1 := hb _ _ _ s1' p1'
      have b2 := hb _ _ _ s2' p2'
      have b3 := hb _ _ _ s3' p3'
      have b4 := hb _ _ _ s4' p4'
      have hx : mn = mn' := by
        cases mn; cases mn'
        simp only [Vector2i.mk.injEq] at *
        omega
      have hy : mx = mx' := by
        cases mx; cases mx'
        simp only [Vector2i.mk.injEq] at *
        omega
      rw [hx, hy]

theorem observed_on_join (S1 S2 : Int → Int → Prop) (disparity : ImageView)
    (a1 a2 : Option (Vector2i × Vector2i)) (h1 : observed_on S1 disparity a1)
    (h2 : observed_on S2 disparity a2) :
    observed_on (fun i j => S1 i j ∨ S2 i j) disparity (accumulator_join a1 a2) := by
  cases a1 with
  | none =>
    cases a2 with
    | none =>
      intro i j hs
      rcases hs with hs | hs
      · exact h1 i j hs
      · exact h2 i j hs
    | some b =>
      obtain ⟨mn, mx⟩ := b
      obtain ⟨hb, ⟨i1, j1, v1, s1, p1, e1⟩, ⟨i2, j2, v2, s2, p2, e2⟩, ⟨i3, j3, v3, s3, p3, e3⟩,
        ⟨i4, j4, v4, s4, p4, e4⟩⟩ := h2
      refine ⟨?_, ⟨i1, j1, v1, Or.inr s1, p1, e1⟩, ⟨i2, j2, v2, Or.inr s2, p2, e2⟩,
        ⟨i3, j3, v3, Or.inr s3, p3, e3⟩, ⟨i4, j4, v4, Or.inr s4, p4, e4⟩⟩
      intro i j v hs hv
      rcases hs with hs | hs
      · rw [h1 i j hs] at hv
        exact absurd hv (by simp)
      · exact hb i j v hs hv
  | some b =>
    obtain ⟨mn, mx⟩ := b
    obtain ⟨hb, ⟨i1, j1, v1, s1, p1, e1⟩, ⟨i2, j2, v2, s2, p2, e2⟩, ⟨i3, j3, v3, s3, p3, e3⟩,
      ⟨i4, j4, v4, s4, p4, e4⟩⟩ := h1
    cases a2 with
    | none =>
      refine ⟨?_, ⟨i1, j1, v1, Or.inl s1, p1, e1⟩, ⟨i2, j2, v2, Or.inl s2, p2, e2⟩,
        ⟨i3, j3, v3, Or.inl s3, p3, e3⟩, ⟨i4, j4, v4, Or.inl s4, p4, e4⟩⟩
      intro i j v hs hv
      rcases hs with hs | hs
      · exact hb i j v hs hv
      · rw [h2 i j hs] at hv
        exact absurd hv (by simp)
    | some b' =>
      obtain ⟨mn', mx'⟩ := b'
      obtain ⟨hb', ⟨i1', j1', v1', s1', p1', e1'⟩, ⟨i2', j2', v2', s2', p2', e2'⟩,
        ⟨i3', j3', v3', s3', p3', e3'⟩, ⟨i4', j4', v4', s4', p4', e4'⟩⟩ := h2
      refine ⟨?_, ?_, ?_, ?_, ?_⟩
      · intro i j v hs hv
        simp only []
        rcases hs with hs | hs
        · have := hb i j v hs hv
          omega
        · have := hb' i j v hs hv
          omega
      · rcases le_total mn.x mn'.x with hle | hle
        · exact ⟨i1, j1, v1, Or.inl s1, p1, by simp only []; omega⟩
        · exact ⟨i1', j1', v1', Or.inr s1', p1', by simp only []; omega⟩
      · rcases le_total mn.y mn'.y with hle | hle
        · exact ⟨i2, j2, v2, Or.inl s2, p2, by simp only []; omega⟩
        · exact ⟨i2', j2', v2', Or.inr s2', p2', by simp only []; omega⟩
      · rcases le_total mx.x mx'.x with hle | hle
        · exact ⟨i3', j3', v3', Or.inr s3', p3', by simp only []; omega⟩
        · exact ⟨i3, j3, v3, Or.inl s3, p3, by simp only []; omega⟩
      · rcases le_total mx.y mx'.y with hle | hle
        · exact ⟨i4', j4', v4', Or.inr s4', p4', by simp only []; omega⟩
        · exact ⟨i4, j4, v4, Or.inl s4, p4, by simp only []; omega⟩

/-- The accumulator of a region is the join of the accumulators of its four
quadrants. -/
theorem accumulate_quadrants (disparity : ImageView) (b : BBox2i)
    (hw : 0 ≤ b.max.x - b.min.x) (hh : 0 ≤ b.max.y - b.min.y) :
    accumulate disparity b =
      accumulator_join (accumulator_join (accumulator_join (accumulate disparity (q1 b))
        (accumulate disparity (q2 b))) (accumulate disparity (q3 b)))
        (accumulate disparity (q4 b)) := by
  have h := observed_on_join _ _ disparity _ _
    (observed_on_join _ _ disparity _ _
      (observed_on_join _ _ disparity _ _ (accumulate_observed_on disparity (q1 b))
        (accumulate_observed_on disparity (q2 b)))
      (accumulate_observed_on disparity (q3 b)))
    (accumulate_observed_on disparity (q4 b))
  refine observed_on_unique b.contains disparity _ _ (accumulate_observed_on disparity b)
    (observed_on_congr _ _ disparity _ ?_ h)
  intro i j
  rw [quadrants_cover b hw hh i j]
  tauto

theorem quadrant_search_eq_box (disparity : ImageView) (q : BBox2i) :
    quadrant_search disparity q = accumulator_box (accumulate disparity q) := by
  unfold quadrant_search accumulator_box
  cases accumulate disparity q with
  | none => rfl
  | some a => rfl

theorem accumulate_in_range (disparity : ImageView) (b q : BBox2i)
    (h32 : int32_displacements disparity b) (hsub : ∀ i j, q.contains i j → b.contains i j) :
    accumulator_in_range (accumulate disparity q) := by
  have ho := accumulate_observed_on disparity q
  cases hacc : accumulate disparity q with
  | none => trivial
  | some a =>
    obtain ⟨mn, mx⟩ := a
    rw [hacc] at ho
    obtain ⟨hb, ⟨i1, j1, v1, s1, p1, e1⟩, ⟨i2, j2, v2, s2, p2, e2⟩, ⟨i3, j3, v3, s3, p3, e3⟩,
      ⟨i4, j4, v4, s4, p4, e4⟩⟩ := ho
    have r1 := h32 _ _ _ (hsub _ _ s1) p1
    have r2 := h32 _ _ _ (hsub _ _ s2) p2
    have r3 := h32 _ _ _ (hsub _ _ s3) p3
    have r4 := h32 _ _ _ (hsub _ _ s4) p4
    have b1 := hb _ _ _ s1 p1
    have b2 := hb _ _ _ s2 p2
    simp only [accumulator_in_range]
    omega

theorem accumulator_join_in_range (a b : Option (Vector2i × Vector2i))
    (ha : accumulator_in_range a) (hb : accumulator_in_range b) :
    accumulator_in_range (accumulator_join a b) := by
  cases a with
  | none => exact hb
  | some a =>
    obtain ⟨m1, M1⟩ := a
    cases b with
    | none => exact ha
    | some b =>
      obtain ⟨m2, M2⟩ := b
      simp only [accumulator_in_range, accumulator_join] at *
      omega

theorem accumulator_box_eq_default (a : Option (Vector2i × Vector2i))
    (ha : accumulator_in_range a) : accumulator_box a = BBox2i.default ↔ a = none := by
  cases a with
  | none => simp [accumulator_box]
  | some a =>
    obtain ⟨m, M⟩ := a
    simp only [accumulator_in_range, INT32_MAX, INT32_MIN] at ha
    simp only [accumulator_box, search_box, BBox2i.default, INT32_MAX, INT32_MIN,
      BBox2i.mk.injEq, reduceCtorEq, iff_false]
    cases m; cases M
    simp only [Vector2i.mk.injEq] at *
    omega

/-- One absorbing statement of step 3 joins the accumulators behind the two boxes. -/
theorem absorb_search_box (c a : Option (Vector2i × Vector2i))
    (hc : accumulator_in_range c) (ha : accumulator_in_range a) :
    absorb_search (accumulator_box c) (accumulator_box a) =
      accumulator_box (accumulator_join c a) := by
  unfold absorb_search
  simp only [ne_eq, accumulator_box_eq_default c hc, accumulator_box_eq_default a ha]
  cases c with
  | none =>
    cases a with
    | none => simp [accumulator_join, accumulator_box, expand_bbox, BBox2i.default]
    | some a => simp [accumulator_join]
  | some c =>
    obtain ⟨m1, M1⟩ := c
    cases a with
    | none =>
      simp only [accumulator_in_range, INT32_MAX, INT32_MIN] at hc
      simp only [reduceCtorEq, and_false, if_false, not_true_eq_false, false_and, accumulator_join,
        accumulator_box, expand_bbox, search_box, BBox2i.default, INT32_MAX, INT32_MIN,
        BBox2i.mk.injEq, Vector2i.mk.injEq]
      cases m1
      simp only [Vector2i.mk.injEq] at *
      omega
    | some a =>
      obtain ⟨m2, M2⟩ := a
      simp only [reduceCtorEq, and_false, if_false, accumulator_join,
        accumulator_box, expand_bbox, search_box, BBox2i.mk.injEq, Vector2i.mk.injEq, true_and]
      omega

theorem quadrant_subset (b : BBox2i) (hw : 0 ≤ b.max.x - b.min.x) (hh : 0 ≤ b.max.y - b.min.y) :
    (∀ i j, (q1 b).contains i j → b.contains i j) ∧ (∀ i j, (q2 b).contains i j → b.contains i j) ∧
    (∀ i j, (q3 b).contains i j → b.contains i j) ∧ (∀ i j, (q4 b).contains i j → b.contains i j) := by
  have h := quadrants_cover b hw hh
  exact ⟨fun i j hc => (h i j).2 (Or.inl hc), fun i j hc => (h i j).2 (Or.inr (Or.inl hc)),
    fun i j hc => (h i j).2 (Or.inr (Or.inr (Or.inl hc))),
    fun i j hc => (h i j).2 (Or.inr (Or.inr (Or.inr hc)))⟩

/-- Step 3 computes the box of the join of the four quadrant accumulators. -/
theorem current_search_region_eq_join (disparity : ImageView) (b : BBox2i)
    (hw : 0 ≤ b.max.x - b.min.x) (hh : 0 ≤ b.max.y - b.min.y)
    (h32 : int32_displacements disparity b) :
    current_search_region disparity b =
      accumulator_box (accumulator_join (accumulator_join (accumulator_join
        (accumulate disparity (q1 b)) (accumulate disparity (q2 b)))
        (accumulate disparity (q3 b))) (accumulate disparity (q4 b))) := by
  obtain ⟨s1, s2, s3, s4⟩ := quadrant_subset b hw hh
  have r1 := accumulate_in_range disparity b (q1 b) h32 s1
  have r2 := accumulate_in_range disparity b (q2 b) h32 s2
  have r3 := accumulate_in_range disparity b (q3 b) h32 s3
  have r4 := accumulate_in_range disparity b (q4 b) h32 s4
  have e0 : (if quadrant_search disparity (q1 b) ≠ BBox2i.default
      then quadrant_search disparity (q1 b) else BBox2i.default) =
      quadrant_search disparity (q1 b) := by
    split_ifs with h
    · rfl
    · exact (not_not.1 h).symm
  unfold current_search_region
  simp only [e0]
  rw [quadrant_search_eq_box, quadrant_search_eq_box, quadrant_search_eq_box,
    quadrant_search_eq_box, absorb_search_box _ _ r1 r2,
    absorb_search_box _ _ (accumulator_join_in_range _ _ r1 r2) r3,
    absorb_search_box _ _ (accumulator_join_in_range _ _ (accumulator_join_in_range _ _ r1 r2) r3) r4]

/-- The region window of step 3 is the observed window of the region itself. -/
theorem current_search_region_eq_quadrant_search (disparity : ImageView) (b : BBox2i)
    (hw : 0 ≤ b.max.x - b.min.x) (hh : 0 ≤ b.max.y - b.min.y)
    (h32 : int32_displacements disparity b) :
    current_search_region disparity b = quadrant_search disparity b := by
  rw [current_search_region_eq_join disparity b hw hh h32, quadrant_search_eq_box,
    accumulate_quadrants disparity b hw hh]

/-- The box of a join of four accumulators is the bounding union of the boxes of
those that are valid. -/
theorem accumulator_box_join_eq_union (a1 a2 a3 a4 : Option (Vector2i × Vector2i)) :
    accumulator_box (accumulator_join (accumulator_join (accumulator_join a1 a2) a3) a4) =
      bounding_union ([a1, a2, a3, a4].filterMap fun a =>
        a.map fun p => search_box p.1 p.2) := by
  rcases a1 with _ | ⟨m1, M1⟩ <;> rcases a2 with _ | ⟨m2, M2⟩ <;>
    rcases a3 with _ | ⟨m3, M3⟩ <;> rcases a4 with _ | ⟨m4, M4⟩ <;>
    simp only [accumulator_join, accumulator_box, bounding_union, List.filterMap_cons,
      List.filterMap_nil, Option.map_none', Option.map_some', List.foldl_cons, List.foldl_nil,
      expand_bbox, search_box, BBox2i.mk.injEq, Vector2i.mk.injEq, true_and, and_self,
      min_assoc, max_assoc] <;>
    omega

theorem quadrant_windows_eq (disparity : ImageView) (b : BBox2i) :
    quadrant_windows disparity b =
      [accumulate disparity (q1 b), accumulate disparity (q2 b), accumulate disparity (q3 b),
        accumulate disparity (q4 b)].filterMap fun a => a.map fun p => search_box p.1 p.2 := by
  have h : [accumulate disparity (q1 b), accumulate disparity (q2 b), accumulate disparity (q3 b),
      accumulate disparity (q4 b)] = List.map (accumulate disparity) [q1 b, q2 b, q3 b, q4 b] := rfl
  rw [h, List.filterMap_map]
  rfl

/-- The default box is neutral for `expand_bbox` on the box of an accumulator. -/
theorem expand_bbox_default (a : Option (Vector2i × Vector2i)) (ha : accumulator_in_range a) :
    expand_bbox (accumulator_box a) BBox2i.default = accumulator_box a ∧
    expand_bbox BBox2i.default (accumulator_box a) = accumulator_box a := by
  cases a with
  | none => simp [accumulator_box, expand_bbox, BBox2i.default]
  | some a =>
    obtain ⟨m, M⟩ := a
    simp only [accumulator_in_range, INT32_MAX, INT32_MIN] at ha
    cases m
    simp only [accumulator_box, expand_bbox, search_box, BBox2i.default, INT32_MAX, INT32_MIN,
      BBox2i.mk.injEq, Vector2i.mk.injEq] at *
    omega

/-! ## Theorems: the retry branch -/

/-- A region without valid displacement has no cost, split or not. -/
theorem no_valid_costs (disparity : ImageView) (b : BBox2i) (kernel_size : Vector2i)
    (hw : 0 ≤ b.max.x - b.min.x) (hh : 0 ≤ b.max.y - b.min.y)
    (hnv : ¬ has_valid disparity b) :
    split_search disparity b kernel_size = 0 ∧ current_search disparity b kernel_size = 0 := by
  obtain ⟨s1, s2, s3, s4⟩ := quadrant_subset b hw hh
  have key : ∀ q, (∀ i j, q.contains i j → b.contains i j) → accumulate disparity q = none := by
    intro q hsub
    rw [accumulate_none_iff]
    intro i j hc
    by_contra hp
    exact hnv ⟨i, j, hsub i j hc, hp⟩
  have e1 := key _ s1
  have e2 := key _ s2
  have e3 := key _ s3
  have e4 := key _ s4
  have w0 : wrap_int32 0 = 0 := by decide
  constructor
  · have : exact_split_search disparity b kernel_size = 0 := by
      simp only [exact_split_search, quadrant_cost, e1, e2, e3, e4, add_zero]
    rw [split_search, this, w0]
  · have hc : current_search_region disparity b = BBox2i.default := by
      simp only [current_search_region, quadrant_search, e1, e2, e3, e4]
      decide
    have : area BBox2i.default = 0 := by decide
    rw [current_search, exact_current_search, hc, this, zero_mul, w0]

/-- A region whose split does not pay holds a valid displacement. -/
theorem bad_split_has_valid (disparity : ImageView) (b : BBox2i) (kernel_size : Vector2i)
    (hw : 0 ≤ b.max.x - b.min.x) (hh : 0 ≤ b.max.y - b.min.y)
    (hbad : 10 * split_search disparity b kernel_size > 9 * current_search disparity b kernel_size) :
    has_valid disparity b := by
  by_contra hnv
  obtain ⟨h1, h2⟩ := no_valid_costs disparity b kernel_size hw hh hnv
  rw [h1, h2] at hbad
  omega

/-- With one to three failed quadrants, the fold either pushes them unchanged or
merges two of them, the earlier one first, and pushes the merge before the rest. -/
theorem fold_failed_merge (b csr : BBox2i) (F : List SearchParam) (h1 : 1 ≤ F.length)
    (h3 : F.length ≤ 3) :
    fold_failed b csr F = F ∨
    ∃ a c rest, can_merge a c = true ∧ List.Sublist [a, c] F ∧
      (∀ f, f ∈ F ↔ f = a ∨ f = c ∨ f ∈ rest) ∧ fold_failed b csr F = merged a c :: rest := by
  rcases F with _ | ⟨f1, _ | ⟨f2, _ | ⟨f3, _ | ⟨f4, t⟩⟩⟩⟩
  · simp at h1
  · left; rfl
  · by_cases h : can_merge f1 f2 = true
    · right
      refine ⟨f1, f2, [], h, List.Sublist.refl _, ?_, ?_⟩
      · intro f; simp
      · simp only [fold_failed, if_pos h]
    · left
      simp only [fold_failed, if_neg h]
  · by_cases h12 : can_merge f1 f2 = true
    · right
      refine ⟨f1, f2, [f3], h12, ?_, ?_, ?_⟩
      · exact List.Sublist.cons₂ _ (List.Sublist.cons₂ _ (List.nil_sublist _))
      · intro f; simp
      · simp only [fold_failed, if_pos h12]
    · by_cases h23 : can_merge f2 f3 = true
      · right
        refine ⟨f2, f3, [f1], h23, ?_, ?_, ?_⟩
        · exact List.Sublist.cons _ (List.Sublist.refl _)
        · intro f; simp; tauto
        · simp only [fold_failed, if_neg h12, if_pos h23]
      · by_cases h13 : can_merge f1 f3 = true
        · right
          refine ⟨f1, f3, [f2], h13, ?_, ?_, ?_⟩
          · exact List.Sublist.cons₂ _ (List.Sublist.cons _ (List.Sublist.refl _))
          · intro f; simp; tauto
          · simp only [fold_failed, if_neg h12, if_neg h23, if_pos h13]
        · left
          simp only [fold_failed, if_neg h12, if_neg h23, if_neg h13]
  · simp at h3

/-- Two quadrants that pass the merge test are distinct, share a full edge, and
their min/max union holds exactly the pixels of the two. -/
theorem quadrants_pairwise_merge (b s1 s2 s3 s4 : BBox2i) (hterm : ¬ is_terminal b = true) :
    List.Pairwise (fun (a c : SearchParam) => can_merge a c = true →
        a.1 ≠ c.1 ∧ share_edge a.1 c.1 ∧
        ∀ i j, (expand_bbox a.1 c.1).contains i j ↔ (a.1.contains i j ∨ c.1.contains i j))
      [(q1 b, s1), (q2 b, s2), (q3 b, s3), (q4 b, s4)] := by
  obtain ⟨h1, h2, h3, h4⟩ := split_pt_bounds b hterm
  simp only [List.pairwise_cons, List.mem_cons, List.mem_singleton, List.not_mem_nil,
    forall_eq_or_imp, forall_eq, IsEmpty.forall_iff, implies_true, and_true, List.Pairwise.nil,
    can_merge, decide_eq_true_eq, share_edge, expand_bbox, BBox2i.contains, q1, q2, q3, q4,
    Vector2i.add, ne_eq, BBox2i.mk.injEq, Vector2i.mk.injEq]
  generalize (split_pt b).x = sx at *
  generalize (split_pt b).y = sy at *
  refine ⟨⟨?_, ?_, ?_⟩, ⟨?_, ?_⟩, ?_⟩ <;> intro hm <;> refine ⟨?_, ?_, ?_⟩ <;>
    first
    | omega
    | simp

/-- The failed list is a sublist of the four quadrants in the order of the calls. -/
theorem failed_sublist (Q1 Q2 Q3 Q4 : SearchParam) (a1 a2 a3 a4 : Bool) :
    List.Sublist ((if a1 = false then [Q1] else []) ++ (if a2 = false then [Q2] else []) ++
      (if a3 = false then [Q3] else []) ++ (if a4 = false then [Q4] else []))
      [Q1, Q2, Q3, Q4] := by
  have s : ∀ (a : Bool) (Q : SearchParam), List.Sublist (if a = false then [Q] else []) [Q] := by
    intro a Q
    cases a
    · exact List.Sublist.refl _
    · exact List.nil_sublist _
  exact List.Sublist.append (List.Sublist.append (List.Sublist.append (s a1 Q1) (s a2 Q2))
    (s a3 Q3)) (s a4 Q4)

theorem covered_failed (Q1 Q2 Q3 Q4 : SearchParam) (a1 a2 a3 a4 : Bool) (i j : Int) :
    covered ((if a1 = false then [Q1] else []) ++ (if a2 = false then [Q2] else []) ++
      (if a3 = false then [Q3] else []) ++ (if a4 = false then [Q4] else [])) i j ↔
    ((a1 = false ∧ Q1.1.contains i j) ∨ (a2 = false ∧ Q2.1.contains i j) ∨
     (a3 = false ∧ Q3.1.contains i j) ∨ (a4 = false ∧ Q4.1.contains i j)) := by
  cases a1 <;> cases a2 <;> cases a3 <;> cases a4 <;> simp [covered]

theorem mem_failed (Q1 Q2 Q3 Q4 : SearchParam) (a1 a2 a3 a4 : Bool) (f : SearchParam) :
    f ∈ ((if a1 = false then [Q1] else []) ++ (if a2 = false then [Q2] else []) ++
      (if a3 = false then [Q3] else []) ++ (if a4 = false then [Q4] else [])) ↔
    ((a1 = false ∧ f = Q1) ∨ (a2 = false ∧ f = Q2) ∨
     (a3 = false ∧ f = Q3) ∨ (a4 = false ∧ f = Q4)) := by
  cases a1 <;> cases a2 <;> cases a3 <;> cases a4 <;> simp

/-! ## Theorems: the windows of the emitted zones -/

theorem accumulate_some_le (disparity : ImageView) (b : BBox2i) (mn mx : Vector2i)
    (h : accumulate disparity b = some (mn, mx)) : mn.x ≤ mx.x ∧ mn.y ≤ mx.y := by
  obtain ⟨hb, ⟨i1, j1, v1, s1, p1, -⟩, -⟩ := accumulate_some_observed disparity b mn mx h
  have := hb i1 j1 v1 s1 p1
  omega

/-- The observed box of a region holds every valid displacement of the region
and is at least 1 wide and high. -/
theorem search_box_holds (disparity : ImageView) (b : BBox2i) (mn mx : Vector2i)
    (h : accumulate disparity b = some (mn, mx)) :
    window_holds disparity (b, search_box mn mx) ∧
    1 ≤ (search_box mn mx).width ∧ 1 ≤ (search_box mn mx).height := by
  obtain ⟨hx, hy⟩ := accumulate_some_le disparity b mn mx h
  obtain ⟨hb, -⟩ := accumulate_some_observed disparity b mn mx h
  refine ⟨?_, ?_, ?_⟩
  · intro i j v hc hv
    have := hb i j v hc hv
    simp only [search_box]
    omega
  · simp only [search_box, BBox2i.width]; omega
  · simp only [search_box, BBox2i.height]; omega

theorem subset_refl (a : BBox2i) : a.subset a := by
  simp only [BBox2i.subset]; omega

theorem subset_trans (a b c : BBox2i) (h1 : a.subset b) (h2 : b.subset c) : a.subset c := by
  simp only [BBox2i.subset] at *; omega

theorem subset_width (a b : BBox2i) (h : a.subset b) (ha : 1 ≤ a.width) : 1 ≤ b.width := by
  simp only [BBox2i.subset, BBox2i.width] at *; omega

theorem subset_height (a b : BBox2i) (h : a.subset b) (ha : 1 ≤ a.height) : 1 ≤ b.height := by
  simp only [BBox2i.subset, BBox2i.height] at *; omega

theorem width_ne_default (c : BBox2i) (hc : 1 ≤ c.width) : c ≠ BBox2i.default := by
  intro h
  rw [h] at hc
  simp only [BBox2i.width, BBox2i.default, INT32_MAX, INT32_MIN] at hc
  omega

/-- An absorbing statement of step 3 leaves a box that holds the absorbed one. -/
theorem absorb_search_right (c q : BBox2i) : q.subset (absorb_search c q) := by
  unfold absorb_search
  split_ifs
  · exact subset_refl q
  · simp only [BBox2i.subset, expand_bbox]; omega

/-- An absorbing statement of step 3 keeps what the region window holds already,
once the window is at least 1 wide. -/
theorem absorb_search_left (c q : BBox2i) (hc : 1 ≤ c.width) : c.subset (absorb_search c q) := by
  unfold absorb_search
  rw [if_neg (fun h => width_ne_default c hc h.2)]
  simp only [BBox2i.subset, expand_bbox]; omega

/-- The region window of step 3 holds the window of every quadrant whose window
is at least 1 wide. -/
theorem current_search_region_contains (disparity : ImageView) (p q : BBox2i)
    (hq : q ∈ [q1 p, q2 p, q3 p, q4 p]) (hw : 1 ≤ (quadrant_search disparity q).width) :
    (quadrant_search disparity q).subset (current_search_region disparity p) := by
  simp only [List.mem_cons, List.mem_singleton, List.not_mem_nil, or_false] at hq
  unfold current_search_region
  simp only []
  rcases hq with rfl | rfl | rfl | rfl
  · rw [if_pos (width_ne_default _ hw)]
    have h1 := absorb_search_left _ (quadrant_search disparity (q2 p)) hw
    have w1 := subset_width _ _ h1 hw
    have h2 := absorb_search_left _ (quadrant_search disparity (q3 p)) w1
    have w2 := subset_width _ _ h2 w1
    have h3 := absorb_search_left _ (quadrant_search disparity (q4 p)) w2
    exact subset_trans _ _ _ h1 (subset_trans _ _ _ h2 h3)
  · have h1 := absorb_search_right
      (if quadrant_search disparity (q1 p) ≠ BBox2i.default
        then quadrant_search disparity (q1 p) else BBox2i.default)
      (quadrant_search disparity (q2 p))
    have w1 := subset_width _ _ h1 hw
    have h2 := absorb_search_left _ (quadrant_search disparity (q3 p)) w1
    have w2 := subset_width _ _ h2 w1
    have h3 := absorb_search_left _ (quadrant_search disparity (q4 p)) w2
    exact subset_trans _ _ _ h1 (subset_trans _ _ _ h2 h3)
  · have h2 := absorb_search_right
      (absorb_search (if quadrant_search disparity (q1 p) ≠ BBox2i.default
        then quadrant_search disparity (q1 p) else BBox2i.default)
        (quadrant_search disparity (q2 p)))
      (quadrant_search disparity (q3 p))
    have w2 := subset_width _ _ h2 hw
    have h3 := absorb_search_left _ (quadrant_search disparity (q4 p)) w2
    exact subset_trans _ _ _ h2 h3
  · exact absorb_search_right _ _

/-- A failed quadrant holds a valid displacement and is pushed with its
observed box. -/
theorem failed_quadrant_spec (disparity : ImageView) (p : BBox2i) (kernel_size : Vector2i)
    (f : SearchParam) (hf : f ∈ failed_quadrants disparity p kernel_size) :
    ∃ mn mx, f.1 ∈ [q1 p, q2 p, q3 p, q4 p] ∧ accumulate disparity f.1 = some (mn, mx) ∧
      f.2 = search_box mn mx := by
  have key : ∀ q, (subdivide_regions disparity q [] kernel_size 1).1 = false →
      ∃ mn mx, accumulate disparity q = some (mn, mx) ∧
        quadrant_search disparity q = search_box mn mx := by
    intro q hflag
    rw [subdivide_regions_fst_eq] at hflag
    simp only [Bool.not_eq_false', Bool.and_eq_true, Bool.not_eq_true', decide_eq_true_eq] at hflag
    obtain ⟨⟨ht, hb⟩, -⟩ := hflag
    obtain ⟨hw, hh⟩ := nonterminal_dims q (by rw [ht]; simp)
    simp only [bad_split, decide_eq_true_eq] at hb
    have hv := bad_split_has_valid disparity q kernel_size (by omega) (by omega) hb
    obtain ⟨mn, mx, ha⟩ := (accumulate_isSome_iff disparity q).2 hv
    exact ⟨mn, mx, ha, by simp only [quadrant_search, ha]⟩
  rw [failed_quadrants, mem_failed] at hf
  rcases hf with ⟨hflag, rfl⟩ | ⟨hflag, rfl⟩ | ⟨hflag, rfl⟩ | ⟨hflag, rfl⟩
  · obtain ⟨mn, mx, ha, hs⟩ := key _ hflag
    exact ⟨mn, mx, by simp, ha, hs⟩
  · obtain ⟨mn, mx, ha, hs⟩ := key _ hflag
    exact ⟨mn, mx, by simp, ha, hs⟩
  · obtain ⟨mn, mx, ha, hs⟩ := key _ hflag
    exact ⟨mn, mx, by simp, ha, hs⟩
  · obtain ⟨mn, mx, ha, hs⟩ := key _ hflag
    exact ⟨mn, mx, by simp, ha, hs⟩

/-- The window of step 3 holds every valid displacement of the region. -/
theorem current_search_region_holds (disparity : ImageView) (p : BBox2i)
    (hw : 0 ≤ p.max.x - p.min.x) (hh : 0 ≤ p.max.y - p.min.y) :
    window_holds disparity (p, current_search_region disparity p) := by
  intro i j v hc hv
  have key : ∀ q ∈ [q1 p, q2 p, q3 p, q4 p], q.contains i j →
      (current_search_region disparity p).min.x ≤ v.x ∧
      v.x < (current_search_region disparity p).max.x ∧
      (current_search_region disparity p).min.y ≤ v.y ∧
      v.y < (current_search_region disparity p).max.y := by
    intro q hq hqc
    have hval : has_valid disparity q := ⟨i, j, hqc, by rw [hv]; simp⟩
    obtain ⟨mn, mx, ha⟩ := (accumulate_isSome_iff disparity q).2 hval
    obtain ⟨hwin, hw1, -⟩ := search_box_holds disparity q mn mx ha
    have hs : quadrant_search disparity q = search_box mn mx := by
      simp only [quadrant_search, ha]
    have hsub := current_search_region_contains disparity p q hq (by rw [hs]; exact hw1)
    rw [hs] at hsub
    have := hwin i j v hqc hv
    simp only [BBox2i.subset] at hsub
    simp only [] at this
    omega
  rcases (quadrants_cover p hw hh i j).1 hc with h | h | h | h
  · exact key _ (by simp) h
  · exact key _ (by simp) h
  · exact key _ (by simp) h
  · exact key _ (by simp) h

/-- Every zone that the fold of the retry branch pushes holds the valid
displacements of its region in a window at least 1 wide and high. -/
theorem fold_zone_spec (disparity : ImageView) (p : BBox2i) (kernel_size : Vector2i)
    (z : SearchParam) (hterm : ¬ is_terminal p = true)
    (hz : z ∈ fold_failed p (current_search_region disparity p)
      (failed_quadrants disparity p kernel_size)) :
    window_holds disparity z ∧ 1 ≤ z.2.width ∧ 1 ≤ z.2.height := by
  obtain ⟨hw, hh⟩ := nonterminal_dims p hterm
  have hsub : List.Sublist (failed_quadrants disparity p kernel_size)
      [(q1 p, quadrant_search disparity (q1 p)), (q2 p, quadrant_search disparity (q2 p)),
        (q3 p, quadrant_search disparity (q3 p)), (q4 p, quadrant_search disparity (q4 p))] :=
    failed_sublist _ _ _ _ _ _ _ _
  have hfail : ∀ f ∈ failed_quadrants disparity p kernel_size,
      window_holds disparity f ∧ 1 ≤ f.2.width ∧ 1 ≤ f.2.height := by
    intro f hf
    obtain ⟨mn, mx, -, ha, hs⟩ := failed_quadrant_spec disparity p kernel_size f hf
    have h := search_box_holds disparity f.1 mn mx ha
    rw [← hs] at h
    exact h
  rcases Nat.lt_or_ge (failed_quadrants disparity p kernel_size).length 4 with hlt | hge
  · rcases Nat.eq_zero_or_pos (failed_quadrants disparity p kernel_size).length with h0 | hpos
    · rw [List.length_eq_zero.1 h0] at hz
      simp [fold_failed] at hz
    · rcases fold_failed_merge p (current_search_region disparity p) _ hpos (by omega)
        with he | ⟨a, c, rest, hm, hs, hmem, he⟩
      · rw [he] at hz
        exact hfail z hz
      · rw [he, List.mem_cons] at hz
        rcases hz with rfl | hz
        · have hp := (quadrants_pairwise_merge p _ _ _ _ hterm).sublist (hs.trans hsub)
          simp only [List.pairwise_cons, List.mem_singleton, forall_eq] at hp
          obtain ⟨-, -, hun⟩ := hp.1 hm
          have ha := hfail a ((hmem a).2 (Or.inl rfl))
          have hc := hfail c ((hmem c).2 (Or.inr (Or.inl rfl)))
          have hm2 := hm
          simp only [can_merge, decide_eq_true_eq] at hm2
          refine ⟨?_, ha.2.1, ha.2.2⟩
          intro i j v hcont hv
          simp only [merged] at hcont ⊢
          rcases (hun i j).1 hcont with h | h
          · exact ha.1 i j v h hv
          · have := hc.1 i j v h hv
            rw [← hm2.2] at this
            exact this
        · exact hfail z ((hmem z).2 (Or.inr (Or.inr hz)))
  · have hfull := hsub.eq_of_length_le hge
    rw [hfull] at hz
    simp only [fold_failed, List.mem_singleton] at hz
    have h1 : (q1 p, quadrant_search disparity (q1 p)) ∈
        failed_quadrants disparity p kernel_size := by
      rw [hfull]; simp
    obtain ⟨-, hw1, hh1⟩ := hfail _ h1
    have hcon := current_search_region_contains disparity p (q1 p) (by simp) hw1
    rw [hz]
    exact ⟨current_search_region_holds disparity p (by omega) (by omega),
      subset_width _ _ hcon hw1, subset_height _ _ hcon hh1⟩

theorem zone_origin_aux (disparity : ImageView) (kernel_size : Vector2i) :
    ∀ (n : Nat) (b : BBox2i) (fail_count : Int), b.width.toNat ≤ n →
      ∀ z ∈ emitted disparity b kernel_size fail_count, zone_origin disparity kernel_size z := by
  intro n
  induction n with
  | zero =>
    intro b fc hn z hz
    have hterm : is_terminal b = true := by
      simp only [is_terminal, decide_eq_true_eq]
      right; left; omega
    rw [emitted_terminal _ _ _ _ hterm] at hz
    cases hacc : accumulate disparity b with
    | none => rw [hacc] at hz; simp at hz
    | some a =>
      obtain ⟨mn, mx⟩ := a
      rw [hacc] at hz
      simp only [List.mem_singleton] at hz
      rw [hz]
      exact Or.inl ⟨mn, mx, hterm, hacc, rfl⟩
  | succ n ih =>
    intro b fc hn z hz
    by_cases hterm : is_terminal b = true
    · rw [emitted_terminal _ _ _ _ hterm] at hz
      cases hacc : accumulate disparity b with
      | none => rw [hacc] at hz; simp at hz
      | some a =>
        obtain ⟨mn, mx⟩ := a
        rw [hacc] at hz
        simp only [List.mem_singleton] at hz
        rw [hz]
        exact Or.inl ⟨mn, mx, hterm, hacc, rfl⟩
    · obtain ⟨hw1, hw2, hw3, hw4⟩ := quadrant_width_le b n hterm hn
      have good : ∀ fc', ¬ (bad_split disparity b kernel_size = true ∧ 0 ≤ fc') →
          z ∈ emitted disparity b kernel_size fc' → zone_origin disparity kernel_size z := by
        intro fc' hg hz'
        rw [emitted_good _ _ _ _ hterm hg] at hz'
        simp only [List.mem_append] at hz'
        rcases hz' with ((h | h) | h) | h
        · exact ih _ _ hw1 z h
        · exact ih _ _ hw2 z h
        · exact ih _ _ hw3 z h
        · exact ih _ _ hw4 z h
      by_cases hbad : bad_split disparity b kernel_size = true
      · rcases lt_trichotomy fc 0 with hfc | rfl | hfc
        · exact good fc (fun h => by omega) hz
        · rw [emitted_retry _ _ _ hterm hbad] at hz
          simp only [List.mem_append] at hz
          rcases hz with (((h | h) | h) | h) | h
          · exact ih _ _ hw1 z h
          · exact ih _ _ hw2 z h
          · exact ih _ _ hw3 z h
          · exact ih _ _ hw4 z h
          · exact Or.inr ⟨b, by simpa using hterm, hbad, h⟩
        · rw [emitted_backup _ _ _ _ hterm hbad hfc] at hz
          simp at hz
      · exact good fc (fun h => hbad h.1) hz

/-- Every emitted zone comes from the terminal case or from a fold. -/
theorem zone_origin_emitted (disparity : ImageView) (b : BBox2i) (kernel_size : Vector2i)
    (fail_count : Int) (z : SearchParam) (hz : z ∈ emitted disparity b kernel_size fail_count) :
    zone_origin disparity kernel_size z :=
  zone_origin_aux disparity kernel_size _ b fail_count le_rfl z hz

/-- Every emitted zone holds the valid displacements of its region in a window
at least 1 wide and high. -/
theorem emitted_zone_spec (disparity : ImageView) (b : BBox2i) (kernel_size : Vector2i)
    (fail_count : Int) (z : SearchParam) (hz : z ∈ emitted disparity b kernel_size fail_count) :
    window_holds disparity z ∧ 1 ≤ z.2.width ∧ 1 ≤ z.2.height := by
  rcases zone_origin_emitted disparity b kernel_size fail_count z hz with
    ⟨mn, mx, -, ha, hs⟩ | ⟨p, hterm, -, hp⟩
  · have h := search_box_holds disparity z.1 mn mx ha
    rw [← hs] at h
    exact h
  · exact fold_zone_spec disparity p kernel_size z (by rw [hterm]; simp) hp

/-! ## Theorems: the recursion of the subdivider -/

/-- A recursive call is made from a non-terminal region on one of its quadrants,
with `fail_count` 0, or 1 when the caller had 0. -/
theorem calls_spec (disparity : ImageView) (kernel_size : Vector2i) (child parent : BBox2i × Int)
    (h : calls disparity kernel_size child parent) :
    ¬ is_terminal parent.1 = true ∧
    child.1 ∈ [q1 parent.1, q2 parent.1, q3 parent.1, q4 parent.1] ∧
    (child.2 = 0 ∨ (child.2 = 1 ∧ parent.2 = 0)) := by
  obtain ⟨b, fc⟩ := parent
  obtain ⟨q, fc'⟩ := child
  simp only [calls, recursive_calls] at h
  split_ifs at h with h1 h2 h3
  · simp at h
  · obtain ⟨-, rfl⟩ := h2
    simp only [zero_add, List.mem_cons, Prod.mk.injEq, List.mem_singleton, List.not_mem_nil,
      or_false] at h
    refine ⟨h1, ?_, ?_⟩
    · simp only [List.mem_cons, List.mem_singleton, List.not_mem_nil, or_false]
      rcases h with h | h | h | h
      · exact Or.inl h.1
      · exact Or.inr (Or.inl h.1)
      · exact Or.inr (Or.inr (Or.inl h.1))
      · exact Or.inr (Or.inr (Or.inr h.1))
    · right
      rcases h with h | h | h | h <;> exact ⟨h.2, rfl⟩
  · simp at h
  · simp only [List.mem_cons, Prod.mk.injEq, List.mem_singleton, List.not_mem_nil,
      or_false] at h
    refine ⟨h1, ?_, ?_⟩
    · simp only [List.mem_cons, List.mem_singleton, List.not_mem_nil, or_false]
      rcases h with h | h | h | h
      · exact Or.inl h.1
      · exact Or.inr (Or.inl h.1)
      · exact Or.inr (Or.inr (Or.inl h.1))
      · exact Or.inr (Or.inr (Or.inr h.1))
    · left
      rcases h with h | h | h | h <;> exact h.2

/-- Every quadrant of a non-terminal region is at least 8 wide and high and
strictly smaller than the region on both axes. -/
theorem quadrant_dims (b q : BBox2i) (hterm : ¬ is_terminal b = true)
    (hq : q ∈ [q1 b, q2 b, q3 b, q4 b]) :
    8 ≤ q.width ∧ q.width < b.width ∧ 8 ≤ q.height ∧ q.height < b.height := by
  obtain ⟨h1, h2, h3, h4⟩ := split_pt_bounds b hterm
  simp only [List.mem_cons, List.mem_singleton, List.not_mem_nil, or_false] at hq
  rcases hq with rfl | rfl | rfl | rfl <;>
    simp only [BBox2i.width, BBox2i.height, q1, q2, q3, q4, Vector2i.add] <;> omega

/-- With more fuel than the region is wide the fuel-bounded body returns, and
returns what `subdivide_regions` does. -/
theorem subdivide_regions_fuel_eq (disparity : ImageView) (kernel_size : Vector2i) :
    ∀ (fuel : Nat) (b : BBox2i) (list : List SearchParam) (fail_count : Int),
      b.width.toNat < fuel →
      subdivide_regions_fuel fuel disparity b list kernel_size fail_count =
        some (subdivide_regions disparity b list kernel_size fail_count) := by
  intro fuel
  induction fuel with
  | zero => intro b list fc h; omega
  | succ n ih =>
    intro b list fc hn
    by_cases hterm : is_terminal b = true
    · rw [subdivide_regions_fuel, if_pos hterm, subdivide_regions_terminal _ _ _ _ _ hterm]
      cases accumulate disparity b with
      | none => rfl
      | some a => rfl
    · have hq : ∀ q ∈ [q1 b, q2 b, q3 b, q4 b], q.width.toNat < n := by
        intro q hmem
        have := quadrant_dims b q hterm hmem
        omega
      have e1 := fun l fc' => ih (q1 b) l fc' (hq _ (by simp))
      have e2 := fun l fc' => ih (q2 b) l fc' (hq _ (by simp))
      have e3 := fun l fc' => ih (q3 b) l fc' (hq _ (by simp))
      have e4 := fun l fc' => ih (q4 b) l fc' (hq _ (by simp))
      by_cases hretry : bad_split disparity b kernel_size = true ∧ fc = 0
      · obtain ⟨hbad, rfl⟩ := hretry
        rw [subdivide_regions_fuel, if_neg hterm, if_pos ⟨hbad, rfl⟩,
          subdivide_regions_retry _ _ _ _ hterm hbad]
        simp only [zero_add, e1, e2, e3, e4, Option.some_bind]
      · by_cases hback : bad_split disparity b kernel_size = true ∧ fc > 0
        · rw [subdivide_regions_fuel, if_neg hterm, if_neg hretry, if_pos hback,
            subdivide_regions_backup _ _ _ _ _ hterm hback.1 hback.2]
        · have hgood : ¬ (bad_split disparity b kernel_size = true ∧ 0 ≤ fc) := by
            rintro ⟨hb, hfc⟩
            rcases eq_or_lt_of_le hfc with h0 | h0
            · exact hretry ⟨hb, h0.symm⟩
            · exact hback ⟨hb, h0⟩
          rw [subdivide_regions_fuel, if_neg hterm, if_neg hretry, if_neg hback,
            subdivide_regions_good _ _ _ _ _ hterm hgood]
          simp only [e1, e2, e3, e4, Option.some_bind]

/-! ## Theorems: the size of the pyramid images -/

theorem pow_tdiv_pow (D L : Nat) (h : L ≤ D) : ((2 : Int) ^ D).tdiv (2 ^ L) = 2 ^ (D - L) := by
  rw [Int.tdiv_eq_ediv (by positivity) (by positivity)]
  have e : (2 : Int) ^ D = 2 ^ (D - L) * 2 ^ L := by
    rw [← pow_add, Nat.sub_add_cancel h]
  rw [e, Int.mul_ediv_cancel _ (by positivity)]

/-- Rounding the halved side length up gives at least the floor of the half. -/
theorem subsample_size_ge (n : Int) (hn : 0 ≤ n) : n / 2 ≤ subsample_size n := by
  unfold subsample_size
  rcases lt_or_ge (0 : Int) n with h | h
  · rw [Int.tdiv_eq_ediv (by omega) (by omega)]
    omega
  · have : n = 0 := by omega
    subst this
    decide

theorem left_pyramid_size_zero (view : PyramidCorrelationView) (bbox : BBox2i)
    (max_upscaling : Int) (subsample : Int → Int) :
    left_pyramid_size view bbox max_upscaling subsample 0 =
      ⟨bbox.width + 2 * (max_upscaling * (view.m_kernel_size.div 2).x),
       bbox.height + 2 * (max_upscaling * (view.m_kernel_size.div 2).y)⟩ := by
  simp only [left_pyramid_size, left_pyramid_region, BBox2i.size, Vector2i.add, Vector2i.sub,
    Vector2i.smul, BBox2i.width, BBox2i.height, Vector2i.mk.injEq]
  constructor <;> ring

/-- An image of the pyramid is at least as large as the level-0 image divided by
the scaling of its level, whichever way `subsample` rounds. -/
theorem left_pyramid_size_ge (view : PyramidCorrelationView) (bbox : BBox2i)
    (max_upscaling : Int) (subsample : Int → Int)
    (hsub : ∀ n, 0 ≤ n → n / 2 ≤ subsample n)
    (hx : 0 ≤ (left_pyramid_size view bbox max_upscaling subsample 0).x)
    (hy : 0 ≤ (left_pyramid_size view bbox max_upscaling subsample 0).y) :
    ∀ level : Nat,
      (left_pyramid_size view bbox max_upscaling subsample 0).x / 2 ^ level ≤
        (left_pyramid_size view bbox max_upscaling subsample level).x ∧
      (left_pyramid_size view bbox max_upscaling subsample 0).y / 2 ^ level ≤
        (left_pyramid_size view bbox max_upscaling subsample level).y := by
  have key : ∀ (w : Int) (level : Nat), 2 * (w / 2 ^ (level + 1)) ≤ w / 2 ^ level := by
    intro w level
    rw [Int.le_ediv_iff_mul_le (by positivity)]
    have := Int.ediv_mul_le w (show (2 : Int) ^ (level + 1) ≠ 0 by positivity)
    have e : (2 : Int) ^ (level + 1) = 2 ^ level * 2 := pow_succ 2 level
    rw [e] at this ⊢
    linarith
  intro level
  induction level with
  | zero => simp
  | succ n ih =>
    have px : 0 ≤ (left_pyramid_size view bbox max_upscaling subsample 0).x / 2 ^ n :=
      Int.ediv_nonneg hx (by positivity)
    have py : 0 ≤ (left_pyramid_size view bbox max_upscaling subsample 0).y / 2 ^ n :=
      Int.ediv_nonneg hy (by positivity)
    have sx := hsub (left_pyramid_size view bbox max_upscaling subsample n).x (by omega)
    have sy := hsub (left_pyramid_size view bbox max_upscaling subsample n).y (by omega)
    have kx := key (left_pyramid_size view bbox max_upscaling subsample 0).x n
    have ky := key (left_pyramid_size view bbox max_upscaling subsample 0).y n
    show _ ≤ subsample _ ∧ _ ≤ subsample _
    omega

/-- Both directions of the disagreeing matcher return displacements inside the
search volume when that is at least 5 wide and high. -/
theorem disagreeing_in_contract (cost : CostFunctionType) (l r roi : BBox2i) (s k : Vector2i)
    (hx : 5 ≤ s.x) (hy : 5 ≤ s.y) :
    in_search_volume (disagreeing_collaborators.best_of_search_convolution cost l r roi s k) s ∧
    in_search_volume (disagreeing_collaborators.best_of_search_convolution_rl cost l r roi s k) s := by
  constructor
  · intro i j d hd
    simp only [disagreeing_collaborators, Option.some.injEq] at hd
    subst hd
    simp only []
    omega
  · intro i j d hd
    simp only [disagreeing_collaborators, Option.some.injEq] at hd
    subst hd
    simp only []
    omega

/-- The good-split branch: for a non-terminal region `R` whose `int32` costs pass
the test `split_search <= 0.9 * current_search`, the call returns true and
appends exactly the zones of `q1`, `q2`, `q3`, `q4`, in this order, each produced
with `fail_count = 0`; no appended zone has region `R`.  The `int32` costs are
the exact costs whenever these fit in an `int32`. -/
theorem good_split_zones (disparity : ImageView) (R : BBox2i) (list : List SearchParam)
    (kernel_size : Vector2i) (fail_count : Int)
    (hnt : ¬ (wrap_int32 (prod R.size) ≤ 200 ∨ R.width < 16 ∨ R.height < 16))
    (hgood : 10 * split_search disparity R kernel_size ≤ 9 * current_search disparity R kernel_size) :
    (subdivide_regions disparity R list kernel_size fail_count).1 = true ∧
    (subdivide_regions disparity R list kernel_size fail_count).2 =
      list ++ ((subdivide_regions disparity (q1 R) [] kernel_size 0).2 ++
        (subdivide_regions disparity (q2 R) [] kernel_size 0).2 ++
        (subdivide_regions disparity (q3 R) [] kernel_size 0).2 ++
        (subdivide_regions disparity (q4 R) [] kernel_size 0).2) ∧
    (∀ z ∈ (subdivide_regions disparity (q1 R) [] kernel_size 0).2 ++
        (subdivide_regions disparity (q2 R) [] kernel_size 0).2 ++
        (subdivide_regions disparity (q3 R) [] kernel_size 0).2 ++
        (subdivide_regions disparity (q4 R) [] kernel_size 0).2, z.1 ≠ R) ∧
    (INT32_MIN ≤ exact_split_search disparity R kernel_size →
      exact_split_search disparity R kernel_size ≤ INT32_MAX →
      INT32_MIN ≤ exact_current_search disparity R kernel_size →
      exact_current_search disparity R kernel_size ≤ INT32_MAX →
      split_search disparity R kernel_size = exact_split_search disparity R kernel_size ∧
      current_search disparity R kernel_size = exact_current_search disparity R kernel_size) := by
  have hterm : ¬ is_terminal R = true := by
    simp only [is_terminal, decide_eq_true_eq]; exact hnt
  have hg : ¬ (bad_split disparity R kernel_size = true ∧ 0 ≤ fail_count) := by
    simp only [bad_split, decide_eq_true_eq]
    intro h; omega
  have hok : ∀ q, (subdivide_regions disparity q [] kernel_size 0).1 = true := by
    intro q; rw [subdivide_regions_fst_eq]; simp
  refine ⟨?_, ?_, ?_, ?_⟩
  · rw [subdivide_regions_good _ _ _ _ _ hterm hg]
  · rw [subdivide_regions_append, emitted_good _ _ _ _ hterm hg]
    rfl
  · intro z hz
    simp only [List.mem_append] at hz
    rcases hz with ((hz | hz) | hz) | hz
    · exact zone_in_quadrant_ne disparity R _ hterm
        (Or.inl (Or.inl (partitions_valid_emitted disparity (q1 R) kernel_size 0 (hok _)))) z hz
    · exact zone_in_quadrant_ne disparity R _ hterm
        (Or.inl (Or.inr (partitions_valid_emitted disparity (q2 R) kernel_size 0 (hok _)))) z hz
    · exact zone_in_quadrant_ne disparity R _ hterm
        (Or.inr (Or.inl (partitions_valid_emitted disparity (q3 R) kernel_size 0 (hok _)))) z hz
    · exact zone_in_quadrant_ne disparity R _ hterm
        (Or.inr (Or.inr (partitions_valid_emitted disparity (q4 R) kernel_size 0 (hok _)))) z hz
  · intro h1 h2 h3 h4
    exact ⟨wrap_int32_of_fits _ h1 h2, wrap_int32_of_fits _ h3 h4⟩

/-! ## The claims -/

/-- C1 (as stated, refuted): on a one-pixel map whose pixel is invalid the call
on the whole map with `fail_count = 0` leaves the list empty, so the zone
regions do not cover the region: the zone list is not an exact partition. -/
theorem C1_counterexample :
    ¬ partitions (bounding_box invalid_pixel_map)
      (subdivide_regions invalid_pixel_map (bounding_box invalid_pixel_map) [] ⟨3, 3⟩ 0).2 := by
  have hterm : is_terminal (bounding_box invalid_pixel_map) = true := by decide
  have hacc : accumulate invalid_pixel_map (bounding_box invalid_pixel_map) = none := by decide
  rw [subdivide_regions_terminal _ _ _ _ _ hterm, hacc]
  rintro ⟨-, h⟩
  exact covered_nil 0 0 ((h 0 0).2 (by decide))

/-- C1 (amended): for every disparity map and region `R`, the zones produced by
`subdivide_regions(disparity, R, empty list, kernel_size)` with `fail_count = 0`
have pairwise disjoint regions, each inside `R`, and every pixel of `R` holding a
valid displacement lies in one of them; when every pixel of `R` is valid the zone
list is an exact partition of `R`. -/
theorem C1_zones_partition_valid_data (disparity : ImageView) (R : BBox2i)
    (kernel_size : Vector2i) :
    partitions_valid disparity R (subdivide_regions disparity R [] kernel_size 0).2 ∧
    ((∀ i j, R.contains i j → disparity.pix i j ≠ none) →
      partitions R (subdivide_regions disparity R [] kernel_size 0).2) := by
  have hok : (subdivide_regions disparity R [] kernel_size 0).1 = true := by
    rw [subdivide_regions_fst_eq]; simp
  have h := partitions_valid_emitted disparity R kernel_size 0 hok
  refine ⟨h, fun hall => ⟨h.2.1, fun i j => ⟨h.1 i j, fun hc => h.2.2 i j hc (hall i j hc)⟩⟩⟩

/-- C2 at the failing input: for a 4 x 4 tile and a 7 x 7 kernel the level count
is -1, no level is processed, the disparity buffer keeps its default size 0 x 0
although the requested size is 4 x 4, and no tile is produced. -/
theorem C2_tile_smaller_than_kernel (ext : Collaborators) :
    max_pyramid_levels sample_view ⟨⟨0, 0⟩, ⟨4, 4⟩⟩ = -1 ∧
    processed_levels sample_view ext ⟨⟨0, 0⟩, ⟨4, 4⟩⟩ = [] ∧
    (final_disparity sample_view ext ⟨⟨0, 0⟩, ⟨4, 4⟩⟩).cols = 0 ∧
    (final_disparity sample_view ext ⟨⟨0, 0⟩, ⟨4, 4⟩⟩).rows = 0 ∧
    BBox2i.size ⟨⟨0, 0⟩, ⟨4, 4⟩⟩ = ⟨4, 4⟩ ∧
    prerasterize sample_view ext ⟨⟨0, 0⟩, ⟨4, 4⟩⟩ = none := by
  have h1 : max_pyramid_levels sample_view ⟨⟨0, 0⟩, ⟨4, 4⟩⟩ = -1 := by decide!
  have h2 : processed_levels sample_view ext ⟨⟨0, 0⟩, ⟨4, 4⟩⟩ = [] := by
    simp only [processed_levels, h1]
    rfl
  refine ⟨h1, h2, ?_, ?_, rfl, ?_⟩
  · simp only [final_disparity, h2]; rfl
  · simp only [final_disparity, h2]; rfl
  · simp only [prerasterize, h1]; rfl

/-- C3: if the block matcher returns, for a search volume `s`, only invalid pixels
or displacements `d` with `0 <= d < s`, and the consistency checker only clears
validity, then every valid displacement a zone writes at level 0, offset by the
min corner of the search region, lies componentwise between the min and the max
corner of the search region; so does every valid pixel of the tile returned by
`prerasterize`. -/
theorem C3_valid_disparity_in_search_region (view : PyramidCorrelationView)
    (ext : Collaborators) (bbox : BBox2i)
    (hm : ext.matcher_in_range) (hc : ext.checker_only_clears) :
    (∀ entry ∈ processed_levels view ext bbox, entry.1 = 0 → ∀ zone ∈ entry.2.1,
      ∀ (max_upscaling i j : Int) (d : Vector2i),
        zone_result view ext max_upscaling 0 zone i j = some d →
        view.m_search_region.min.x ≤ (d.add view.m_search_region.min).x ∧
        (d.add view.m_search_region.min).x ≤ view.m_search_region.max.x ∧
        view.m_search_region.min.y ≤ (d.add view.m_search_region.min).y ∧
        (d.add view.m_search_region.min).y ≤ view.m_search_region.max.y) ∧
    (∀ result, prerasterize view ext bbox = some result → ∀ i j (d : Vector2i),
      result.pix i j = some d →
        view.m_search_region.min.x ≤ d.x ∧ d.x ≤ view.m_search_region.max.x ∧
        view.m_search_region.min.y ≤ d.y ∧ d.y ≤ view.m_search_region.max.y) := by
  have key : ∀ entry ∈ processed_levels view ext bbox, entry.1 = 0 → ∀ zone ∈ entry.2.1,
      ∀ (max_upscaling i j : Int) (d : Vector2i),
        zone_result view ext max_upscaling 0 zone i j = some d →
        view.m_search_region.min.x ≤ (d.add view.m_search_region.min).x ∧
        (d.add view.m_search_region.min).x ≤ view.m_search_region.max.x ∧
        view.m_search_region.min.y ≤ (d.add view.m_search_region.min).y ∧
        (d.add view.m_search_region.min).y ≤ view.m_search_region.max.y := by
    intro entry he h0 zone hz M i j d hd
    have hsub := processed_levels_windows view ext bbox entry he zone hz
    rw [h0, scale_search_region_eq] at hsub
    have hwin := zone_result_in_window view ext hm hc M 0 zone i j d hd
    simp only [BBox2i.subset, BBox2i.ofSize, BBox2i.contains, BBox2i.width, BBox2i.height,
      pow_zero, Int.tdiv_one, Vector2i.add, zero_add] at *
    omega
  refine ⟨key, ?_⟩
  intro result hres i j d hd
  simp only [prerasterize] at hres
  split_ifs at hres with hneg
  simp only [Option.some.injEq] at hres
  subst hres
  simp only [Option.map_eq_some'] at hd
  obtain ⟨d0, hd0, rfl⟩ := hd
  obtain ⟨zones0, hmem, hf⟩ := final_disparity_eq view ext bbox (by omega)
  rw [hf] at hd0
  obtain ⟨zone, hz, -, hv⟩ := process_level_pix view ext bbox _ 0 zones0 i j d0 hd0
  exact key _ hmem rfl zone hz _ _ _ d0 hv

/-- C3 at a concrete input: the sample correlator with the constant matcher on a
64 x 64 tile. -/
theorem C3_valid_disparity_in_search_region_witness :
    constant_collaborators.matcher_in_range ∧ constant_collaborators.checker_only_clears ∧
    (∀ entry ∈ processed_levels sample_view constant_collaborators ⟨⟨0, 0⟩, ⟨64, 64⟩⟩,
      entry.1 = 0 → ∀ zone ∈ entry.2.1,
      ∀ (max_upscaling i j : Int) (d : Vector2i),
        zone_result sample_view constant_collaborators max_upscaling 0 zone i j = some d →
        sample_view.m_search_region.min.x ≤ (d.add sample_view.m_search_region.min).x ∧
        (d.add sample_view.m_search_region.min).x ≤ sample_view.m_search_region.max.x ∧
        sample_view.m_search_region.min.y ≤ (d.add sample_view.m_search_region.min).y ∧
        (d.add sample_view.m_search_region.min).y ≤ sample_view.m_search_region.max.y) ∧
    (∀ result, prerasterize sample_view constant_collaborators ⟨⟨0, 0⟩, ⟨64, 64⟩⟩ = some result →
      ∀ i j (d : Vector2i), result.pix i j = some d →
        sample_view.m_search_region.min.x ≤ d.x ∧ d.x ≤ sample_view.m_search_region.max.x ∧
        sample_view.m_search_region.min.y ≤ d.y ∧ d.y ≤ sample_view.m_search_region.max.y) :=
  have hm : constant_collaborators.matcher_in_range := by
    intro cost level l r s i j d h
    simp only [constant_collaborators] at h
    split_ifs at h with hs
    simp only [Option.some.injEq] at h
    subst h
    exact ⟨le_refl _, hs.1, le_refl _, hs.2⟩
  have hc : constant_collaborators.checker_only_clears := fun _ _ _ _ _ _ h => h
  ⟨hm, hc, C3_valid_disparity_in_search_region sample_view constant_collaborators
    ⟨⟨0, 0⟩, ⟨64, 64⟩⟩ hm hc⟩

/-- C4: at every pyramid level `L` processed by `prerasterize`, every zone's search
window lies inside the level-scaled global search region
`[0, floor(search_width / 2^L) + 1) x [0, floor(search_height / 2^L) + 1)`,
corner-wise and hence pixel-wise; the window of the initial zone is this box and
the crop re-establishes the inclusion after each refinement. -/
theorem C4_windows_inside_search_region (view : PyramidCorrelationView) (ext : Collaborators)
    (bbox : BBox2i)
    (hw : 0 ≤ view.m_search_region.width) (hh : 0 ≤ view.m_search_region.height) :
    (∀ entry ∈ processed_levels view ext bbox, ∀ zone ∈ entry.2.1,
      zone.2.subset (level_search_box view entry.1) ∧
      ∀ i j, zone.2.contains i j → (level_search_box view entry.1).contains i j) ∧
    (∀ max_upscaling : Nat, (initial_zone view bbox (2 ^ max_upscaling)).2 =
      level_search_box view max_upscaling) ∧
    (∀ (level : Nat) (zones : List SearchParam),
      ∀ zone ∈ refine_zones view ext (2 ^ level) zones,
        zone.2.subset (level_search_box view level)) := by
  refine ⟨?_, ?_, ?_⟩
  · intro entry he zone hz
    have h := processed_levels_windows view ext bbox entry he zone hz
    rw [scale_search_region_eq_level_box view _ hw hh] at h
    refine ⟨h, ?_⟩
    intro i j hc
    simp only [BBox2i.subset, BBox2i.contains] at *
    omega
  · intro m
    rw [initial_zone_window]
    exact_mod_cast scale_search_region_eq_level_box view m hw hh
  · intro level zones zone hz
    have h := refine_zones_window view ext (2 ^ level) zones zone hz
    rw [scale_search_region_eq_level_box view _ hw hh] at h
    exact h

/-- C4 at a concrete input: the sample correlator on a 64 x 64 tile. -/
theorem C4_windows_inside_search_region_witness :
    0 ≤ sample_view.m_search_region.width ∧ 0 ≤ sample_view.m_search_region.height ∧
    (∀ entry ∈ processed_levels sample_view constant_collaborators ⟨⟨0, 0⟩, ⟨64, 64⟩⟩,
      ∀ zone ∈ entry.2.1,
        zone.2.subset (level_search_box sample_view entry.1) ∧
        ∀ i j, zone.2.contains i j → (level_search_box sample_view entry.1).contains i j) ∧
    (∀ max_upscaling : Nat,
      (initial_zone sample_view ⟨⟨0, 0⟩, ⟨64, 64⟩⟩ (2 ^ max_upscaling)).2 =
        level_search_box sample_view max_upscaling) ∧
    (∀ (level : Nat) (zones : List SearchParam),
      ∀ zone ∈ refine_zones sample_view constant_collaborators (2 ^ level) zones,
        zone.2.subset (level_search_box sample_view level)) :=
  ⟨by decide, by decide,
    C4_windows_inside_search_region sample_view constant_collaborators ⟨⟨0, 0⟩, ⟨64, 64⟩⟩
      (by decide) (by decide)⟩

/-- C5 (as stated, refuted): with a 2 x 2 tile, two pyramid levels and a matcher
that finds no match at the coarse level, the subdivider emits no zone, the zone
list of level 0 is empty and does not partition the 2 x 2 tile. -/
theorem C5_counterexample :
    ¬ (∀ entry ∈ processed_levels small_view blind_collaborators ⟨⟨0, 0⟩, ⟨2, 2⟩⟩,
      partitions (level_tile ⟨⟨0, 0⟩, ⟨2, 2⟩⟩ entry.1) entry.2.1) := by
  intro hall
  have hlev : max_pyramid_levels small_view ⟨⟨0, 0⟩, ⟨2, 2⟩⟩ = 1 := by decide!
  have hnone : ∀ i j, (process_level small_view blind_collaborators ⟨⟨0, 0⟩, ⟨2, 2⟩⟩ (2 ^ 1) 1
      [initial_zone small_view ⟨⟨0, 0⟩, ⟨2, 2⟩⟩ (2 ^ 1)]).pix i j = none := by
    intro i j
    cases hp : (process_level small_view blind_collaborators ⟨⟨0, 0⟩, ⟨2, 2⟩⟩ (2 ^ 1) 1
      [initial_zone small_view ⟨⟨0, 0⟩, ⟨2, 2⟩⟩ (2 ^ 1)]).pix i j with
    | none => rfl
    | some d =>
      obtain ⟨zone, -, -, hv⟩ := process_level_pix _ _ _ _ _ _ i j d hp
      simp only [zone_result, blind_collaborators] at hv
      split_ifs at hv <;> simp at hv
  have hsize := process_level_size small_view blind_collaborators ⟨⟨0, 0⟩, ⟨2, 2⟩⟩ (2 ^ 1) 1
    [initial_zone small_view ⟨⟨0, 0⟩, ⟨2, 2⟩⟩ (2 ^ 1)]
  have hbox : bounding_box (process_level small_view blind_collaborators ⟨⟨0, 0⟩, ⟨2, 2⟩⟩ (2 ^ 1) 1
      [initial_zone small_view ⟨⟨0, 0⟩, ⟨2, 2⟩⟩ (2 ^ 1)]) = ⟨⟨0, 0⟩, ⟨1, 1⟩⟩ := by
    simp only [bounding_box, hsize.1, hsize.2]
    rfl
  have hsub : (subdivide_regions (process_level small_view blind_collaborators ⟨⟨0, 0⟩, ⟨2, 2⟩⟩
      (2 ^ 1) 1 [initial_zone small_view ⟨⟨0, 0⟩, ⟨2, 2⟩⟩ (2 ^ 1)])
      (bounding_box (process_level small_view blind_collaborators ⟨⟨0, 0⟩, ⟨2, 2⟩⟩ (2 ^ 1) 1
        [initial_zone small_view ⟨⟨0, 0⟩, ⟨2, 2⟩⟩ (2 ^ 1)])) [] small_view.m_kernel_size 0).2 =
      [] := by
    rw [hbox, subdivide_regions_terminal _ _ _ _ _ (by decide),
      (accumulate_none_iff _ _).2 (fun i j _ => hnone i j)]
  have hmem : (0, [], process_level small_view blind_collaborators ⟨⟨0, 0⟩, ⟨2, 2⟩⟩ (2 ^ 1) 0 []) ∈
      processed_levels small_view blind_collaborators ⟨⟨0, 0⟩, ⟨2, 2⟩⟩ := by
    simp only [processed_levels, hlev]
    rw [if_neg (by decide)]
    simp only [show (1 : Int).toNat = 1 from rfl, level_loop, hsub, refine_zones, List.map_nil,
      List.mem_cons, List.mem_singleton, pow_zero]
    right; left; trivial
  have h := (hall _ hmem).2 0 0
  exact covered_nil 0 0 (h.2 (by decide))

/-- C5 (amended): for a tile of non-negative width and height, at every level `L`
processed by `prerasterize` the zone regions are pairwise disjoint and lie inside
the level-scaled tile `[0, floor(width / 2^L)) x [0, floor(height / 2^L))`,
which is the box of the level's disparity buffer; the zone list of the coarsest
level partitions its tile exactly; and from one level to the next the zones
contain every pixel whose parent pixel holds a valid displacement in the coarser
buffer. -/
theorem C5_zone_lists_disjoint_inside_tile (view : PyramidCorrelationView) (ext : Collaborators)
    (bbox : BBox2i) (hw : 0 ≤ bbox.width) (hh : 0 ≤ bbox.height) :
    (∀ entry ∈ processed_levels view ext bbox,
      zones_disjoint entry.2.1 ∧
      (∀ i j, covered entry.2.1 i j → (level_tile bbox entry.1).contains i j) ∧
      bounding_box entry.2.2 = level_tile bbox entry.1) ∧
    (∀ entry, (processed_levels view ext bbox).head? = some entry →
      partitions (level_tile bbox entry.1) entry.2.1) ∧
    List.Chain' refines_valid (processed_levels view ext bbox) := by
  by_cases hneg : max_pyramid_levels view bbox < 0
  · have hp : processed_levels view ext bbox = [] := by
      simp only [processed_levels]; rw [if_pos hneg]
    rw [hp]
    refine ⟨fun e he => absurd he (List.not_mem_nil _), fun e he => ?_, List.chain'_nil⟩
    simp at he
  · have hp : processed_levels view ext bbox =
        level_loop view ext bbox (2 ^ (max_pyramid_levels view bbox).toNat)
          (max_pyramid_levels view bbox).toNat
          [initial_zone view bbox (2 ^ (max_pyramid_levels view bbox).toNat)] := by
      simp only [processed_levels]; rw [if_neg hneg]
    rw [hp]
    have hinit : ∀ i j, covered [initial_zone view bbox (2 ^ (max_pyramid_levels view bbox).toNat)]
        i j ↔ (level_tile bbox (max_pyramid_levels view bbox).toNat).contains i j := by
      intro i j
      simp only [covered, List.mem_singleton, exists_eq_left, initial_zone, level_tile]
      rw [Int.tdiv_eq_ediv hw (by positivity), Int.tdiv_eq_ediv hh (by positivity)]
    obtain ⟨h1, h2⟩ := level_loop_zones view ext bbox (2 ^ (max_pyramid_levels view bbox).toNat)
      hw hh (max_pyramid_levels view bbox).toNat
      [initial_zone view bbox (2 ^ (max_pyramid_levels view bbox).toNat)]
      (List.pairwise_singleton _ _) (fun i j => (hinit i j).1)
    refine ⟨h1, ?_, h2⟩
    intro entry he
    rw [level_loop_head] at he
    simp only [Option.some.injEq] at he
    subst he
    exact ⟨List.pairwise_singleton _ _, hinit⟩

/-- C5 (amended) at a concrete input: the sample correlator on a 64 x 64 tile. -/
theorem C5_zone_lists_disjoint_inside_tile_witness :
    0 ≤ (BBox2i.mk ⟨0, 0⟩ ⟨64, 64⟩).width ∧ 0 ≤ (BBox2i.mk ⟨0, 0⟩ ⟨64, 64⟩).height ∧
    (∀ entry ∈ processed_levels sample_view constant_collaborators ⟨⟨0, 0⟩, ⟨64, 64⟩⟩,
      zones_disjoint entry.2.1 ∧
      (∀ i j, covered entry.2.1 i j → (level_tile ⟨⟨0, 0⟩, ⟨64, 64⟩⟩ entry.1).contains i j) ∧
      bounding_box entry.2.2 = level_tile ⟨⟨0, 0⟩, ⟨64, 64⟩⟩ entry.1) ∧
    (∀ entry, (processed_levels sample_view constant_collaborators ⟨⟨0, 0⟩, ⟨64, 64⟩⟩).head? =
        some entry → partitions (level_tile ⟨⟨0, 0⟩, ⟨64, 64⟩⟩ entry.1) entry.2.1) ∧
    List.Chain' refines_valid
      (processed_levels sample_view constant_collaborators ⟨⟨0, 0⟩, ⟨64, 64⟩⟩) :=
  ⟨by decide, by decide,
    C5_zone_lists_disjoint_inside_tile sample_view constant_collaborators ⟨⟨0, 0⟩, ⟨64, 64⟩⟩
      (by decide) (by decide)⟩

/-- C7: for a tile whose smallest side `T` is at least the largest kernel side
`K >= 1`, the depth `D` used by `prerasterize` is non-negative and the coarsest
tile is not smaller than the kernel: `K <= floor(T / 2^D)`, and so are the width
and the height of the region of the initial zone. -/
theorem C7_coarsest_tile_holds_kernel (search_region : BBox2i) (kernel_size : Vector2i)
    (cost_type : CostFunctionType) (consistency_threshold : Rat) (bbox : BBox2i)
    (hK : 1 ≤ Max.max kernel_size.x kernel_size.y)
    (hKT : Max.max kernel_size.x kernel_size.y ≤ Min.min bbox.size.x bbox.size.y) :
    0 ≤ max_pyramid_levels
      (PyramidCorrelationView.create search_region kernel_size cost_type consistency_threshold) bbox ∧
    Max.max kernel_size.x kernel_size.y ≤
      Min.min bbox.size.x bbox.size.y /
        2 ^ (max_pyramid_levels
          (PyramidCorrelationView.create search_region kernel_size cost_type
            consistency_threshold) bbox).toNat ∧
    Max.max kernel_size.x kernel_size.y ≤
      (initial_zone
        (PyramidCorrelationView.create search_region kernel_size cost_type consistency_threshold)
        bbox (2 ^ (max_pyramid_levels
          (PyramidCorrelationView.create search_region kernel_size cost_type
            consistency_threshold) bbox).toNat)).1.width ∧
    Max.max kernel_size.x kernel_size.y ≤
      (initial_zone
        (PyramidCorrelationView.create search_region kernel_size cost_type consistency_threshold)
        bbox (2 ^ (max_pyramid_levels
          (PyramidCorrelationView.create search_region kernel_size cost_type
            consistency_threshold) bbox).toNat)).1.height := by
  obtain ⟨hr0, hr1⟩ := floor_log2_ratio_nonneg _ _ hK hKT
  have hs := max_level_by_search_nonneg search_region
  have hD : max_pyramid_levels
      (PyramidCorrelationView.create search_region kernel_size cost_type consistency_threshold) bbox =
      Min.min (max_level_by_search search_region)
        (floor_log2_ratio (Min.min bbox.size.x bbox.size.y)
          (Max.max kernel_size.x kernel_size.y)) := max_pyramid_levels_eq_min _ _
  rw [hD]
  generalize max_level_by_search search_region = s at *
  generalize floor_log2_ratio (Min.min bbox.size.x bbox.size.y)
    (Max.max kernel_size.x kernel_size.y) = r at *
  generalize Max.max kernel_size.x kernel_size.y = K at *
  have hD0 : 0 ≤ Min.min s r := le_min hs hr0
  have hpow : (2 : Int) ^ (Min.min s r).toNat ≤ 2 ^ r.toNat :=
    pow_le_pow_right₀ (by norm_num) (Int.toNat_le_toNat (min_le_right s r))
  have hpos : (0 : Int) < 2 ^ (Min.min s r).toNat := by positivity
  have hmul : ∀ T : Int, Min.min bbox.size.x bbox.size.y ≤ T → K * 2 ^ (Min.min s r).toNat ≤ T := by
    intro T hT
    calc K * 2 ^ (Min.min s r).toNat ≤ K * 2 ^ r.toNat :=
          Int.mul_le_mul_of_nonneg_left hpow (by omega)
      _ ≤ Min.min bbox.size.x bbox.size.y := hr1
      _ ≤ T := hT
  have hdiv : ∀ T : Int, Min.min bbox.size.x bbox.size.y ≤ T → K ≤ T / 2 ^ (Min.min s r).toNat :=
    fun T hT => (Int.le_ediv_iff_mul_le hpos).2 (hmul T hT)
  have htd : ∀ T : Int, Min.min bbox.size.x bbox.size.y ≤ T →
      K ≤ T.tdiv (2 ^ (Min.min s r).toNat) := by
    intro T hT
    have hT0 : 0 ≤ T := by
      have := hmul T hT
      have : 0 ≤ K * 2 ^ (Min.min s r).toNat := Int.mul_nonneg (by omega) hpos.le
      omega
    rw [Int.tdiv_eq_ediv hT0 hpos.le]
    exact hdiv T hT
  refine ⟨hD0, hdiv _ le_rfl, ?_, ?_⟩
  · simp only [initial_zone, BBox2i.ofSize, BBox2i.width, zero_add, sub_zero]
    exact htd _ (min_le_left _ _)
  · simp only [initial_zone, BBox2i.ofSize, BBox2i.height, zero_add, sub_zero]
    exact htd _ (min_le_right _ _)

/-- C7 at a concrete input: the sample correlator (7 x 7 kernel) on a 64 x 64
tile. -/
theorem C7_coarsest_tile_holds_kernel_witness :
    1 ≤ Max.max (Vector2i.mk 7 7).x (Vector2i.mk 7 7).y ∧
    Max.max (Vector2i.mk 7 7).x (Vector2i.mk 7 7).y ≤
      Min.min (BBox2i.size ⟨⟨0, 0⟩, ⟨64, 64⟩⟩).x (BBox2i.size ⟨⟨0, 0⟩, ⟨64, 64⟩⟩).y ∧
    0 ≤ max_pyramid_levels
      (PyramidCorrelationView.create ⟨⟨-10, -10⟩, ⟨10, 10⟩⟩ ⟨7, 7⟩
        CostFunctionType.ABSOLUTE_DIFFERENCE (-1)) ⟨⟨0, 0⟩, ⟨64, 64⟩⟩ ∧
    Max.max (Vector2i.mk 7 7).x (Vector2i.mk 7 7).y ≤
      Min.min (BBox2i.size ⟨⟨0, 0⟩, ⟨64, 64⟩⟩).x (BBox2i.size ⟨⟨0, 0⟩, ⟨64, 64⟩⟩).y /
        2 ^ (max_pyramid_levels
          (PyramidCorrelationView.create ⟨⟨-10, -10⟩, ⟨10, 10⟩⟩ ⟨7, 7⟩
            CostFunctionType.ABSOLUTE_DIFFERENCE (-1)) ⟨⟨0, 0⟩, ⟨64, 64⟩⟩).toNat ∧
    Max.max (Vector2i.mk 7 7).x (Vector2i.mk 7 7).y ≤
      (initial_zone
        (PyramidCorrelationView.create ⟨⟨-10, -10⟩, ⟨10, 10⟩⟩ ⟨7, 7⟩
          CostFunctionType.ABSOLUTE_DIFFERENCE (-1))
        ⟨⟨0, 0⟩, ⟨64, 64⟩⟩ (2 ^ (max_pyramid_levels
          (PyramidCorrelationView.create ⟨⟨-10, -10⟩, ⟨10, 10⟩⟩ ⟨7, 7⟩
            CostFunctionType.ABSOLUTE_DIFFERENCE (-1)) ⟨⟨0, 0⟩, ⟨64, 64⟩⟩).toNat)).1.width ∧
    Max.max (Vector2i.mk 7 7).x (Vector2i.mk 7 7).y ≤
      (initial_zone
        (PyramidCorrelationView.create ⟨⟨-10, -10⟩, ⟨10, 10⟩⟩ ⟨7, 7⟩
          CostFunctionType.ABSOLUTE_DIFFERENCE (-1))
        ⟨⟨0, 0⟩, ⟨64, 64⟩⟩ (2 ^ (max_pyramid_levels
          (PyramidCorrelationView.create ⟨⟨-10, -10⟩, ⟨10, 10⟩⟩ ⟨7, 7⟩
            CostFunctionType.ABSOLUTE_DIFFERENCE (-1)) ⟨⟨0, 0⟩, ⟨64, 64⟩⟩).toNat)).1.height :=
  ⟨by decide, by decide,
    C7_coarsest_tile_holds_kernel ⟨⟨-10, -10⟩, ⟨10, 10⟩⟩ ⟨7, 7⟩
      CostFunctionType.ABSOLUTE_DIFFERENCE (-1) ⟨⟨0, 0⟩, ⟨64, 64⟩⟩ (by decide) (by decide)⟩

/-- C8: terminal case.  For a region `R` with area at most 200 or a side shorter
than 16 (any `fail_count`, any list) the call returns true; if `R` holds a valid
displacement it appends exactly the one zone `(R, [m, M + (1,1)))`, `m` and `M`
being the componentwise minimum and maximum of the valid displacements of `R`;
if `R` holds none it appends nothing. -/
theorem C8_terminal_case (disparity : ImageView) (R : BBox2i) (list : List SearchParam)
    (kernel_size : Vector2i) (fail_count : Int)
    (hsmall : prod R.size ≤ 200 ∨ R.width < 16 ∨ R.height < 16) :
    (subdivide_regions disparity R list kernel_size fail_count).1 = true ∧
    (has_valid disparity R → ∃ m M, is_observed disparity R m M ∧
      (subdivide_regions disparity R list kernel_size fail_count).2 =
        list ++ [(R, ⟨m, ⟨M.x + 1, M.y + 1⟩⟩)]) ∧
    (¬ has_valid disparity R →
      (subdivide_regions disparity R list kernel_size fail_count).2 = list) := by
  have hterm : is_terminal R = true := is_terminal_of_small R hsmall
  rw [subdivide_regions_terminal _ _ _ _ _ hterm]
  cases hacc : accumulate disparity R with
  | none =>
    refine ⟨rfl, ?_, fun _ => rfl⟩
    intro hv
    obtain ⟨mn, mx, h⟩ := (accumulate_isSome_iff disparity R).2 hv
    rw [hacc] at h
    exact absurd h (by simp)
  | some a =>
    obtain ⟨mn, mx⟩ := a
    refine ⟨rfl, fun _ => ⟨mn, mx, accumulate_some_observed disparity R mn mx hacc, rfl⟩, ?_⟩
    intro hnv
    exact absurd ((accumulate_isSome_iff disparity R).1 ⟨mn, mx, hacc⟩) hnv

/-- C8 at a concrete input: the 2 x 1 map with one valid displacement `(3, -2)`,
appended to a list that already holds a zone. -/
theorem C8_terminal_case_witness :
    (prod (bounding_box two_pixel_map).size ≤ 200 ∨ (bounding_box two_pixel_map).width < 16 ∨
      (bounding_box two_pixel_map).height < 16) ∧
    (subdivide_regions two_pixel_map (bounding_box two_pixel_map)
      [(⟨⟨5, 5⟩, ⟨6, 6⟩⟩, ⟨⟨0, 0⟩, ⟨1, 1⟩⟩)] ⟨3, 3⟩ 1).1 = true ∧
    (has_valid two_pixel_map (bounding_box two_pixel_map) →
      ∃ m M, is_observed two_pixel_map (bounding_box two_pixel_map) m M ∧
        (subdivide_regions two_pixel_map (bounding_box two_pixel_map)
          [(⟨⟨5, 5⟩, ⟨6, 6⟩⟩, ⟨⟨0, 0⟩, ⟨1, 1⟩⟩)] ⟨3, 3⟩ 1).2 =
          [(⟨⟨5, 5⟩, ⟨6, 6⟩⟩, ⟨⟨0, 0⟩, ⟨1, 1⟩⟩)] ++
            [(bounding_box two_pixel_map, ⟨m, ⟨M.x + 1, M.y + 1⟩⟩)]) ∧
    (¬ has_valid two_pixel_map (bounding_box two_pixel_map) →
      (subdivide_regions two_pixel_map (bounding_box two_pixel_map)
        [(⟨⟨5, 5⟩, ⟨6, 6⟩⟩, ⟨⟨0, 0⟩, ⟨1, 1⟩⟩)] ⟨3, 3⟩ 1).2 =
        [(⟨⟨5, 5⟩, ⟨6, 6⟩⟩, ⟨⟨0, 0⟩, ⟨1, 1⟩⟩)]) :=
  ⟨by decide, C8_terminal_case two_pixel_map (bounding_box two_pixel_map)
    [(⟨⟨5, 5⟩, ⟨6, 6⟩⟩, ⟨⟨0, 0⟩, ⟨1, 1⟩⟩)] ⟨3, 3⟩ 1 (by decide)⟩

/-- C10 at the failing input: the 32 x 32 map `spread_disparity` with a 3 x 3
kernel, first attempt, empty list.  The region is not terminal and the exact
costs clear the 10% threshold by far (split cost 1444, region cost 2450000000),
but the region cost does not fit in an `int32`: `current_search` holds
-1844967296, the test `split_search > current_search*0.9` holds and the call
takes the retry branch.  The four retried quarters back up and the call emits
the region itself as its only zone, with the window `[0, 2000) x [0, 1000)`;
this is not the concatenation of the zones of the four quadrants, which for
`q1` are four 8 x 8 zones with a window of one displacement. -/
theorem C10_cost_overflow :
    is_terminal (bounding_box spread_disparity) = false ∧
    exact_split_search spread_disparity (bounding_box spread_disparity) ⟨3, 3⟩ = 1444 ∧
    exact_current_search spread_disparity (bounding_box spread_disparity) ⟨3, 3⟩ = 2450000000 ∧
    10 * exact_split_search spread_disparity (bounding_box spread_disparity) ⟨3, 3⟩ ≤
      9 * exact_current_search spread_disparity (bounding_box spread_disparity) ⟨3, 3⟩ ∧
    split_search spread_disparity (bounding_box spread_disparity) ⟨3, 3⟩ = 1444 ∧
    current_search spread_disparity (bounding_box spread_disparity) ⟨3, 3⟩ = -1844967296 ∧
    subdivide_regions spread_disparity (bounding_box spread_disparity) [] ⟨3, 3⟩ 0 =
      (true, [(bounding_box spread_disparity, ⟨⟨0, 0⟩, ⟨2000, 1000⟩⟩)]) ∧
    (subdivide_regions spread_disparity (bounding_box spread_disparity) [] ⟨3, 3⟩ 0).2 ≠
      [] ++ ((subdivide_regions spread_disparity (q1 (bounding_box spread_disparity)) [] ⟨3, 3⟩ 0).2 ++
        (subdivide_regions spread_disparity (q2 (bounding_box spread_disparity)) [] ⟨3, 3⟩ 0).2 ++
        (subdivide_regions spread_disparity (q3 (bounding_box spread_disparity)) [] ⟨3, 3⟩ 0).2 ++
        (subdivide_regions spread_disparity (q4 (bounding_box spread_disparity)) [] ⟨3, 3⟩ 0).2) ∧
    (subdivide_regions spread_disparity (q1 (bounding_box spread_disparity)) [] ⟨3, 3⟩ 0).2 =
      [(⟨⟨0, 0⟩, ⟨8, 8⟩⟩, ⟨⟨0, 0⟩, ⟨1, 1⟩⟩), (⟨⟨8, 0⟩, ⟨16, 8⟩⟩, ⟨⟨0, 0⟩, ⟨1, 1⟩⟩),
       (⟨⟨0, 8⟩, ⟨8, 16⟩⟩, ⟨⟨0, 0⟩, ⟨1, 1⟩⟩), (⟨⟨8, 8⟩, ⟨16, 16⟩⟩, ⟨⟨0, 0⟩, ⟨1, 1⟩⟩)] := by
  have hterm : ¬ is_terminal (bounding_box spread_disparity) = true := by decide
  have h1 : exact_split_search spread_disparity (bounding_box spread_disparity) ⟨3, 3⟩ = 1444 := by
    decide!
  have h2 : exact_current_search spread_disparity (bounding_box spread_disparity) ⟨3, 3⟩ =
      2450000000 := by decide!
  have h3 : split_search spread_disparity (bounding_box spread_disparity) ⟨3, 3⟩ = 1444 := by
    rw [split_search, h1]; decide!
  have h4 : current_search spread_disparity (bounding_box spread_disparity) ⟨3, 3⟩ =
      -1844967296 := by
    rw [current_search, h2]; decide!
  have hbad : bad_split spread_disparity (bounding_box spread_disparity) ⟨3, 3⟩ = true := by
    simp only [bad_split, h3, h4]; decide
  have hrun : subdivide_regions spread_disparity (bounding_box spread_disparity) [] ⟨3, 3⟩ 0 =
      (true, [(bounding_box spread_disparity, ⟨⟨0, 0⟩, ⟨2000, 1000⟩⟩)]) := by
    rw [subdivide_regions_retry _ _ _ _ hterm hbad]
    simp only []
    have b1 := subdivide_regions_backup spread_disparity (q1 (bounding_box spread_disparity)) []
      ⟨3, 3⟩ 1 (by decide) (by decide!) (by decide)
    have b2 := subdivide_regions_backup spread_disparity (q2 (bounding_box spread_disparity)) []
      ⟨3, 3⟩ 1 (by decide) (by decide!) (by decide)
    have b3 := subdivide_regions_backup spread_disparity (q3 (bounding_box spread_disparity)) []
      ⟨3, 3⟩ 1 (by decide) (by decide!) (by decide)
    have b4 := subdivide_regions_backup spread_disparity (q4 (bounding_box spread_disparity)) []
      ⟨3, 3⟩ 1 (by decide) (by decide!) (by decide)
    rw [b1, b2, b3, b4]
    decide!
  have hok : ∀ q, (subdivide_regions spread_disparity q [] ⟨3, 3⟩ 0).1 = true := by
    intro q; rw [subdivide_regions_fst_eq]; simp
  refine ⟨by decide, h1, h2, by rw [h1, h2]; decide, h3, h4, hrun, ?_, ?_⟩
  · rw [hrun]
    intro h
    have hmem : (bounding_box spread_disparity, (⟨⟨0, 0⟩, ⟨2000, 1000⟩⟩ : BBox2i)) ∈
        [] ++ ((subdivide_regions spread_disparity (q1 (bounding_box spread_disparity)) [] ⟨3, 3⟩ 0).2 ++
          (subdivide_regions spread_disparity (q2 (bounding_box spread_disparity)) [] ⟨3, 3⟩ 0).2 ++
          (subdivide_regions spread_disparity (q3 (bounding_box spread_disparity)) [] ⟨3, 3⟩ 0).2 ++
          (subdivide_regions spread_disparity (q4 (bounding_box spread_disparity)) [] ⟨3, 3⟩ 0).2) := by
      rw [← h]; simp
    simp only [List.nil_append, List.mem_append] at hmem
    rcases hmem with ((hz | hz) | hz) | hz
    · exact zone_in_quadrant_ne spread_disparity (bounding_box spread_disparity) _ hterm
        (Or.inl (Or.inl (partitions_valid_emitted spread_disparity _ ⟨3, 3⟩ 0 (hok _)))) _ hz rfl
    · exact zone_in_quadrant_ne spread_disparity (bounding_box spread_disparity) _ hterm
        (Or.inl (Or.inr (partitions_valid_emitted spread_disparity _ ⟨3, 3⟩ 0 (hok _)))) _ hz rfl
    · exact zone_in_quadrant_ne spread_disparity (bounding_box spread_disparity) _ hterm
        (Or.inr (Or.inl (partitions_valid_emitted spread_disparity _ ⟨3, 3⟩ 0 (hok _)))) _ hz rfl
    · exact zone_in_quadrant_ne spread_disparity (bounding_box spread_disparity) _ hterm
        (Or.inr (Or.inr (partitions_valid_emitted spread_disparity _ ⟨3, 3⟩ 0 (hok _)))) _ hz rfl
  · have ht : ¬ is_terminal (q1 (bounding_box spread_disparity)) = true := by decide
    have hb : bad_split spread_disparity (q1 (bounding_box spread_disparity)) ⟨3, 3⟩ = true := by
      decide!
    rw [subdivide_regions_retry _ _ _ _ ht hb]
    simp only []
    rw [subdivide_regions_terminal _ (q1 (q1 (bounding_box spread_disparity))) _ _ _ (by decide)]
    have a1 : accumulate spread_disparity (q1 (q1 (bounding_box spread_disparity))) =
        some (⟨0, 0⟩, ⟨0, 0⟩) := by decide!
    rw [a1]
    simp only []
    rw [subdivide_regions_terminal _ (q2 (q1 (bounding_box spread_disparity))) _ _ _ (by decide)]
    have a2 : accumulate spread_disparity (q2 (q1 (bounding_box spread_disparity))) =
        some (⟨0, 0⟩, ⟨0, 0⟩) := by decide!
    rw [a2]
    simp only []
    rw [subdivide_regions_terminal _ (q3 (q1 (bounding_box spread_disparity))) _ _ _ (by decide)]
    have a3 : accumulate spread_disparity (q3 (q1 (bounding_box spread_disparity))) =
        some (⟨0, 0⟩, ⟨0, 0⟩) := by decide!
    rw [a3]
    simp only []
    rw [subdivide_regions_terminal _ (q4 (q1 (bounding_box spread_disparity))) _ _ _ (by decide)]
    have a4 : accumulate spread_disparity (q4 (q1 (bounding_box spread_disparity))) =
        some (⟨0, 0⟩, ⟨0, 0⟩) := by decide!
    rw [a4]
    decide!

/-- C12: in the retry branch of `subdivide_regions` (first attempt, non-terminal
region, `split_search > 0.9 * current_search` on the two `int32` variables of
the code) with one, two or three failed quadrants `F`, the call appends the
zones of the retried quadrants and then the zones `Z` of the fold.  `F` holds `(q, observed window of q)` for exactly the
quadrants `q` whose retry returned false.  The regions of `Z` are pairwise
disjoint and cover exactly the pixels of the regions of `F`.  Every zone of `Z`
is a failed quadrant as it stands or a merge of two distinct failed quadrants
that share a full edge (equal min x or equal min y) and have the same window;
the region of the merge holds exactly the pixels of the two and its window is
their common window.  Every failed quadrant is in `Z` as it stands or merged
with another failed quadrant. -/
theorem C12_merge_failed (disparity : ImageView) (R : BBox2i) (list : List SearchParam)
    (kernel_size : Vector2i) (F Z : List SearchParam) (hterm : is_terminal R = false)
    (hbad : 10 * split_search disparity R kernel_size > 9 * current_search disparity R kernel_size)
    (hF : F = failed_quadrants disparity R kernel_size)
    (hZ : Z = fold_failed R (current_search_region disparity R) F)
    (hlen : 1 ≤ F.length ∧ F.length ≤ 3) :
    subdivide_regions disparity R list kernel_size 0 =
      (true, list ++ (emitted disparity (q1 R) kernel_size 1 ++ emitted disparity (q2 R) kernel_size 1 ++
        emitted disparity (q3 R) kernel_size 1 ++ emitted disparity (q4 R) kernel_size 1) ++ Z) ∧
    (∀ f, f ∈ F ↔ ∃ q ∈ [q1 R, q2 R, q3 R, q4 R],
      (∀ l, (subdivide_regions disparity q l kernel_size 1).1 = false) ∧
      f = (q, quadrant_search disparity q)) ∧
    zones_disjoint Z ∧
    (∀ i j, covered Z i j ↔ covered F i j) ∧
    (∀ z ∈ Z, z ∈ F ∨ ∃ a ∈ F, ∃ c ∈ F, a.1 ≠ c.1 ∧ share_edge a.1 c.1 ∧
      (a.1.min.x = c.1.min.x ∨ a.1.min.y = c.1.min.y) ∧ a.2 = c.2 ∧
      z = (expand_bbox a.1 c.1, a.2) ∧
      ∀ i j, z.1.contains i j ↔ (a.1.contains i j ∨ c.1.contains i j)) ∧
    (∀ f ∈ F, f ∈ Z ∨ ∃ g ∈ F, g.1 ≠ f.1 ∧
      ((expand_bbox f.1 g.1, f.2) ∈ Z ∨ (expand_bbox g.1 f.1, g.2) ∈ Z)) := by
  have hnt : ¬ is_terminal R = true := by rw [hterm]; simp
  have hb : bad_split disparity R kernel_size = true := by
    simp only [bad_split, decide_eq_true_eq]
    exact hbad
  have hsub : List.Sublist F [(q1 R, quadrant_search disparity (q1 R)),
      (q2 R, quadrant_search disparity (q2 R)), (q3 R, quadrant_search disparity (q3 R)),
      (q4 R, quadrant_search disparity (q4 R))] := by
    rw [hF]
    exact failed_sublist _ _ _ _ _ _ _ _
  have hpw := (quadrants_pairwise_merge R (quadrant_search disparity (q1 R))
    (quadrant_search disparity (q2 R)) (quadrant_search disparity (q3 R))
    (quadrant_search disparity (q4 R)) hnt).sublist hsub
  have hspec := fold_failed_spec R (current_search_region disparity R)
    (quadrant_search disparity (q1 R)) (quadrant_search disparity (q2 R))
    (quadrant_search disparity (q3 R)) (quadrant_search disparity (q4 R))
    (subdivide_regions disparity (q1 R) [] kernel_size 1).1
    (subdivide_regions disparity (q2 R) [] kernel_size 1).1
    (subdivide_regions disparity (q3 R) [] kernel_size 1).1
    (subdivide_regions disparity (q4 R) [] kernel_size 1).1 hnt
  simp only [] at hspec
  have hFZ : fold_failed R (current_search_region disparity R)
      (failed_quadrants disparity R kernel_size) = Z := by rw [hZ, hF]
  rw [← failed_quadrants, hFZ] at hspec
  obtain ⟨hdisj, hcov⟩ := hspec
  refine ⟨?_, ?_, hdisj, ?_, ?_, ?_⟩
  · rw [subdivide_regions_append, emitted_retry _ _ _ hnt hb, subdivide_regions_fst_eq, hFZ]
    simp only [hterm, hb, List.append_assoc, Bool.not_false, Bool.true_and, gt_iff_lt, lt_self_iff_false,
      decide_False, Bool.not_true, Bool.and_false, Bool.not_false]
  · intro f
    rw [hF, failed_quadrants, mem_failed]
    simp only [List.mem_cons, List.mem_singleton, List.not_mem_nil, or_false, exists_eq_or_imp,
      exists_eq_left]
    have hl : ∀ q, (∀ l, (subdivide_regions disparity q l kernel_size 1).1 = false) ↔
        (subdivide_regions disparity q [] kernel_size 1).1 = false := by
      intro q
      constructor
      · intro h; exact h []
      · intro h l; rw [subdivide_regions_fst]; exact h
    simp only [hl]
  · intro i j
    rw [hcov, hF, failed_quadrants, covered_failed]
  · intro z hz
    rcases fold_failed_merge R (current_search_region disparity R) F hlen.1 hlen.2 with he | he
    · left
      rw [hZ, he] at hz
      exact hz
    · obtain ⟨a, c, rest, hm, hs, hmem, he⟩ := he
      rw [hZ, he, List.mem_cons] at hz
      rcases hz with rfl | hz
      · right
        have hp := hpw.sublist hs
        simp only [List.pairwise_cons, List.mem_singleton, forall_eq] at hp
        obtain ⟨hne, hedge, hun⟩ := hp.1 hm
        have hm2 := hm
        simp only [can_merge, decide_eq_true_eq] at hm2
        exact ⟨a, (hmem a).2 (Or.inl rfl), c, (hmem c).2 (Or.inr (Or.inl rfl)), hne, hedge,
          hm2.1, hm2.2, rfl, hun⟩
      · left
        exact (hmem z).2 (Or.inr (Or.inr hz))
  · intro f hf
    rcases fold_failed_merge R (current_search_region disparity R) F hlen.1 hlen.2 with he | he
    · left
      rw [hZ, he]
      exact hf
    · obtain ⟨a, c, rest, hm, hs, hmem, he⟩ := he
      have hp := hpw.sublist hs
      simp only [List.pairwise_cons, List.mem_singleton, forall_eq] at hp
      obtain ⟨hne, -, -⟩ := hp.1 hm
      have hzm : merged a c ∈ Z := by
        rw [hZ, he]
        exact List.mem_cons_self _ _
      rcases (hmem f).1 hf with rfl | rfl | hr
      · right
        exact ⟨c, (hmem c).2 (Or.inr (Or.inl rfl)), fun h => hne h.symm, Or.inl hzm⟩
      · right
        exact ⟨a, (hmem a).2 (Or.inl rfl), hne, Or.inr hzm⟩
      · left
        rw [hZ, he]
        exact List.mem_cons_of_mem _ hr

/-- C12 at a concrete input: the mixed 32 x 32 map with a 3 x 3 kernel, where three
quadrants fail. -/
theorem C12_merge_failed_witness :
    is_terminal (bounding_box mixed_disparity) = false ∧
    10 * split_search mixed_disparity (bounding_box mixed_disparity) ⟨3, 3⟩ >
      9 * current_search mixed_disparity (bounding_box mixed_disparity) ⟨3, 3⟩ ∧
    (failed_quadrants mixed_disparity (bounding_box mixed_disparity) ⟨3, 3⟩).length = 3 ∧
    zones_disjoint (fold_failed (bounding_box mixed_disparity)
      (current_search_region mixed_disparity (bounding_box mixed_disparity))
      (failed_quadrants mixed_disparity (bounding_box mixed_disparity) ⟨3, 3⟩)) :=
  have hlen : (failed_quadrants mixed_disparity (bounding_box mixed_disparity) ⟨3, 3⟩).length = 3 := by
    simp only [failed_quadrants, subdivide_regions_fst_eq]
    decide!
  ⟨by decide, by decide!, hlen,
    (C12_merge_failed mixed_disparity (bounding_box mixed_disparity) [] ⟨3, 3⟩
      (failed_quadrants mixed_disparity (bounding_box mixed_disparity) ⟨3, 3⟩)
      (fold_failed (bounding_box mixed_disparity)
        (current_search_region mixed_disparity (bounding_box mixed_disparity))
        (failed_quadrants mixed_disparity (bounding_box mixed_disparity) ⟨3, 3⟩))
      (by decide) (by decide!) rfl rfl (by rw [hlen]; decide)).2.2.1⟩

/-- C13: for every disparity map and region `R` the zone regions produced by
`subdivide_regions` with `fail_count = 0` are pairwise disjoint and each lies
inside `R`; the doubled zones that the next level writes are again pairwise
disjoint, so that in the level's buffer every pixel of a zone region holds what
this zone wrote: no other zone touches it. -/
theorem C13_zone_writes_disjoint (disparity : ImageView) (R : BBox2i) (kernel_size : Vector2i) :
    zones_disjoint (subdivide_regions disparity R [] kernel_size 0).2 ∧
    (∀ zone ∈ (subdivide_regions disparity R [] kernel_size 0).2,
      ∀ i j, zone.1.contains i j → R.contains i j) ∧
    (∀ (view : PyramidCorrelationView) (ext : Collaborators) (bbox : BBox2i)
      (max_upscaling scaling : Int) (level : Nat),
      zones_disjoint
        (refine_zones view ext scaling (subdivide_regions disparity R [] kernel_size 0).2) ∧
      ∀ zone ∈ refine_zones view ext scaling (subdivide_regions disparity R [] kernel_size 0).2,
        ∀ i j, zone.1.contains i j →
          (process_level view ext bbox max_upscaling level
            (refine_zones view ext scaling
              (subdivide_regions disparity R [] kernel_size 0).2)).pix i j =
            zone_result view ext max_upscaling level zone
              (i - zone.1.min.x) (j - zone.1.min.y)) := by
  have hok : (subdivide_regions disparity R [] kernel_size 0).1 = true := by
    rw [subdivide_regions_fst_eq]; simp
  obtain ⟨hin, hdis, -⟩ := partitions_valid_emitted disparity R kernel_size 0 hok
  simp only [emitted] at hin hdis
  refine ⟨hdis, fun zone hz i j hc => hin i j ⟨zone, hz, hc⟩, ?_⟩
  intro view ext bbox max_upscaling scaling level
  have hd := zones_disjoint_refine_zones view ext scaling _ hdis
  exact ⟨hd, fun zone hz i j hc =>
    process_level_zone_pix view ext bbox max_upscaling level _ hd zone hz i j hc⟩

/-- C14: when the level count `D` is not negative (tile and search region of
non-negative width and height, `M = 2^D`), the coarsest level is the first one
processed and starts from exactly one zone; its region is
`[0, floor(width / M)) x [0, floor(height / M))`, the whole disparity buffer of
that level, and its window is
`[0, floor(search_width / M) + 1) x [0, floor(search_height / M) + 1)`, the scaled
search region that the formula of the refinement step gives for the scaling `M`. -/
theorem C14_initial_zone (view : PyramidCorrelationView) (ext : Collaborators) (bbox : BBox2i)
    (hlev : 0 ≤ max_pyramid_levels view bbox)
    (hw : 0 ≤ bbox.width) (hh : 0 ≤ bbox.height)
    (hsw : 0 ≤ view.m_search_region.width) (hsh : 0 ≤ view.m_search_region.height) :
    ∃ zone buffer,
      (processed_levels view ext bbox).head? =
        some ((max_pyramid_levels view bbox).toNat, [zone], buffer) ∧
      zone = initial_zone view bbox (2 ^ (max_pyramid_levels view bbox).toNat) ∧
      zone.1 = ⟨⟨0, 0⟩, ⟨bbox.width / 2 ^ (max_pyramid_levels view bbox).toNat,
        bbox.height / 2 ^ (max_pyramid_levels view bbox).toNat⟩⟩ ∧
      bounding_box buffer = zone.1 ∧
      zone.2 = ⟨⟨0, 0⟩,
        ⟨view.m_search_region.width / 2 ^ (max_pyramid_levels view bbox).toNat + 1,
          view.m_search_region.height / 2 ^ (max_pyramid_levels view bbox).toNat + 1⟩⟩ ∧
      zone.2 = scale_search_region view (2 ^ (max_pyramid_levels view bbox).toNat) := by
  have hp : processed_levels view ext bbox =
      level_loop view ext bbox (2 ^ (max_pyramid_levels view bbox).toNat)
        (max_pyramid_levels view bbox).toNat
        [initial_zone view bbox (2 ^ (max_pyramid_levels view bbox).toNat)] := by
    simp only [processed_levels]; rw [if_neg (by omega)]
  have hregion : (initial_zone view bbox (2 ^ (max_pyramid_levels view bbox).toNat)).1 =
      ⟨⟨0, 0⟩, ⟨bbox.width / 2 ^ (max_pyramid_levels view bbox).toNat,
        bbox.height / 2 ^ (max_pyramid_levels view bbox).toNat⟩⟩ := by
    simp only [initial_zone, BBox2i.ofSize, zero_add]
    rw [Int.tdiv_eq_ediv hw (by positivity), Int.tdiv_eq_ediv hh (by positivity)]
  refine ⟨initial_zone view bbox (2 ^ (max_pyramid_levels view bbox).toNat),
    process_level view ext bbox (2 ^ (max_pyramid_levels view bbox).toNat)
      (max_pyramid_levels view bbox).toNat
      [initial_zone view bbox (2 ^ (max_pyramid_levels view bbox).toNat)], ?_, rfl,
    hregion, ?_, ?_, initial_zone_window view bbox _⟩
  · rw [hp, level_loop_head]
  · rw [bounding_box_process_level view ext bbox _ _ _ hw hh, hregion]
    simp only [level_tile, BBox2i.ofSize, zero_add]
  · rw [initial_zone_window, scale_search_region_eq_level_box view _ hsw hsh]
    simp only [level_search_box, BBox2i.ofSize, zero_add]

/-- C14 at a concrete input: the sample correlator on a 64 x 64 tile. -/
theorem C14_initial_zone_witness :
    0 ≤ max_pyramid_levels sample_view ⟨⟨0, 0⟩, ⟨64, 64⟩⟩ ∧
    0 ≤ (BBox2i.mk ⟨0, 0⟩ ⟨64, 64⟩).width ∧ 0 ≤ (BBox2i.mk ⟨0, 0⟩ ⟨64, 64⟩).height ∧
    0 ≤ sample_view.m_search_region.width ∧ 0 ≤ sample_view.m_search_region.height ∧
    ∃ zone buffer,
      (processed_levels sample_view constant_collaborators ⟨⟨0, 0⟩, ⟨64, 64⟩⟩).head? =
        some ((max_pyramid_levels sample_view ⟨⟨0, 0⟩, ⟨64, 64⟩⟩).toNat, [zone], buffer) ∧
      zone = initial_zone sample_view ⟨⟨0, 0⟩, ⟨64, 64⟩⟩
        (2 ^ (max_pyramid_levels sample_view ⟨⟨0, 0⟩, ⟨64, 64⟩⟩).toNat) ∧
      zone.1 = ⟨⟨0, 0⟩, ⟨(BBox2i.mk ⟨0, 0⟩ ⟨64, 64⟩).width /
          2 ^ (max_pyramid_levels sample_view ⟨⟨0, 0⟩, ⟨64, 64⟩⟩).toNat,
        (BBox2i.mk ⟨0, 0⟩ ⟨64, 64⟩).height /
          2 ^ (max_pyramid_levels sample_view ⟨⟨0, 0⟩, ⟨64, 64⟩⟩).toNat⟩⟩ ∧
      bounding_box buffer = zone.1 ∧
      zone.2 = ⟨⟨0, 0⟩,
        ⟨sample_view.m_search_region.width /
            2 ^ (max_pyramid_levels sample_view ⟨⟨0, 0⟩, ⟨64, 64⟩⟩).toNat + 1,
          sample_view.m_search_region.height /
            2 ^ (max_pyramid_levels sample_view ⟨⟨0, 0⟩, ⟨64, 64⟩⟩).toNat + 1⟩⟩ ∧
      zone.2 = scale_search_region sample_view
        (2 ^ (max_pyramid_levels sample_view ⟨⟨0, 0⟩, ⟨64, 64⟩⟩).toNat) :=
  ⟨by decide!, by decide, by decide, by decide, by decide,
    C14_initial_zone sample_view constant_collaborators ⟨⟨0, 0⟩, ⟨64, 64⟩⟩
      (by decide!) (by decide) (by decide) (by decide) (by decide)⟩

/-- C15: consistency gating.  In the flat correlator a negative threshold gives
exactly the forward match translated by the min corner of the search region,
whatever the reverse matcher and the checker are; a threshold `>= 0` gives the
checker's output on the forward and reverse match, translated the same way, and
the reverse match then does change the tile for some matcher.  In the pyramid
correlator a zone's pixels are the forward match offset by the window's min
corner at every level above 0 and whenever the threshold is negative; they come
from the checker exactly at level 0 with a threshold `>= 0`. -/
theorem C15_consistency_gating :
    (∀ (view : CorrelationView) (ext : FlatCollaborators) (bbox : BBox2i),
      view.m_consistency_threshold < 0 →
        view.prerasterize ext bbox =
          (view.forward_match ext bbox).translate view.m_search_region.min) ∧
    (∀ (view : CorrelationView) (ext ext' : FlatCollaborators) (bbox : BBox2i),
      view.m_consistency_threshold < 0 →
        ext.best_of_search_convolution = ext'.best_of_search_convolution →
        view.prerasterize ext bbox = view.prerasterize ext' bbox) ∧
    (∀ (view : CorrelationView) (ext : FlatCollaborators) (bbox : BBox2i),
      0 ≤ view.m_consistency_threshold →
        view.prerasterize ext bbox =
          (ext.cross_corr_consistency_check (view.forward_match ext bbox)
            (view.reverse_match ext bbox) view.m_consistency_threshold).translate
            view.m_search_region.min) ∧
    (∃ (view : CorrelationView) (ext ext' : FlatCollaborators) (bbox : BBox2i),
      0 ≤ view.m_consistency_threshold ∧
        ext.best_of_search_convolution = ext'.best_of_search_convolution ∧
        ext.cross_corr_consistency_check = ext'.cross_corr_consistency_check ∧
        view.prerasterize ext bbox ≠ view.prerasterize ext' bbox) ∧
    (∀ (view : PyramidCorrelationView) (ext : Collaborators) (max_upscaling : Int) (level : Nat)
      (zone : SearchParam) (i j : Int),
      (view.m_consistency_threshold < 0 ∨ 0 < level) →
        zone_result view ext max_upscaling level zone i j =
          (zone_forward view ext max_upscaling level zone i j).map
            fun d => d.add zone.2.min) ∧
    (∀ (view : PyramidCorrelationView) (ext : Collaborators) (max_upscaling : Int)
      (zone : SearchParam) (i j : Int),
      0 ≤ view.m_consistency_threshold →
        zone_result view ext max_upscaling 0 zone i j =
          (ext.cross_corr_consistency_check (zone_forward view ext max_upscaling 0 zone)
            (zone_reverse view ext max_upscaling 0 zone) view.m_consistency_threshold i j).map
            fun d => d.add zone.2.min) := by
  refine ⟨?_, ?_, ?_, ?_, ?_, ?_⟩
  · intro view ext bbox h
    simp only [CorrelationView.prerasterize, checked_match_of_neg view ext bbox h]
  · intro view ext ext' bbox h he
    simp only [CorrelationView.prerasterize, checked_match_of_neg view _ bbox h,
      CorrelationView.forward_match, he]
  · intro view ext bbox h
    simp only [CorrelationView.prerasterize, checked_match_of_nonneg view ext bbox h]
  · refine ⟨zero_threshold_view, disagreeing_collaborators, agreeing_collaborators,
      ⟨⟨0, 0⟩, ⟨4, 4⟩⟩, le_refl _, rfl, rfl, ?_⟩
    intro h
    have h1 := zero_threshold_run.2.1
    have h2 := zero_threshold_run.2.2
    rw [h, h2] at h1
    exact absurd h1 (by simp)
  · intro view ext max_upscaling level zone i j h
    refine zone_result_unchecked view ext max_upscaling level zone i j ?_
    rintro ⟨h1, h2⟩
    rcases h with h | h
    · exact absurd h1 (not_le.2 h)
    · omega
  · intro view ext max_upscaling zone i j h
    exact zone_result_checked view ext max_upscaling 0 zone i j ⟨h, rfl⟩

/-- C16 at the failing input: with `m_consistency_threshold = 0` and a matcher
whose two directions disagree while both stay inside the search volume
`(21, 21)` (forward `(1, 1)`, reverse `(17, 17)`, which is `(-4, -4)` once the
search volume is subtracted), the forward match holds the displacement `(1, 1)`
at pixel `(0, 0)` but the tile holds an invalid pixel there, and the tile
changes with the reverse match: the check is done at threshold 0. -/
theorem C16_zero_threshold_checks :
    zero_threshold_view.m_consistency_threshold = 0 ∧
    zero_threshold_view.m_search_region.size.add ⟨1, 1⟩ = ⟨21, 21⟩ ∧
    (∀ cost l r roi k,
      in_search_volume
        (disagreeing_collaborators.best_of_search_convolution cost l r roi ⟨21, 21⟩ k) ⟨21, 21⟩ ∧
      in_search_volume
        (disagreeing_collaborators.best_of_search_convolution_rl cost l r roi ⟨21, 21⟩ k)
        ⟨21, 21⟩) ∧
    (zero_threshold_view.reverse_match disagreeing_collaborators ⟨⟨0, 0⟩, ⟨4, 4⟩⟩).pix 1 1 =
      some ⟨-4, -4⟩ ∧
    ((zero_threshold_view.forward_match disagreeing_collaborators ⟨⟨0, 0⟩, ⟨4, 4⟩⟩).translate
      zero_threshold_view.m_search_region.min).pix 0 0 = some ⟨-9, -9⟩ ∧
    (zero_threshold_view.prerasterize disagreeing_collaborators ⟨⟨0, 0⟩, ⟨4, 4⟩⟩).pix 0 0 = none ∧
    disagreeing_collaborators.best_of_search_convolution =
      agreeing_collaborators.best_of_search_convolution ∧
    zero_threshold_view.prerasterize disagreeing_collaborators ⟨⟨0, 0⟩, ⟨4, 4⟩⟩ ≠
      zero_threshold_view.prerasterize agreeing_collaborators ⟨⟨0, 0⟩, ⟨4, 4⟩⟩ := by
  refine ⟨rfl, by decide, fun cost l r roi k =>
    disagreeing_in_contract cost l r roi ⟨21, 21⟩ k (by decide) (by decide), by decide!,
    by decide!, zero_threshold_run.2.1, rfl, ?_⟩
  intro h
  have h1 := zero_threshold_run.2.1
  have h2 := zero_threshold_run.2.2
  rw [h, h2] at h1
  exact absurd h1 (by simp)

/-- C17 (as stated, refuted): with the threshold 2 and a matcher whose two
directions disagree while both stay inside the search volume `(21, 21)`
(forward `(1, 1)`, reverse `(17, 17)`, a round trip off by `(-3, -3)`), the
matcher returns the valid displacement `(1, 1)` at pixel `(0, 0)`, but the tile
does not hold `(1, 1) + s.min` there: the pixel is invalid. -/
theorem C17_counterexample :
    (checking_view.m_search_region.size.add ⟨1, 1⟩ = ⟨21, 21⟩ ∧
      ∀ cost l r roi k,
        in_search_volume
          (disagreeing_collaborators.best_of_search_convolution cost l r roi ⟨21, 21⟩ k)
          ⟨21, 21⟩ ∧
        in_search_volume
          (disagreeing_collaborators.best_of_search_convolution_rl cost l r roi ⟨21, 21⟩ k)
          ⟨21, 21⟩) ∧
    ¬ (∀ i j (d : Vector2i),
      (checking_view.forward_match disagreeing_collaborators ⟨⟨0, 0⟩, ⟨4, 4⟩⟩).pix i j = some d →
      (checking_view.prerasterize disagreeing_collaborators ⟨⟨0, 0⟩, ⟨4, 4⟩⟩).pix i j =
        some (d.add checking_view.m_search_region.min)) := by
  refine ⟨⟨by decide, fun cost l r roi k =>
    disagreeing_in_contract cost l r roi ⟨21, 21⟩ k (by decide) (by decide)⟩, ?_⟩
  intro h
  have h1 := h 0 0 ⟨1, 1⟩ (by decide!)
  have h2 : (checking_view.prerasterize disagreeing_collaborators ⟨⟨0, 0⟩, ⟨4, 4⟩⟩).pix 0 0 =
      none := by decide!
  rw [h2] at h1
  exact absurd h1 (by simp)

/-- C17 (amended): for every output region `bbox`, kernel size `k` and search
region `s`, the flat correlator crops the left image to
`[bbox.min - k/2, bbox.max + k/2)` and the right image to
`[bbox.min - k/2 + s.min, bbox.max + k/2 + s.max)`, whose size is the left crop's
size plus `s.size()`; every pixel of `result` as it stands after step 4 (the
matcher's output, put through the checker when the threshold is `>= 0`) is
output with `s.min` added and its validity unchanged; with a negative threshold
this is every displacement returned by the matcher. -/
theorem C17_flat_geometry (view : CorrelationView) (ext : FlatCollaborators) (bbox : BBox2i) :
    view.left_region bbox =
      ⟨⟨bbox.min.x - view.m_kernel_size.x.tdiv 2, bbox.min.y - view.m_kernel_size.y.tdiv 2⟩,
       ⟨bbox.max.x + view.m_kernel_size.x.tdiv 2, bbox.max.y + view.m_kernel_size.y.tdiv 2⟩⟩ ∧
    view.right_region bbox =
      ⟨⟨bbox.min.x - view.m_kernel_size.x.tdiv 2 + view.m_search_region.min.x,
        bbox.min.y - view.m_kernel_size.y.tdiv 2 + view.m_search_region.min.y⟩,
       ⟨bbox.max.x + view.m_kernel_size.x.tdiv 2 + view.m_search_region.max.x,
        bbox.max.y + view.m_kernel_size.y.tdiv 2 + view.m_search_region.max.y⟩⟩ ∧
    (view.right_region bbox).size =
      (view.left_region bbox).size.add view.m_search_region.size ∧
    (∀ i j, (view.prerasterize ext bbox).pix i j =
      ((view.checked_match ext bbox).pix i j).map fun d => d.add view.m_search_region.min) ∧
    (∀ i j, ((view.prerasterize ext bbox).pix i j).isSome =
      ((view.checked_match ext bbox).pix i j).isSome) ∧
    (view.m_consistency_threshold < 0 → ∀ i j (d : Vector2i),
      (view.forward_match ext bbox).pix i j = some d →
      (view.prerasterize ext bbox).pix i j = some (d.add view.m_search_region.min)) ∧
    (view.m_consistency_threshold < 0 → ∀ i j,
      (view.forward_match ext bbox).pix i j = none →
      (view.prerasterize ext bbox).pix i j = none) := by
  refine ⟨rfl, ?_, ?_, fun i j => rfl, ?_, ?_, ?_⟩
  · simp only [CorrelationView.right_region, CorrelationView.left_region, BBox2i.shift,
      Vector2i.add, Vector2i.sub, Vector2i.div, BBox2i.size, BBox2i.mk.injEq, Vector2i.mk.injEq,
      true_and]
    constructor <;> ring
  · simp only [CorrelationView.right_region, CorrelationView.left_region, BBox2i.shift,
      Vector2i.add, Vector2i.sub, Vector2i.div, BBox2i.size, Vector2i.mk.injEq]
    constructor <;> ring
  · intro i j
    simp only [CorrelationView.prerasterize, ImageView.translate, Option.isSome_map']
  · intro h i j d hd
    simp only [CorrelationView.prerasterize, checked_match_of_neg view ext bbox h,
      ImageView.translate, hd, Option.map_some']
  · intro h i j hd
    simp only [CorrelationView.prerasterize, checked_match_of_neg view ext bbox h,
      ImageView.translate, hd, Option.map_none']

/-- C18: point-wise evaluation fails for every `(i, j, p)`: `operator()` of
`CorrelationView` and of `PyramidCorrelationView` raises `NoImplErr` and returns
no pixel. -/
theorem C18_pointwise_evaluation_fails (flat : CorrelationView)
    (pyramid : PyramidCorrelationView) (i j p : Int) :
    flat.operator_call i j p = Except.error VWError.NoImplErr ∧
    pyramid.operator_call i j p = Except.error VWError.NoImplErr ∧
    (∀ pixel, flat.operator_call i j p ≠ Except.ok pixel) ∧
    (∀ pixel, pyramid.operator_call i j p ≠ Except.ok pixel) := by
  refine ⟨rfl, rfl, ?_, ?_⟩ <;>
  · intro pixel h
    cases h

/-- C19: for a non-terminal region `R` whose valid displacements are `int32`
values, the region window `current_search_region` of step 3 equals the bounding
union of the observed windows of the quadrants that hold a valid displacement,
the default box of a quadrant without one being neutral for `expand_bbox`; it
equals the observed window `[m, M + (1,1))` of `R` itself, `m` and `M` being the
element-wise minimum and maximum of the valid displacements of `R`, and it is
the default box exactly when `R` holds no valid displacement. -/
theorem C19_region_window (disparity : ImageView) (R : BBox2i)
    (hterm : is_terminal R = false) (h32 : int32_displacements disparity R) :
    current_search_region disparity R = bounding_union (quadrant_windows disparity R) ∧
    (∀ q ∈ [q1 R, q2 R, q3 R, q4 R],
      (¬ has_valid disparity q → quadrant_search disparity q = BBox2i.default) ∧
      expand_bbox (quadrant_search disparity q) BBox2i.default = quadrant_search disparity q ∧
      expand_bbox BBox2i.default (quadrant_search disparity q) = quadrant_search disparity q) ∧
    current_search_region disparity R = quadrant_search disparity R ∧
    (has_valid disparity R → ∃ m M, is_observed disparity R m M) ∧
    (∀ m M, is_observed disparity R m M →
      current_search_region disparity R = ⟨m, ⟨M.x + 1, M.y + 1⟩⟩) ∧
    (current_search_region disparity R = BBox2i.default ↔ ¬ has_valid disparity R) := by
  have hnt : ¬ is_terminal R = true := by rw [hterm]; simp
  obtain ⟨hw, hh⟩ := nonterminal_dims R hnt
  have hw0 : 0 ≤ R.max.x - R.min.x := by omega
  have hh0 : 0 ≤ R.max.y - R.min.y := by omega
  have hq := current_search_region_eq_quadrant_search disparity R hw0 hh0 h32
  have hR : accumulator_in_range (accumulate disparity R) :=
    accumulate_in_range disparity R R h32 (fun _ _ h => h)
  refine ⟨?_, ?_, hq, ?_, ?_, ?_⟩
  · rw [current_search_region_eq_join disparity R hw0 hh0 h32, accumulator_box_join_eq_union,
      quadrant_windows_eq]
  · obtain ⟨s1, s2, s3, s4⟩ := quadrant_subset R hw0 hh0
    have key : ∀ q, (∀ i j, q.contains i j → R.contains i j) →
        (¬ has_valid disparity q → quadrant_search disparity q = BBox2i.default) ∧
        expand_bbox (quadrant_search disparity q) BBox2i.default = quadrant_search disparity q ∧
        expand_bbox BBox2i.default (quadrant_search disparity q) = quadrant_search disparity q := by
      intro q hsub
      have hr := accumulate_in_range disparity R q h32 hsub
      rw [quadrant_search_eq_box]
      refine ⟨?_, expand_bbox_default _ hr⟩
      intro hv
      have : accumulate disparity q = none := by
        rw [accumulate_none_iff]
        intro i j hc
        by_contra hp
        exact hv ⟨i, j, hc, hp⟩
      rw [this]
      rfl
    intro q hmem
    simp only [List.mem_cons, List.mem_singleton, List.not_mem_nil, or_false] at hmem
    rcases hmem with rfl | rfl | rfl | rfl
    · exact key _ s1
    · exact key _ s2
    · exact key _ s3
    · exact key _ s4
  · intro hv
    obtain ⟨m, M, ha⟩ := (accumulate_isSome_iff disparity R).2 hv
    exact ⟨m, M, accumulate_some_observed disparity R m M ha⟩
  · intro m M hobs
    have hu := observed_on_unique R.contains disparity (some (m, M)) (accumulate disparity R) hobs
      (accumulate_observed_on disparity R)
    rw [hq, quadrant_search_eq_box, ← hu]
    rfl
  · rw [hq, quadrant_search_eq_box, accumulator_box_eq_default _ hR, accumulate_none_iff]
    constructor
    · rintro h ⟨i, j, hc, hp⟩
      exact hp (h i j hc)
    · intro h i j hc
      by_contra hp
      exact h ⟨i, j, hc, hp⟩

/-- C19 at a concrete input: the half-valid 16 x 16 map. -/
theorem C19_region_window_witness :
    is_terminal (bounding_box half_valid_map) = false ∧
    int32_displacements half_valid_map (bounding_box half_valid_map) ∧
    current_search_region half_valid_map (bounding_box half_valid_map) =
      bounding_union (quadrant_windows half_valid_map (bounding_box half_valid_map)) ∧
    current_search_region half_valid_map (bounding_box half_valid_map) =
      quadrant_search half_valid_map (bounding_box half_valid_map) :=
  have h32 : int32_displacements half_valid_map (bounding_box half_valid_map) := by
    intro i j v _ hv
    simp only [half_valid_map] at hv
    split_ifs at hv <;> cases hv <;> decide
  have h := C19_region_window half_valid_map (bounding_box half_valid_map) (by decide) h32
  ⟨by decide, h32, h.1, h.2.2.1⟩

/-- C20: for a region `R` of width and height at least 1, the quadrants `q1`, `q2`,
`q3`, `q4` built from `split_pt = R.size()/2` are pairwise disjoint and their union
is `R`; when width and height are at least 2 each quadrant holds a pixel. -/
theorem C20_quadrants_partition (R : BBox2i) (hw : 1 ≤ R.width) (hh : 1 ≤ R.height) :
    (boxes_disjoint (q1 R) (q2 R) ∧ boxes_disjoint (q1 R) (q3 R) ∧ boxes_disjoint (q1 R) (q4 R) ∧
      boxes_disjoint (q2 R) (q3 R) ∧ boxes_disjoint (q2 R) (q4 R) ∧ boxes_disjoint (q3 R) (q4 R)) ∧
    (∀ i j, R.contains i j ↔
      ((q1 R).contains i j ∨ (q2 R).contains i j ∨ (q3 R).contains i j ∨ (q4 R).contains i j)) ∧
    (2 ≤ R.width → 2 ≤ R.height →
      (∃ i j, (q1 R).contains i j) ∧ (∃ i j, (q2 R).contains i j) ∧
      (∃ i j, (q3 R).contains i j) ∧ (∃ i j, (q4 R).contains i j)) := by
  simp only [BBox2i.width, BBox2i.height] at hw hh
  refine ⟨quadrants_disjoint R (by omega) (by omega),
    fun i j => quadrants_cover R (by omega) (by omega) i j, ?_⟩
  intro hw2 hh2
  simp only [BBox2i.width, BBox2i.height] at hw2 hh2
  obtain ⟨hx, hy⟩ := split_pt_eq R (by omega) (by omega)
  refine ⟨⟨R.min.x, R.min.y, ?_⟩, ⟨R.max.x - 1, R.min.y, ?_⟩, ⟨R.min.x, R.max.y - 1, ?_⟩,
    ⟨R.max.x - 1, R.max.y - 1, ?_⟩⟩ <;>
  · simp only [BBox2i.contains, q1, q2, q3, q4, Vector2i.add]
    omega

/-- C20 at a concrete input: the region `[3, 8) x [-2, 1)` of width 5 and height 3. -/
theorem C20_quadrants_partition_witness :
    1 ≤ (BBox2i.mk ⟨3, -2⟩ ⟨8, 1⟩).width ∧ 1 ≤ (BBox2i.mk ⟨3, -2⟩ ⟨8, 1⟩).height ∧
    (boxes_disjoint (q1 ⟨⟨3, -2⟩, ⟨8, 1⟩⟩) (q2 ⟨⟨3, -2⟩, ⟨8, 1⟩⟩) ∧
      boxes_disjoint (q1 ⟨⟨3, -2⟩, ⟨8, 1⟩⟩) (q3 ⟨⟨3, -2⟩, ⟨8, 1⟩⟩) ∧
      boxes_disjoint (q1 ⟨⟨3, -2⟩, ⟨8, 1⟩⟩) (q4 ⟨⟨3, -2⟩, ⟨8, 1⟩⟩) ∧
      boxes_disjoint (q2 ⟨⟨3, -2⟩, ⟨8, 1⟩⟩) (q3 ⟨⟨3, -2⟩, ⟨8, 1⟩⟩) ∧
      boxes_disjoint (q2 ⟨⟨3, -2⟩, ⟨8, 1⟩⟩) (q4 ⟨⟨3, -2⟩, ⟨8, 1⟩⟩) ∧
      boxes_disjoint (q3 ⟨⟨3, -2⟩, ⟨8, 1⟩⟩) (q4 ⟨⟨3, -2⟩, ⟨8, 1⟩⟩)) ∧
    (∀ i j, (BBox2i.mk ⟨3, -2⟩ ⟨8, 1⟩).contains i j ↔
      ((q1 ⟨⟨3, -2⟩, ⟨8, 1⟩⟩).contains i j ∨ (q2 ⟨⟨3, -2⟩, ⟨8, 1⟩⟩).contains i j ∨
        (q3 ⟨⟨3, -2⟩, ⟨8, 1⟩⟩).contains i j ∨ (q4 ⟨⟨3, -2⟩, ⟨8, 1⟩⟩).contains i j)) ∧
    (2 ≤ (BBox2i.mk ⟨3, -2⟩ ⟨8, 1⟩).width → 2 ≤ (BBox2i.mk ⟨3, -2⟩ ⟨8, 1⟩).height →
      (∃ i j, (q1 ⟨⟨3, -2⟩, ⟨8, 1⟩⟩).contains i j) ∧ (∃ i j, (q2 ⟨⟨3, -2⟩, ⟨8, 1⟩⟩).contains i j) ∧
      (∃ i j, (q3 ⟨⟨3, -2⟩, ⟨8, 1⟩⟩).contains i j) ∧
      (∃ i j, (q4 ⟨⟨3, -2⟩, ⟨8, 1⟩⟩).contains i j)) :=
  ⟨by decide, by decide, C20_quadrants_partition ⟨⟨3, -2⟩, ⟨8, 1⟩⟩ (by decide) (by decide)⟩

/-- C21: for every disparity map and region `R`, the window of every zone that
`subdivide_regions` (`fail_count = 0`) produces on `R` holds the displacement `d`
of every valid pixel of the zone's region, `window.min <= d < window.max` on both
axes; the zone regions are pairwise disjoint, and every valid pixel of `R` lies
in the region of exactly one zone. -/
theorem C21_window_holds_displacements (disparity : ImageView) (R : BBox2i)
    (kernel_size : Vector2i) :
    (∀ z ∈ (subdivide_regions disparity R [] kernel_size 0).2,
      ∀ i j d, z.1.contains i j → disparity.pix i j = some d →
        z.2.min.x ≤ d.x ∧ d.x < z.2.max.x ∧ z.2.min.y ≤ d.y ∧ d.y < z.2.max.y) ∧
    zones_disjoint (subdivide_regions disparity R [] kernel_size 0).2 ∧
    (∀ i j, R.contains i j → disparity.pix i j ≠ none →
      ∃ z, (z ∈ (subdivide_regions disparity R [] kernel_size 0).2 ∧ z.1.contains i j) ∧
        ∀ z', z' ∈ (subdivide_regions disparity R [] kernel_size 0).2 ∧ z'.1.contains i j →
          z' = z) := by
  have hok : (subdivide_regions disparity R [] kernel_size 0).1 = true := by
    rw [subdivide_regions_fst_eq]; simp
  obtain ⟨-, hdis, hcov⟩ := partitions_valid_emitted disparity R kernel_size 0 hok
  simp only [emitted] at hdis hcov
  refine ⟨fun z hz => (emitted_zone_spec disparity R kernel_size 0 z hz).1, hdis, ?_⟩
  intro i j hc hv
  obtain ⟨z, hz, hzc⟩ := hcov i j hc hv
  refine ⟨z, ⟨hz, hzc⟩, ?_⟩
  rintro z' ⟨hz', hzc'⟩
  by_contra hne
  have hsymm : Symmetric fun (a b : SearchParam) => boxes_disjoint a.1 b.1 :=
    fun a b h => boxes_disjoint_symm a.1 b.1 h
  exact List.Pairwise.forall hsymm hdis hz' hz hne i j ⟨hzc', hzc⟩

/-- C22: `subdivide_regions` terminates on every input.  Each recursive call is
made on a quadrant of a region of width and height at least 16; the quadrant's
width and height are not negative and strictly smaller than the region's, so
the call relation is well-founded whatever `fail_count` is; a recursive call
never has a `fail_count` other than 0 or 1, and 1 only from a caller with 0; and
run with more fuel than the region is wide, the body returns the result. -/
theorem C22_subdivide_terminates (disparity : ImageView) (kernel_size : Vector2i) :
    (∀ parent child, calls disparity kernel_size child parent →
      16 ≤ parent.1.width ∧ 16 ≤ parent.1.height ∧
      child.1 ∈ [q1 parent.1, q2 parent.1, q3 parent.1, q4 parent.1] ∧
      0 ≤ child.1.width ∧ child.1.width < parent.1.width ∧
      0 ≤ child.1.height ∧ child.1.height < parent.1.height ∧
      (child.2 = 0 ∨ (child.2 = 1 ∧ parent.2 = 0))) ∧
    WellFounded (calls disparity kernel_size) ∧
    (∀ start call,
      Relation.ReflTransGen (fun a b => calls disparity kernel_size b a) start call →
      call = start ∨ call.2 = 0 ∨ call.2 = 1) ∧
    (∀ start call, 0 ≤ start.2 → start.2 ≤ 1 →
      Relation.ReflTransGen (fun a b => calls disparity kernel_size b a) start call →
      0 ≤ call.2 ∧ call.2 ≤ 1) ∧
    (∀ (R : BBox2i) (list : List SearchParam) (fail_count : Int) (fuel : Nat),
      R.width.toNat < fuel →
      subdivide_regions_fuel fuel disparity R list kernel_size fail_count =
        some (subdivide_regions disparity R list kernel_size fail_count)) := by
  have hcall : ∀ parent child, calls disparity kernel_size child parent →
      16 ≤ parent.1.width ∧ 16 ≤ parent.1.height ∧
      child.1 ∈ [q1 parent.1, q2 parent.1, q3 parent.1, q4 parent.1] ∧
      0 ≤ child.1.width ∧ child.1.width < parent.1.width ∧
      0 ≤ child.1.height ∧ child.1.height < parent.1.height ∧
      (child.2 = 0 ∨ (child.2 = 1 ∧ parent.2 = 0)) := by
    intro parent child h
    obtain ⟨hterm, hmem, hfc⟩ := calls_spec disparity kernel_size child parent h
    obtain ⟨hw, hh⟩ := nonterminal_dims parent.1 hterm
    obtain ⟨d1, d2, d3, d4⟩ := quadrant_dims parent.1 child.1 hterm hmem
    simp only [BBox2i.width, BBox2i.height] at *
    exact ⟨hw, hh, hmem, by omega, d2, by omega, d4, hfc⟩
  have hstep : ∀ start call,
      Relation.ReflTransGen (fun a b => calls disparity kernel_size b a) start call →
      call = start ∨ call.2 = 0 ∨ call.2 = 1 := by
    intro start call h
    cases h with
    | refl => exact Or.inl rfl
    | tail _ hbc =>
      right
      rcases (hcall _ _ hbc).2.2.2.2.2.2.2 with h0 | h1
      · exact Or.inl h0
      · exact Or.inr h1.1
  refine ⟨hcall, ?_, hstep, ?_, ?_⟩
  · refine Subrelation.wf ?_ (InvImage.wf (fun p : BBox2i × Int => p.1.width.toNat) Nat.lt_wfRel.wf)
    intro child parent h
    have := hcall parent child h
    simp only [InvImage]
    show child.1.width.toNat < parent.1.width.toNat
    omega
  · intro start call h0 h1 h
    rcases hstep start call h with rfl | h | h
    · exact ⟨h0, h1⟩
    · omega
    · omega
  · intro R list fc fuel h
    exact subdivide_regions_fuel_eq disparity kernel_size fuel R list fc h

/-- C23: left-crop safety in `PyramidCorrelationView::prerasterize`.  For a kernel
size and a tile of non-negative sides, a level `L` not above the depth `D`
(`M = 2^D`, `m = M / 2^L`, `hk = kernel_size / 2`) and a zone whose region lies in
the level's tile `[0, floor(w / 2^L)) x [0, floor(h / 2^L))`, the left crop region
is `[zone.min + (m-1)*hk, zone.max + (m+1)*hk)`; its min corner is not negative
and its max corner does not exceed the size of `left_pyramid[L]`, whose level-0
size is the tile size plus `2*hk*M` and which `subsample` halves at each level,
rounding down or up. -/
theorem C23_left_crop_inside_pyramid (view : PyramidCorrelationView) (bbox : BBox2i)
    (subsample : Int → Int) (D L : Nat) (zone : SearchParam)
    (hL : L ≤ D)
    (hkx : 0 ≤ view.m_kernel_size.x) (hky : 0 ≤ view.m_kernel_size.y)
    (hw : 0 ≤ bbox.width) (hh : 0 ≤ bbox.height)
    (hsub : ∀ n, 0 ≤ n → n / 2 ≤ subsample n)
    (hzone : zone.1.subset (level_tile bbox L)) :
    (zone_regions view (2 ^ D) (2 ^ L) zone).1 =
      ⟨⟨zone.1.min.x + (2 ^ (D - L) - 1) * (view.m_kernel_size.div 2).x,
        zone.1.min.y + (2 ^ (D - L) - 1) * (view.m_kernel_size.div 2).y⟩,
       ⟨zone.1.max.x + (2 ^ (D - L) + 1) * (view.m_kernel_size.div 2).x,
        zone.1.max.y + (2 ^ (D - L) + 1) * (view.m_kernel_size.div 2).y⟩⟩ ∧
    left_pyramid_size view bbox (2 ^ D) subsample 0 =
      ⟨bbox.width + 2 * (view.m_kernel_size.div 2).x * 2 ^ D,
       bbox.height + 2 * (view.m_kernel_size.div 2).y * 2 ^ D⟩ ∧
    (∀ level, left_pyramid_size view bbox (2 ^ D) subsample (level + 1) =
      ⟨subsample (left_pyramid_size view bbox (2 ^ D) subsample level).x,
       subsample (left_pyramid_size view bbox (2 ^ D) subsample level).y⟩) ∧
    0 ≤ (zone_regions view (2 ^ D) (2 ^ L) zone).1.min.x ∧
    0 ≤ (zone_regions view (2 ^ D) (2 ^ L) zone).1.min.y ∧
    (zone_regions view (2 ^ D) (2 ^ L) zone).1.max.x ≤
      (left_pyramid_size view bbox (2 ^ D) subsample L).x ∧
    (zone_regions view (2 ^ D) (2 ^ L) zone).1.max.y ≤
      (left_pyramid_size view bbox (2 ^ D) subsample L).y := by
  have hhx : 0 ≤ (view.m_kernel_size.div 2).x := Int.tdiv_nonneg hkx (by omega)
  have hhy : 0 ≤ (view.m_kernel_size.div 2).y := Int.tdiv_nonneg hky (by omega)
  have hm : (1 : Int) ≤ 2 ^ (D - L) := one_le_pow₀ (by omega)
  have hregion : (zone_regions view (2 ^ D) (2 ^ L) zone).1 =
      ⟨⟨zone.1.min.x + (2 ^ (D - L) - 1) * (view.m_kernel_size.div 2).x,
        zone.1.min.y + (2 ^ (D - L) - 1) * (view.m_kernel_size.div 2).y⟩,
       ⟨zone.1.max.x + (2 ^ (D - L) + 1) * (view.m_kernel_size.div 2).x,
        zone.1.max.y + (2 ^ (D - L) + 1) * (view.m_kernel_size.div 2).y⟩⟩ := by
    simp only [zone_regions, pow_tdiv_pow D L hL, BBox2i.shift, Vector2i.add, Vector2i.sub,
      Vector2i.smul, BBox2i.mk.injEq, Vector2i.mk.injEq]
    refine ⟨⟨?_, ?_⟩, ⟨?_, ?_⟩⟩ <;> ring
  have hsize := left_pyramid_size_zero view bbox (2 ^ D) subsample
  have hsize2 : left_pyramid_size view bbox (2 ^ D) subsample 0 =
      ⟨bbox.width + 2 * (view.m_kernel_size.div 2).x * 2 ^ D,
       bbox.height + 2 * (view.m_kernel_size.div 2).y * 2 ^ D⟩ := by
    rw [hsize, Vector2i.mk.injEq]
    constructor <;> ring
  have h0x : 0 ≤ (left_pyramid_size view bbox (2 ^ D) subsample 0).x := by
    rw [hsize2]
    have : 0 ≤ 2 * (view.m_kernel_size.div 2).x * 2 ^ D := by positivity
    show 0 ≤ bbox.width + 2 * (view.m_kernel_size.div 2).x * 2 ^ D
    omega
  have h0y : 0 ≤ (left_pyramid_size view bbox (2 ^ D) subsample 0).y := by
    rw [hsize2]
    have : 0 ≤ 2 * (view.m_kernel_size.div 2).y * 2 ^ D := by positivity
    show 0 ≤ bbox.height + 2 * (view.m_kernel_size.div 2).y * 2 ^ D
    omega
  obtain ⟨gx, gy⟩ := left_pyramid_size_ge view bbox (2 ^ D) subsample hsub h0x h0y L
  have split : ∀ (w hk : Int), (w + 2 * hk * 2 ^ D) / 2 ^ L = w / 2 ^ L + 2 * hk * 2 ^ (D - L) := by
    intro w hk
    have e : (2 : Int) ^ D = 2 ^ (D - L) * 2 ^ L := by
      rw [← pow_add, Nat.sub_add_cancel hL]
    rw [e, ← mul_assoc, Int.add_mul_ediv_right _ _ (by positivity)]
  rw [hsize2] at gx gy
  simp only [] at gx gy
  rw [split] at gx gy
  simp only [BBox2i.subset, level_tile, BBox2i.ofSize, zero_add] at hzone
  obtain ⟨z1, z2, z3, z4⟩ := hzone
  have mx : 0 ≤ (2 ^ (D - L) - 1) * (view.m_kernel_size.div 2).x :=
    mul_nonneg (by omega) hhx
  have my : 0 ≤ (2 ^ (D - L) - 1) * (view.m_kernel_size.div 2).y :=
    mul_nonneg (by omega) hhy
  refine ⟨hregion, hsize2, fun level => rfl, ?_, ?_, ?_, ?_⟩
  · rw [hregion]; show 0 ≤ zone.1.min.x + _; omega
  · rw [hregion]; show 0 ≤ zone.1.min.y + _; omega
  · rw [hregion]
    show zone.1.max.x + _ ≤ _
    have : (2 ^ (D - L) + 1) * (view.m_kernel_size.div 2).x +
        (2 ^ (D - L) - 1) * (view.m_kernel_size.div 2).x =
        2 * (view.m_kernel_size.div 2).x * 2 ^ (D - L) := by ring
    omega
  · rw [hregion]
    show zone.1.max.y + _ ≤ _
    have : (2 ^ (D - L) + 1) * (view.m_kernel_size.div 2).y +
        (2 ^ (D - L) - 1) * (view.m_kernel_size.div 2).y =
        2 * (view.m_kernel_size.div 2).y * 2 ^ (D - L) := by ring
    omega

/-- C23 at a concrete input: the sample correlator (7 x 7 kernel) on a 64 x 64
tile with depth 3, level 1 and the zone region `[8, 32) x [0, 16)`. -/
theorem C23_left_crop_inside_pyramid_witness :
    1 ≤ 3 ∧ 0 ≤ sample_view.m_kernel_size.x ∧ 0 ≤ sample_view.m_kernel_size.y ∧
    (BBox2i.mk ⟨8, 0⟩ ⟨32, 16⟩).subset (level_tile ⟨⟨0, 0⟩, ⟨64, 64⟩⟩ 1) ∧
    (∀ n, 0 ≤ n → n / 2 ≤ subsample_size n) ∧
    (zone_regions sample_view (2 ^ 3) (2 ^ 1) (⟨⟨8, 0⟩, ⟨32, 16⟩⟩, ⟨⟨0, 0⟩, ⟨4, 4⟩⟩)).1 =
      ⟨⟨17, 9⟩, ⟨47, 31⟩⟩ ∧
    left_pyramid_size sample_view ⟨⟨0, 0⟩, ⟨64, 64⟩⟩ (2 ^ 3) subsample_size 1 = ⟨56, 56⟩ ∧
    0 ≤ (zone_regions sample_view (2 ^ 3) (2 ^ 1)
      (⟨⟨8, 0⟩, ⟨32, 16⟩⟩, ⟨⟨0, 0⟩, ⟨4, 4⟩⟩)).1.min.x ∧
    (zone_regions sample_view (2 ^ 3) (2 ^ 1) (⟨⟨8, 0⟩, ⟨32, 16⟩⟩, ⟨⟨0, 0⟩, ⟨4, 4⟩⟩)).1.max.x ≤
      (left_pyramid_size sample_view ⟨⟨0, 0⟩, ⟨64, 64⟩⟩ (2 ^ 3) subsample_size 1).x :=
  have h := C23_left_crop_inside_pyramid sample_view ⟨⟨0, 0⟩, ⟨64, 64⟩⟩ subsample_size 3 1
    (⟨⟨8, 0⟩, ⟨32, 16⟩⟩, ⟨⟨0, 0⟩, ⟨4, 4⟩⟩) (by decide) (by decide) (by decide) (by decide)
    (by decide) subsample_size_ge (by unfold BBox2i.subset; decide)
  ⟨by decide, by decide, by decide, by unfold BBox2i.subset; decide, subsample_size_ge,
    by decide, by decide, h.2.2.2.1, h.2.2.2.2.2.1⟩

/-- C24: every zone emitted by `subdivide_regions`, whatever `fail_count` is, has a
window of width and height at least 1, which is not the default box, on a region
that holds a valid displacement; a quadrant whose call returns false holds a
valid displacement, and every entry of the failed list carries the observed box
of its quadrant, at least 1 wide and high. -/
theorem C24_windows_not_degenerate (disparity : ImageView) (R : BBox2i) (kernel_size : Vector2i) :
    (∀ (list : List SearchParam) (fail_count : Int),
      ∀ z ∈ (subdivide_regions disparity R [] kernel_size fail_count).2,
        z ∈ (subdivide_regions disparity R list kernel_size fail_count).2 ∧
        1 ≤ z.2.width ∧ 1 ≤ z.2.height ∧ z.2 ≠ BBox2i.default ∧ has_valid disparity z.1) ∧
    (∀ (list : List SearchParam) (fail_count : Int),
      (subdivide_regions disparity R list kernel_size fail_count).1 = false →
        has_valid disparity R ∧ 1 ≤ (quadrant_search disparity R).width ∧
        1 ≤ (quadrant_search disparity R).height ∧
        quadrant_search disparity R ≠ BBox2i.default) ∧
    (∀ f ∈ failed_quadrants disparity R kernel_size,
      has_valid disparity f.1 ∧ f.2 = quadrant_search disparity f.1 ∧
      1 ≤ f.2.width ∧ 1 ≤ f.2.height ∧ f.2 ≠ BBox2i.default) := by
  refine ⟨?_, ?_, ?_⟩
  · intro list fc z hz
    have hspec := emitted_zone_spec disparity R kernel_size fc z hz
    refine ⟨?_, hspec.2.1, hspec.2.2, width_ne_default _ hspec.2.1, ?_⟩
    · rw [subdivide_regions_append]
      exact List.mem_append_right _ hz
    · rcases zone_origin_emitted disparity R kernel_size fc z hz with
        ⟨mn, mx, -, ha, -⟩ | ⟨p, hterm, -, hp⟩
      · exact (accumulate_isSome_iff disparity z.1).1 ⟨mn, mx, ha⟩
      · by_contra hnv
        have hempty : ∀ i j v, z.1.contains i j → disparity.pix i j = some v → False := by
          intro i j v hc hv
          exact hnv ⟨i, j, hc, by rw [hv]; simp⟩
        have hnt : ¬ is_terminal p = true := by rw [hterm]; simp
        obtain ⟨hw, hh⟩ := nonterminal_dims p hnt
        have hsub : List.Sublist (failed_quadrants disparity p kernel_size)
            [(q1 p, quadrant_search disparity (q1 p)), (q2 p, quadrant_search disparity (q2 p)),
              (q3 p, quadrant_search disparity (q3 p)), (q4 p, quadrant_search disparity (q4 p))] :=
          failed_sublist _ _ _ _ _ _ _ _
        have hcovz : ∀ f ∈ failed_quadrants disparity p kernel_size,
            (∀ i j, f.1.contains i j → z.1.contains i j) → False := by
          intro f hf hin
          obtain ⟨mn, mx, -, ha, -⟩ := failed_quadrant_spec disparity p kernel_size f hf
          obtain ⟨i, j, hc, hv⟩ := (accumulate_isSome_iff disparity f.1).1 ⟨mn, mx, ha⟩
          cases hpix : disparity.pix i j with
          | none => exact hv hpix
          | some v => exact hempty i j v (hin i j hc) hpix
        have hspec := fold_failed_spec p (current_search_region disparity p)
          (quadrant_search disparity (q1 p)) (quadrant_search disparity (q2 p))
          (quadrant_search disparity (q3 p)) (quadrant_search disparity (q4 p))
          (subdivide_regions disparity (q1 p) [] kernel_size 1).1
          (subdivide_regions disparity (q2 p) [] kernel_size 1).1
          (subdivide_regions disparity (q3 p) [] kernel_size 1).1
          (subdivide_regions disparity (q4 p) [] kernel_size 1).1 hnt
        simp only [] at hspec
        rw [← failed_quadrants] at hspec
        obtain ⟨hdisj, hcov⟩ := hspec
        have hcov2 : ∀ i j, covered (fold_failed p (current_search_region disparity p)
            (failed_quadrants disparity p kernel_size)) i j ↔
            covered (failed_quadrants disparity p kernel_size) i j := by
          intro i j
          rw [hcov, failed_quadrants, covered_failed]
        rcases Nat.lt_or_ge (failed_quadrants disparity p kernel_size).length 4 with hlt | hge
        · rcases Nat.eq_zero_or_pos (failed_quadrants disparity p kernel_size).length with h0 | hpos
          · rw [List.length_eq_zero.1 h0] at hp
            simp [fold_failed] at hp
          · rcases fold_failed_merge p (current_search_region disparity p) _ hpos (by omega)
              with he | ⟨a, c, rest, hm, hs, hmem, he⟩
            · rw [he] at hp
              exact hcovz z hp (fun _ _ h => h)
            · rw [he, List.mem_cons] at hp
              rcases hp with rfl | hp
              · have hpw := (quadrants_pairwise_merge p _ _ _ _ hnt).sublist (hs.trans hsub)
                simp only [List.pairwise_cons, List.mem_singleton, forall_eq] at hpw
                obtain ⟨-, -, hun⟩ := hpw.1 hm
                exact hcovz a ((hmem a).2 (Or.inl rfl))
                  (fun i j h => (hun i j).2 (Or.inl h))
              · exact hcovz z ((hmem z).2 (Or.inr (Or.inr hp))) (fun _ _ h => h)
        · have hfull := hsub.eq_of_length_le hge
          have h1 : (q1 p, quadrant_search disparity (q1 p)) ∈
              failed_quadrants disparity p kernel_size := by
            rw [hfull]; simp
          rw [hfull] at hp
          simp only [fold_failed, List.mem_singleton] at hp
          refine hcovz _ h1 ?_
          intro i j hc
          rw [hp]
          exact (quadrants_cover p (by omega) (by omega) i j).2 (Or.inl hc)
  · intro list fc hfalse
    rw [subdivide_regions_fst_eq] at hfalse
    simp only [Bool.not_eq_false', Bool.and_eq_true, Bool.not_eq_true', decide_eq_true_eq] at hfalse
    obtain ⟨⟨ht, hb⟩, -⟩ := hfalse
    obtain ⟨hw, hh⟩ := nonterminal_dims R (by rw [ht]; simp)
    simp only [bad_split, decide_eq_true_eq] at hb
    have hv := bad_split_has_valid disparity R kernel_size (by omega) (by omega) hb
    obtain ⟨mn, mx, ha⟩ := (accumulate_isSome_iff disparity R).2 hv
    obtain ⟨-, hw1, hh1⟩ := search_box_holds disparity R mn mx ha
    have hs : quadrant_search disparity R = search_box mn mx := by
      simp only [quadrant_search, ha]
    rw [hs]
    exact ⟨hv, hw1, hh1, width_ne_default _ hw1⟩
  · intro f hf
    obtain ⟨mn, mx, -, ha, hs⟩ := failed_quadrant_spec disparity R kernel_size f hf
    obtain ⟨-, hw1, hh1⟩ := search_box_holds disparity f.1 mn mx ha
    have hq : quadrant_search disparity f.1 = search_box mn mx := by
      simp only [quadrant_search, ha]
    rw [hq, hs]
    exact ⟨(accumulate_isSome_iff disparity f.1).1 ⟨mn, mx, ha⟩, rfl, hw1, hh1,
      width_ne_default _ hw1⟩

/-- C25 (as stated, refuted): the region `[0, 65536) x [0, 65536)` has width and
height 65536, not negative and not below 16, but its area 2^32 is 0 as an `int32`
product: the terminal test holds, by the area bound alone. -/
theorem C25_counterexample :
    ¬ (∀ R : BBox2i, 0 ≤ R.width → 0 ≤ R.height →
      ((wrap_int32 (prod R.size) ≤ 200 ∨ R.width < 16 ∨ R.height < 16) ↔
        (R.width < 16 ∨ R.height < 16))) ∧
    is_terminal ⟨⟨0, 0⟩, ⟨65536, 65536⟩⟩ = true ∧
    terminal_by_sides ⟨⟨0, 0⟩, ⟨65536, 65536⟩⟩ = false ∧
    wrap_int32 (prod (BBox2i.size ⟨⟨0, 0⟩, ⟨65536, 65536⟩⟩)) = 0 := by
  refine ⟨?_, by decide!, by decide!, by decide!⟩
  intro h
  have h1 := (h ⟨⟨0, 0⟩, ⟨65536, 65536⟩⟩ (by decide) (by decide)).1 (Or.inl (by decide!))
  revert h1
  decide

/-- C25 (amended): for every region whose area `width * height` fits in an `int32`
(at most 2^31 - 1, as for all sides from 0 to 46340), the terminal test of
`subdivide_regions`, `int32` area `<= 200` or width `< 16` or height `< 16`,
decides as the two side tests alone do: with width and height at least 16 the
area is at least 256, so the area bound does not decide on its own. -/
theorem C25_area_bound_redundant (R : BBox2i) (hfit : R.width * R.height ≤ INT32_MAX) :
    is_terminal R = terminal_by_sides R ∧
    ((wrap_int32 (prod R.size) ≤ 200 ∨ R.width < 16 ∨ R.height < 16) ↔
      (R.width < 16 ∨ R.height < 16)) ∧
    (16 ≤ R.width → 16 ≤ R.height → 256 ≤ wrap_int32 (prod R.size)) := by
  have hp : prod R.size = R.width * R.height := by
    simp only [prod, BBox2i.size, BBox2i.width, BBox2i.height]
  have key : 16 ≤ R.width → 16 ≤ R.height → 256 ≤ wrap_int32 (prod R.size) := by
    intro hw hh
    have hbig : 256 ≤ R.width * R.height := by nlinarith
    rw [hp, wrap_int32_of_fits _ (by simp only [INT32_MIN]; omega) hfit]
    exact hbig
  have he := is_terminal_eq_sides R hfit
  refine ⟨he, ?_, key⟩
  simp only [is_terminal, terminal_by_sides] at he
  exact decide_eq_decide.1 he

/-- C25 at a concrete input: the largest square whose area fits, 46340 x 46340. -/
theorem C25_area_bound_redundant_witness :
    (BBox2i.mk ⟨0, 0⟩ ⟨46340, 46340⟩).width * (BBox2i.mk ⟨0, 0⟩ ⟨46340, 46340⟩).height ≤
      INT32_MAX ∧
    is_terminal ⟨⟨0, 0⟩, ⟨46340, 46340⟩⟩ = terminal_by_sides ⟨⟨0, 0⟩, ⟨46340, 46340⟩⟩ ∧
    is_terminal ⟨⟨0, 0⟩, ⟨46340, 46340⟩⟩ = false :=
  ⟨by decide, (C25_area_bound_redundant ⟨⟨0, 0⟩, ⟨46340, 46340⟩⟩ (by decide)).1, by decide!⟩

/-! ## Worked examples -/

/-- The zones of the 16 x 16 step map: one zone per quadrant, with a one-wide
search window at displacement 0 on the left and 10 on the right. -/
theorem step_disparity_zones :
    (subdivide_regions step_disparity (bounding_box step_disparity) [] ⟨3, 3⟩ 0).2 =
      [(⟨⟨0, 0⟩, ⟨8, 8⟩⟩, ⟨⟨0, 0⟩, ⟨1, 1⟩⟩), (⟨⟨8, 0⟩, ⟨16, 8⟩⟩, ⟨⟨10, 0⟩, ⟨11, 1⟩⟩),
       (⟨⟨0, 8⟩, ⟨8, 16⟩⟩, ⟨⟨0, 0⟩, ⟨1, 1⟩⟩), (⟨⟨8, 8⟩, ⟨16, 16⟩⟩, ⟨⟨10, 0⟩, ⟨11, 1⟩⟩)] := by
  have hterm : ¬ is_terminal (bounding_box step_disparity) = true := by decide
  have hg : ¬ (bad_split step_disparity (bounding_box step_disparity) ⟨3, 3⟩ = true ∧ (0 : Int) ≤ 0) := by
    decide!
  have h := emitted_good step_disparity (bounding_box step_disparity) ⟨3, 3⟩ 0 hterm hg
  simp only [emitted] at h
  rw [h]
  have t1 : is_terminal (q1 (bounding_box step_disparity)) = true := by decide
  have t2 : is_terminal (q2 (bounding_box step_disparity)) = true := by decide
  have t3 : is_terminal (q3 (bounding_box step_disparity)) = true := by decide
  have t4 : is_terminal (q4 (bounding_box step_disparity)) = true := by decide
  rw [subdivide_regions_terminal _ _ _ _ _ t1, subdivide_regions_terminal _ _ _ _ _ t2,
    subdivide_regions_terminal _ _ _ _ _ t3, subdivide_regions_terminal _ _ _ _ _ t4]
  decide!

/-- A run of the level loop: the small correlator with the constant matcher on a
2 x 2 tile processes levels 1 and 0; the single coarse pixel yields one zone,
doubled to the whole tile, with the window `[0, 3) x [0, 3)`. -/
theorem small_run_levels :
    (processed_levels small_view constant_collaborators ⟨⟨0, 0⟩, ⟨2, 2⟩⟩).map
        (fun entry => (entry.1, entry.2.1)) =
      [(1, [(⟨⟨0, 0⟩, ⟨1, 1⟩⟩, ⟨⟨0, 0⟩, ⟨3, 3⟩⟩)]),
       (0, [(⟨⟨0, 0⟩, ⟨2, 2⟩⟩, ⟨⟨0, 0⟩, ⟨3, 3⟩⟩)])] := by
  have hlev : max_pyramid_levels small_view ⟨⟨0, 0⟩, ⟨2, 2⟩⟩ = 1 := by decide!
  have hbox : bounding_box (process_level small_view constant_collaborators ⟨⟨0, 0⟩, ⟨2, 2⟩⟩
      (2 ^ 1) 1 [initial_zone small_view ⟨⟨0, 0⟩, ⟨2, 2⟩⟩ (2 ^ 1)]) = ⟨⟨0, 0⟩, ⟨1, 1⟩⟩ := by
    decide!
  have hacc : accumulate (process_level small_view constant_collaborators ⟨⟨0, 0⟩, ⟨2, 2⟩⟩
      (2 ^ 1) 1 [initial_zone small_view ⟨⟨0, 0⟩, ⟨2, 2⟩⟩ (2 ^ 1)]) ⟨⟨0, 0⟩, ⟨1, 1⟩⟩ =
      some (⟨0, 0⟩, ⟨0, 0⟩) := by
    decide!
  have hsub : (subdivide_regions (process_level small_view constant_collaborators ⟨⟨0, 0⟩, ⟨2, 2⟩⟩
      (2 ^ 1) 1 [initial_zone small_view ⟨⟨0, 0⟩, ⟨2, 2⟩⟩ (2 ^ 1)])
      (bounding_box (process_level small_view constant_collaborators ⟨⟨0, 0⟩, ⟨2, 2⟩⟩ (2 ^ 1) 1
        [initial_zone small_view ⟨⟨0, 0⟩, ⟨2, 2⟩⟩ (2 ^ 1)])) [] small_view.m_kernel_size 0).2 =
      [(⟨⟨0, 0⟩, ⟨1, 1⟩⟩, ⟨⟨0, 0⟩, ⟨1, 1⟩⟩)] := by
    rw [hbox, subdivide_regions_terminal _ _ _ _ _ (by decide), hacc]
    rfl
  simp only [processed_levels, hlev]
  rw [if_neg (by decide)]
  simp only [show (1 : Int).toNat = 1 from rfl, level_loop, hsub, List.map_cons, List.map_nil]
  decide!

/-- The depth of the sample correlator on a 64 x 64 tile is 3: the coarsest tile
is 8 x 8 for a 7 x 7 kernel. -/
theorem sample_depth :
    max_pyramid_levels sample_view ⟨⟨0, 0⟩, ⟨64, 64⟩⟩ = 3 ∧
    (initial_zone sample_view ⟨⟨0, 0⟩, ⟨64, 64⟩⟩ (2 ^ 3)).1 = ⟨⟨0, 0⟩, ⟨8, 8⟩⟩ ∧
    (initial_zone sample_view ⟨⟨0, 0⟩, ⟨64, 64⟩⟩ (2 ^ 3)).2 = ⟨⟨0, 0⟩, ⟨3, 3⟩⟩ := by
  decide!

/-- The tile of the same run: 2 x 2, every pixel valid with the displacement
`(0, 0)` of the matcher moved to the min corner `(-2, -2)` of the search region. -/
theorem small_run_result :
    (prerasterize small_view constant_collaborators ⟨⟨0, 0⟩, ⟨2, 2⟩⟩).map
        (fun result => (result.cols, result.rows, result.pix 0 0, result.pix 1 0,
          result.pix 0 1, result.pix 1 1, result.pix 2 2)) =
      some (2, 2, some ⟨-2, -2⟩, some ⟨-2, -2⟩, some ⟨-2, -2⟩, some ⟨-2, -2⟩, none) := by
  have hlev : max_pyramid_levels small_view ⟨⟨0, 0⟩, ⟨2, 2⟩⟩ = 1 := by decide!
  have hbox : bounding_box (process_level small_view constant_collaborators ⟨⟨0, 0⟩, ⟨2, 2⟩⟩
      (2 ^ 1) 1 [initial_zone small_view ⟨⟨0, 0⟩, ⟨2, 2⟩⟩ (2 ^ 1)]) = ⟨⟨0, 0⟩, ⟨1, 1⟩⟩ := by
    decide!
  have hacc : accumulate (process_level small_view constant_collaborators ⟨⟨0, 0⟩, ⟨2, 2⟩⟩
      (2 ^ 1) 1 [initial_zone small_view ⟨⟨0, 0⟩, ⟨2, 2⟩⟩ (2 ^ 1)]) ⟨⟨0, 0⟩, ⟨1, 1⟩⟩ =
      some (⟨0, 0⟩, ⟨0, 0⟩) := by
    decide!
  have hsub : (subdivide_regions (process_level small_view constant_collaborators ⟨⟨0, 0⟩, ⟨2, 2⟩⟩
      (2 ^ 1) 1 [initial_zone small_view ⟨⟨0, 0⟩, ⟨2, 2⟩⟩ (2 ^ 1)])
      (bounding_box (process_level small_view constant_collaborators ⟨⟨0, 0⟩, ⟨2, 2⟩⟩ (2 ^ 1) 1
        [initial_zone small_view ⟨⟨0, 0⟩, ⟨2, 2⟩⟩ (2 ^ 1)])) [] small_view.m_kernel_size 0).2 =
      [(⟨⟨0, 0⟩, ⟨1, 1⟩⟩, ⟨⟨0, 0⟩, ⟨1, 1⟩⟩)] := by
    rw [hbox, subdivide_regions_terminal _ _ _ _ _ (by decide), hacc]
    rfl
  have hfinal : final_disparity small_view constant_collaborators ⟨⟨0, 0⟩, ⟨2, 2⟩⟩ =
      process_level small_view constant_collaborators ⟨⟨0, 0⟩, ⟨2, 2⟩⟩ (2 ^ 1) 0
        (refine_zones small_view constant_collaborators (2 ^ 0)
          [(⟨⟨0, 0⟩, ⟨1, 1⟩⟩, ⟨⟨0, 0⟩, ⟨1, 1⟩⟩)]) := by
    simp only [final_disparity, processed_levels, hlev]
    rw [if_neg (by decide)]
    simp only [show (1 : Int).toNat = 1 from rfl, level_loop, hsub]
    rfl
  simp only [prerasterize, hlev]
  rw [if_neg (by decide)]
  simp only [hfinal, Option.map_some', Option.some.injEq, Prod.mk.injEq]
  refine ⟨?_, ?_, ?_, ?_, ?_, ?_, ?_⟩ <;> decide!

/-- A run on a 3 x 3 tile: the coarse level is 1 x 1, its zone doubles to
`[0, 2) x [0, 2)`, and the pixel `(2, 2)` of the level-0 tile lies in no zone
although the coarse pixel is valid. -/
theorem odd_tile_run :
    (processed_levels small_view constant_collaborators ⟨⟨0, 0⟩, ⟨3, 3⟩⟩).map
        (fun entry => (entry.1, entry.2.1)) =
      [(1, [(⟨⟨0, 0⟩, ⟨1, 1⟩⟩, ⟨⟨0, 0⟩, ⟨3, 3⟩⟩)]),
       (0, [(⟨⟨0, 0⟩, ⟨2, 2⟩⟩, ⟨⟨0, 0⟩, ⟨3, 3⟩⟩)])] ∧
    (level_tile ⟨⟨0, 0⟩, ⟨3, 3⟩⟩ 0).contains 2 2 ∧
    ¬ covered [(⟨⟨0, 0⟩, ⟨2, 2⟩⟩, ⟨⟨0, 0⟩, ⟨3, 3⟩⟩)] 2 2 := by
  have hlev : max_pyramid_levels small_view ⟨⟨0, 0⟩, ⟨3, 3⟩⟩ = 1 := by decide!
  have hbox : bounding_box (process_level small_view constant_collaborators ⟨⟨0, 0⟩, ⟨3, 3⟩⟩
      (2 ^ 1) 1 [initial_zone small_view ⟨⟨0, 0⟩, ⟨3, 3⟩⟩ (2 ^ 1)]) = ⟨⟨0, 0⟩, ⟨1, 1⟩⟩ := by
    decide!
  have hacc : accumulate (process_level small_view constant_collaborators ⟨⟨0, 0⟩, ⟨3, 3⟩⟩
      (2 ^ 1) 1 [initial_zone small_view ⟨⟨0, 0⟩, ⟨3, 3⟩⟩ (2 ^ 1)]) ⟨⟨0, 0⟩, ⟨1, 1⟩⟩ =
      some (⟨0, 0⟩, ⟨0, 0⟩) := by
    decide!
  have hsub : (subdivide_regions (process_level small_view constant_collaborators ⟨⟨0, 0⟩, ⟨3, 3⟩⟩
      (2 ^ 1) 1 [initial_zone small_view ⟨⟨0, 0⟩, ⟨3, 3⟩⟩ (2 ^ 1)])
      (bounding_box (process_level small_view constant_collaborators ⟨⟨0, 0⟩, ⟨3, 3⟩⟩ (2 ^ 1) 1
        [initial_zone small_view ⟨⟨0, 0⟩, ⟨3, 3⟩⟩ (2 ^ 1)])) [] small_view.m_kernel_size 0).2 =
      [(⟨⟨0, 0⟩, ⟨1, 1⟩⟩, ⟨⟨0, 0⟩, ⟨1, 1⟩⟩)] := by
    rw [hbox, subdivide_regions_terminal _ _ _ _ _ (by decide), hacc]
    rfl
  refine ⟨?_, by decide, ?_⟩
  · simp only [processed_levels, hlev]
    rw [if_neg (by decide)]
    simp only [show (1 : Int).toNat = 1 from rfl, level_loop, hsub, List.map_cons, List.map_nil]
    decide!
  · rintro ⟨z, hz, hc⟩
    rw [List.mem_singleton] at hz
    subst hz
    revert hc
    decide

/-- The flat map is matched as a single zone with the window `[0, 1) x [0, 1)`. -/
theorem flat_disparity_zones :
    subdivide_regions flat_disparity (bounding_box flat_disparity) [] ⟨3, 3⟩ 0 =
      (true, [(⟨⟨0, 0⟩, ⟨32, 32⟩⟩, ⟨⟨0, 0⟩, ⟨1, 1⟩⟩)]) := by
  have hterm : ¬ is_terminal (bounding_box flat_disparity) = true := by decide
  have hbad : bad_split flat_disparity (bounding_box flat_disparity) ⟨3, 3⟩ = true := by decide!
  rw [subdivide_regions_retry _ _ _ _ hterm hbad]
  simp only []
  have b1 := subdivide_regions_backup flat_disparity (q1 (bounding_box flat_disparity)) [] ⟨3, 3⟩ 1
    (by decide) (by decide!) (by decide)
  have b2 := subdivide_regions_backup flat_disparity (q2 (bounding_box flat_disparity)) [] ⟨3, 3⟩ 1
    (by decide) (by decide!) (by decide)
  have b3 := subdivide_regions_backup flat_disparity (q3 (bounding_box flat_disparity)) [] ⟨3, 3⟩ 1
    (by decide) (by decide!) (by decide)
  have b4 := subdivide_regions_backup flat_disparity (q4 (bounding_box flat_disparity)) [] ⟨3, 3⟩ 1
    (by decide) (by decide!) (by decide)
  rw [b1, b2, b3, b4]
  decide!

/-- On the mixed map the quadrants `q1`, `q3` and `q4` fail; `q1` and `q3` lie
above each other with the same window and are merged into the left half. -/
theorem mixed_disparity_fold :
    failed_quadrants mixed_disparity (bounding_box mixed_disparity) ⟨3, 3⟩ =
      [(⟨⟨0, 0⟩, ⟨16, 16⟩⟩, ⟨⟨0, 0⟩, ⟨11, 1⟩⟩), (⟨⟨0, 16⟩, ⟨16, 32⟩⟩, ⟨⟨0, 0⟩, ⟨11, 1⟩⟩),
        (⟨⟨16, 16⟩, ⟨32, 32⟩⟩, ⟨⟨0, 0⟩, ⟨11, 1⟩⟩)] ∧
    fold_failed (bounding_box mixed_disparity)
      (current_search_region mixed_disparity (bounding_box mixed_disparity))
      (failed_quadrants mixed_disparity (bounding_box mixed_disparity) ⟨3, 3⟩) =
      [(⟨⟨0, 0⟩, ⟨16, 32⟩⟩, ⟨⟨0, 0⟩, ⟨11, 1⟩⟩), (⟨⟨16, 16⟩, ⟨32, 32⟩⟩, ⟨⟨0, 0⟩, ⟨11, 1⟩⟩)] := by
  simp only [failed_quadrants, subdivide_regions_fst_eq]
  decide!

/-- The quadrants of `[3, 8) x [-2, 1)`: the split point is `(2, 1)`. -/
theorem quadrants_example :
    q1 ⟨⟨3, -2⟩, ⟨8, 1⟩⟩ = ⟨⟨3, -2⟩, ⟨5, -1⟩⟩ ∧ q2 ⟨⟨3, -2⟩, ⟨8, 1⟩⟩ = ⟨⟨5, -2⟩, ⟨8, -1⟩⟩ ∧
    q3 ⟨⟨3, -2⟩, ⟨8, 1⟩⟩ = ⟨⟨3, -1⟩, ⟨5, 1⟩⟩ ∧ q4 ⟨⟨3, -2⟩, ⟨8, 1⟩⟩ = ⟨⟨5, -1⟩, ⟨8, 1⟩⟩ := by
  decide

/-- The region window of the half-valid map: the union of the windows of the two
right quadrants, the two left quadrants holding no valid displacement. -/
theorem half_valid_window :
    quadrant_windows half_valid_map (bounding_box half_valid_map) =
      [⟨⟨3, -2⟩, ⟨4, -1⟩⟩, ⟨⟨5, 1⟩, ⟨6, 2⟩⟩] ∧
    current_search_region half_valid_map (bounding_box half_valid_map) = ⟨⟨3, -2⟩, ⟨6, 2⟩⟩ := by
  decide!

/-- The calls made on the flat 32 x 32 map: the first attempt retries its four
quarters with `fail_count = 1`, and these back up without a further call. -/
theorem flat_disparity_calls :
    recursive_calls flat_disparity (bounding_box flat_disparity) ⟨3, 3⟩ 0 =
      [(⟨⟨0, 0⟩, ⟨16, 16⟩⟩, 1), (⟨⟨16, 0⟩, ⟨32, 16⟩⟩, 1), (⟨⟨0, 16⟩, ⟨16, 32⟩⟩, 1),
        (⟨⟨16, 16⟩, ⟨32, 32⟩⟩, 1)] ∧
    recursive_calls flat_disparity ⟨⟨0, 0⟩, ⟨16, 16⟩⟩ ⟨3, 3⟩ 1 = [] ∧
    subdivide_regions_fuel 2 flat_disparity (bounding_box flat_disparity) [] ⟨3, 3⟩ 0 =
      some (true, [(⟨⟨0, 0⟩, ⟨32, 32⟩⟩, ⟨⟨0, 0⟩, ⟨1, 1⟩⟩)]) ∧
    subdivide_regions_fuel 1 flat_disparity (bounding_box flat_disparity) [] ⟨3, 3⟩ 0 = none := by
  decide!

end rewrite
end stereo
end vw
